import Mathlib

/-!
# Secure file server: a shallow embedding of `src/server/file_server.c`

The C program is a multi-threaded TCP file server.  Every piece of shared state is
guarded by a mutex, so each of the functions below runs atomically with respect to
the state it touches; a concurrent execution is therefore a sequential interleaving
of these functions, which is what the step functions and the `run` folds describe.

Conventions of the embedding

* a C `char` is a `CChar` (one byte); a C string is the list of its bytes before the
  terminating NUL;
* `strcmp(a, b) == 0` is equality of the two byte lists, `strncpy(dst, src, n)`
  followed by `dst[n] = 0` stores `src.take n`;
* system calls are modelled by their outcome, supplied by an environment record, and
  by an `Event` left in the trace of the handler.
-/

namespace FileServer

/-! ## Bytes and strings -/

/-- One C `char`. -/
abbrev CChar := Fin 256

/-- The bytes of a C string (terminating NUL not included). -/
abbrev CString := List CChar

/-- The bytes of an ASCII literal of the source. -/
def ascii (s : String) : CString := s.toList.map (fun c => Fin.ofNat c.toNat)

/-! ## Configuration constants (the `#define`s of the source) -/

def MAX_BUFFER : Nat := 4096
def MAX_PATH : Nat := 512
def STORAGE_DIR : CString := ascii "./storage/"
def METADATA_DIR : CString := ascii "./metadata/"
def UPLOAD_TIMEOUT : Int := 300
def MAX_FILENAME : Nat := 256
def AUTH_TOKEN_DEFAULT : CString := ascii "os-core-token"
def MAX_CLIENT_TRACK : Nat := 128
def MAX_TOKEN_LEN : Nat := 128
def FAILURE_THRESHOLD : Int := 3
def BLOCK_SECONDS : Int := 600
def MAX_LOCKED_FILES : Nat := 100
def INET_ADDRSTRLEN : Nat := 16

/-! ## The global lock table (`locked_files`, `num_locked_files`) -/

/-- One slot of `locked_files`. -/
structure locked_file_t where
  filename : CString
  locked : Bool
  thread_id : Nat
deriving DecidableEq, Repr

/-- The array `locked_files` together with the counter `num_locked_files`. -/
structure LockTable where
  locked_files : List locked_file_t
  num_locked_files : Nat
deriving DecidableEq, Repr

/-- The zero-initialised globals at program start. -/
def LockTable.empty : LockTable :=
  { locked_files := List.replicate MAX_LOCKED_FILES ⟨[], false, 0⟩, num_locked_files := 0 }

/-- The test `strcmp(locked_files[i].filename, filename) == 0 && locked_files[i].locked`. -/
def slot_matches (e : locked_file_t) (filename : CString) : Bool :=
  decide (e.filename = filename) && e.locked

/-- The scanning loop `for (i = 0; i < n; i++) if (matches) ...` shared by acquire and
release: the index of the first matching slot among the first `n`. -/
def find_locked : List locked_file_t → Nat → CString → Option Nat
  | [], _, _ => none
  | _ :: _, 0, _ => none
  | e :: es, n + 1, filename =>
    if slot_matches e filename then some 0
    else (find_locked es n filename).map (· + 1)

/-- The second loop of `acquire_global_lock`: the first slot among the first `n` with
`!locked` is overwritten by `new`; returns its index and the updated array. -/
def lock_first_free : List locked_file_t → Nat → locked_file_t →
    Option (Nat × List locked_file_t)
  | [], _, _ => none
  | _ :: _, 0, _ => none
  | e :: es, n + 1, new =>
    if e.locked = false then some (0, new :: es)
    else (lock_first_free es n new).map (fun r => (r.1 + 1, e :: r.2))

/-- Function `acquire_global_lock(filename)` called by thread `self`; the `Int` is the
return value (`0` lock acquired, `-1` busy or no space). -/
def acquire_global_lock (t : LockTable) (self : Nat) (filename : CString) : LockTable × Int :=
  match find_locked t.locked_files t.num_locked_files filename with
  | some _ => (t, -1)
  | none =>
    match lock_first_free t.locked_files MAX_LOCKED_FILES
        ⟨filename.take (MAX_FILENAME - 1), true, self⟩ with
    | some (i, fs) =>
      ({ locked_files := fs,
         num_locked_files := if i + 1 > t.num_locked_files then i + 1 else t.num_locked_files }, 0)
    | none => (t, -1)

/-- The loop of `release_global_lock`: the first matching slot among the first `n` gets
`locked = 0`, then `break`. -/
def unlock_first : List locked_file_t → Nat → CString → List locked_file_t
  | [], _, _ => []
  | e :: es, 0, _ => e :: es
  | e :: es, n + 1, filename =>
    if slot_matches e filename then { e with locked := false } :: es
    else e :: unlock_first es n filename

/-- Function `release_global_lock(filename)`. -/
def release_global_lock (t : LockTable) (filename : CString) : LockTable :=
  { t with locked_files := unlock_first t.locked_files t.num_locked_files filename }

/-- A call on the lock table. -/
inductive LockOp where
  | acquire (self : Nat) (filename : CString)
  | release (filename : CString)
deriving DecidableEq, Repr

/-- The name a call is about. -/
def LockOp.name : LockOp → CString
  | .acquire _ f => f
  | .release f => f

/-- Effect of one call on the table. -/
def LockOp.apply (t : LockTable) : LockOp → LockTable
  | .acquire self f => (acquire_global_lock t self f).1
  | .release f => release_global_lock t f

/-- Effect of a finite sequence of calls, in order. -/
def run_lock_ops (t : LockTable) (ops : List LockOp) : LockTable :=
  ops.foldl LockOp.apply t

/-- Name `filename` is held: some slot has `locked = 1` and that name. -/
def held (t : LockTable) (filename : CString) : Bool :=
  t.locked_files.any (fun e => e.locked && decide (e.filename = filename))

/-- Every one of the slots is locked. -/
def table_full (t : LockTable) : Bool :=
  t.locked_files.all (fun e => e.locked)


/-- Locked slots all lie below `num_locked_files` and the array has its declared size. -/
def LockInv (t : LockTable) : Prop :=
  t.locked_files.length = MAX_LOCKED_FILES ∧
  ∀ (i : Nat) (e : locked_file_t), t.locked_files[i]? = some e → e.locked = true → i < t.num_locked_files

/-- No two distinct slots with `locked = 1` carry the same file name. -/
def no_duplicate_locks (t : LockTable) : Prop :=
  ∀ (i j : Nat) (a b : locked_file_t), t.locked_files[i]? = some a → t.locked_files[j]? = some b → i ≠ j →
    a.locked = true → b.locked = true → a.filename ≠ b.filename


/-! ## Observable effects of a handler -/

/-- How a file is opened (`flags` argument of `open`). -/
inductive OpenMode where
  | rdonly
  | rdwr
  | wronly_creat_trunc
deriving DecidableEq, Repr

/-- One externally visible action of a handler, in program order. -/
inductive Event where
  /-- Bytes passed to `write(client_socket, ...)`. -/
  | sock_write (bytes : CString)
  /-- A call `read(client_socket, buffer, count)`. -/
  | sock_read (count : Nat)
  /-- The call `close(client_socket)`. -/
  | sock_close
  /-- A call `write_audit_log(operation, filename, status, details)`. -/
  | audit (operation filename status details : CString)
  /-- A call `write_security_event(event, ip, filename, details)`. -/
  | security (event ip filename details : CString)
  | fs_stat (path : CString)
  | fs_access (path : CString)
  | fs_mkdir (path : CString)
  | fs_open (path : CString) (mode : OpenMode)
  | fs_write (bytes : CString)
  | fs_close
  | fs_unlink (path : CString)
  | fs_opendir (path : CString)
  /-- A call `acquire_file_lock(fd, F_RDLCK or F_WRLCK)`. -/
  | fd_lock (exclusive : Bool)
  /-- A call `release_file_lock(fd)`. -/
  | fd_unlock
deriving DecidableEq, Repr

/-- Function `send_response(socket, status, message)`: one `write` of
`"<status> <message>\n"`, cut by `snprintf` to `MAX_BUFFER - 1` bytes. -/
def send_response (status message : CString) : Event :=
  .sock_write ((status ++ ascii " " ++ message ++ ascii "\n").take (MAX_BUFFER - 1))

/-- The event is a write to the client socket. -/
def Event.isResponse : Event → Bool
  | .sock_write _ => true
  | _ => false

/-- The event is an audit record carrying the given `STATUS=` field. -/
def Event.isAuditWith (status : CString) : Event → Bool
  | .audit _ _ s _ => decide (s = status)
  | _ => false

/-- The event is an audit record. -/
def Event.isAudit : Event → Bool
  | .audit _ _ _ _ => true
  | _ => false

/-- The event opens (and so possibly creates or truncates), writes or unlinks a file. -/
def Event.opensOrRemoves : Event → Bool
  | .fs_open _ _ => true
  | .fs_write _ => true
  | .fs_unlink _ => true
  | _ => false

/-- The event is a security event of the given kind. -/
def Event.isSecurity (kind : CString) : Event → Bool
  | .security k _ _ _ => decide (k = kind)
  | _ => false

/-- The event creates, opens, writes or removes something in the file system. -/
def Event.touchesFiles : Event → Bool
  | .fs_mkdir _ => true
  | .fs_open _ _ => true
  | .fs_write _ => true
  | .fs_unlink _ => true
  | _ => false

/-! ## The security tracker (`client_tracker`) -/

/-- One slot of `client_tracker`; `time_t` values are integers (seconds). -/
structure client_security_t where
  ip : CString
  failures : Int
  blocked_until : Int
deriving DecidableEq, Repr

/-- The array `client_tracker[MAX_CLIENT_TRACK]`. -/
abbrev Tracker := List client_security_t

/-- The zero-initialised tracker at program start. -/
def Tracker.init : Tracker := List.replicate MAX_CLIENT_TRACK ⟨[], 0, 0⟩

/-- First loop of `find_tracker_slot`: the first slot among the first `n` with
`ip[0] != 0 && strcmp(slot.ip, ip) == 0`. -/
def find_ip : List client_security_t → Nat → CString → Option Nat
  | [], _, _ => none
  | _ :: _, 0, _ => none
  | e :: es, n + 1, ip =>
    if e.ip ≠ [] ∧ e.ip = ip then some 0
    else (find_ip es n ip).map (· + 1)

/-- Second loop of `find_tracker_slot`: the first slot among the first `n` with an empty
`ip` receives `strncpy(slot.ip, ip, INET_ADDRSTRLEN - 1)`. -/
def claim_empty : List client_security_t → Nat → CString →
    Option (Nat × List client_security_t)
  | [], _, _ => none
  | _ :: _, 0, _ => none
  | e :: es, n + 1, ip =>
    if e.ip = [] then some (0, { e with ip := ip.take (INET_ADDRSTRLEN - 1) } :: es)
    else (claim_empty es n ip).map (fun r => (r.1 + 1, e :: r.2))

/-- Function `find_tracker_slot(ip)`: the slot index, or `-1`; it may claim a slot. -/
def find_tracker_slot (tr : Tracker) (ip : CString) : Tracker × Int :=
  match find_ip tr MAX_CLIENT_TRACK ip with
  | some i => (tr, (i : Int))
  | none =>
    match claim_empty tr MAX_CLIENT_TRACK ip with
    | some (i, tr1) => (tr1, (i : Int))
    | none => (tr, -1)

/-- Function `is_client_blocked(ip)` evaluated when `time(NULL)` returns `now`. -/
def is_client_blocked (tr : Tracker) (ip : CString) (now : Int) : Tracker × Bool :=
  let r := find_tracker_slot tr ip
  (r.1, decide (r.2 ≥ 0) &&
    (match r.1[r.2.toNat]? with
     | some e => decide (e.blocked_until > now)
     | none => false))

/-- Function `record_failure(ip, reason)` evaluated when `time(NULL)` returns `now`. -/
def record_failure (tr : Tracker) (ip : CString) (now : Int) (reason : CString) :
    Tracker × List Event :=
  let r := find_tracker_slot tr ip
  let tr1 :=
    if r.2 ≥ 0 then
      match r.1[r.2.toNat]? with
      | some e =>
        let failures := e.failures + 1
        r.1.set r.2.toNat
          { e with
            failures := failures,
            blocked_until :=
              if failures ≥ FAILURE_THRESHOLD then now + BLOCK_SECONDS else e.blocked_until }
      | none => r.1
    else r.1
  (tr1, [Event.security (ascii "AUTH_FAILURE") ip (ascii "N/A") reason])

/-- Function `record_success(ip)`. -/
def record_success (tr : Tracker) (ip : CString) : Tracker :=
  let r := find_tracker_slot tr ip
  if r.2 ≥ 0 then
    match r.1[r.2.toNat]? with
    | some e => r.1.set r.2.toNat { e with failures := 0, blocked_until := 0 }
    | none => r.1
  else r.1

/-- A call on the tracker, with the clock value it observes. -/
inductive TrackerOp where
  | blocked (ip : CString) (now : Int)
  | failure (ip : CString) (now : Int) (reason : CString)
  | success (ip : CString)
deriving DecidableEq, Repr

/-- The peer address a call is about. -/
def TrackerOp.ip : TrackerOp → CString
  | .blocked ip _ => ip
  | .failure ip _ _ => ip
  | .success ip => ip

/-- Effect of one call on the tracker. -/
def TrackerOp.apply (tr : Tracker) : TrackerOp → Tracker
  | .blocked ip now => (is_client_blocked tr ip now).1
  | .failure ip now reason => (record_failure tr ip now reason).1
  | .success ip => record_success tr ip

/-- Effect of a finite sequence of calls, in order. -/
def run_tracker_ops (tr : Tracker) (ops : List TrackerOp) : Tracker :=
  ops.foldl TrackerOp.apply tr

/-- The call neither resets nor counts a failure for `ip`: it is about another address,
or it is a mere `is_client_blocked` query. -/
def TrackerOp.quiet_for (ip : CString) : TrackerOp → Bool
  | .blocked _ _ => true
  | .failure ip1 _ _ => decide (ip1 ≠ ip)
  | .success ip1 => decide (ip1 ≠ ip)

/-- Outcome of one iteration of the accept loop of `main` for a peer. -/
structure AcceptResult where
  tracker : Tracker
  events : List Event
  /-- A handler thread is created for the connection. -/
  spawned : Bool
deriving DecidableEq, Repr

/-- The part of the accept loop of `main` between `inet_ntop` and `pthread_create`. -/
def accept_connection (tr : Tracker) (ip : CString) (now : Int) : AcceptResult :=
  let r := is_client_blocked tr ip now
  if r.2 then
    { tracker := r.1,
      events := [send_response (ascii "ERROR") (ascii "Client blocked due to repeated failures"),
                 Event.security (ascii "BLOCKED_CLIENT") ip (ascii "N/A")
                   (ascii "Connection rejected"),
                 Event.sock_close],
      spawned := false }
  else { tracker := r.1, events := [], spawned := true }

/-- Address `ip` owns slot `k` of the tracker, whose content is `e`: the first loop of
`find_tracker_slot` stops at `k`. -/
def slot_state (tr : Tracker) (ip : CString) (k : Nat) (e : client_security_t) : Prop :=
  find_ip tr MAX_CLIENT_TRACK ip = some k ∧ tr[k]? = some e

/-- No slot has a negative failure count. -/
def FailuresNonneg (tr : Tracker) : Prop := ∀ e ∈ tr, 0 ≤ e.failures

/-- The slot content after one more counted failure at time `now`. -/
def bump (e : client_security_t) (now : Int) : client_security_t :=
  { e with
    failures := e.failures + 1,
    blocked_until :=
      if e.failures + 1 ≥ FAILURE_THRESHOLD then now + BLOCK_SECONDS else e.blocked_until }

/-! ## C library helpers used by the handlers -/

/-- The suffix of `hay` starting at the first occurrence of `needle` (`strstr`), or
`none` (`NULL`). -/
def strstr : CString → CString → Option CString
  | [], needle => if needle = [] then some [] else none
  | c :: cs, needle =>
    if needle.isPrefixOf (c :: cs) then some (c :: cs) else strstr cs needle

/-- The C string held by a NUL-terminated buffer: the bytes before the first NUL. -/
def cstr (buffer : List CChar) : CString := buffer.takeWhile (· ≠ 0)

/-- C `isspace` in the "C" locale: space, `\t`, `\n`, `\v`, `\f`, `\r`. -/
def isspace (c : CChar) : Bool := c.val == 32 || (9 ≤ c.val && c.val ≤ 13)

/-- C `isdigit`. -/
def isdigit (c : CChar) : Bool := 48 ≤ c.val && c.val ≤ 57

/-- The `%s` directive of `sscanf` with an optional field width: skips white space, then
takes the longest run of non-space bytes (at most `width` of them).  Returns the word and
the rest of the input; the directive fails when the word is empty. -/
def scan_word (width : Option Nat) (input : CString) : CString × CString :=
  let s := input.dropWhile isspace
  let w := s.takeWhile (fun c => !isspace c)
  match width with
  | some n => (w.take n, s.drop (w.take n).length)
  | none => (w, s.drop w.length)

/-- Value of a run of decimal digits. -/
def digits_value (ds : CString) : Nat :=
  ds.foldl (fun acc d => 10 * acc + (d.val - 48)) 0

def LONG_MAX : Int := 2 ^ 63 - 1
def LONG_MIN : Int := -(2 ^ 63)

/-- The `%ld` directive of `sscanf`: skips white space, reads an optional sign and a
non-empty run of decimal digits; the value is clamped to the range of `long` as `strtol`
does.  `none` is a matching failure. -/
def scan_long (input : CString) : Option Int :=
  let s := input.dropWhile isspace
  let (neg, s1) :=
    match s with
    | c :: cs => if c.val = 45 then (true, cs) else if c.val = 43 then (false, cs) else (false, s)
    | [] => (false, s)
  let ds := s1.takeWhile isdigit
  if ds = [] then none
  else
    let v : Int := if neg then -(digits_value ds : Int) else (digits_value ds : Int)
    some (if v > LONG_MAX then LONG_MAX else if v < LONG_MIN then LONG_MIN else v)

/-- Decimal digits of a natural number, most significant first (`fuel` bounds the number
of digits). -/
def decimal_digits : Nat → Nat → CString → CString
  | 0, _, acc => acc
  | fuel + 1, n, acc =>
    if n < 10 then Fin.ofNat (48 + n) :: acc
    else decimal_digits fuel (n / 10) (Fin.ofNat (48 + n % 10) :: acc)

/-- The text `printf("%ld", n)` produces. -/
def fmt_long (n : Int) : CString :=
  if n < 0 then (45 : CChar) :: decimal_digits 20 n.natAbs []
  else decimal_digits 20 n.natAbs []

/-- The pieces of a byte string between occurrences of `sep`. -/
def split_on (sep : CChar) : CString → List CString
  | [] => [[]]
  | c :: cs =>
    if c = sep then [] :: split_on sep cs
    else
      match split_on sep cs with
      | s :: ss => (c :: s) :: ss
      | [] => [[c]]

/-- The `/`-separated segments of a path. -/
def segments (path : CString) : List CString := split_on 47 path

/-! ## Paths -/

/-- The buffer `filepath` after `snprintf(filepath, MAX_PATH, "%s%s", STORAGE_DIR, filename)`. -/
def storage_path (filename : CString) : CString :=
  (STORAGE_DIR ++ filename).take (MAX_PATH - 1)

/-- The buffer after `snprintf(path, MAX_PATH, "%s%s.meta", METADATA_DIR, filename)`. -/
def meta_path (filename : CString) : CString :=
  (METADATA_DIR ++ filename ++ ascii ".meta").take (MAX_PATH - 1)

/-- Lexical walk along the segments of a relative path, starting in some directory: the
state is the stack of directory names entered below the start (innermost first); empty
segments and `.` are dropped, `..` pops one level.  The result is `none` as soon as a
`..` would climb above the start directory. -/
def walk_below : List CString → List CString → Option (List CString)
  | stack, [] => some stack
  | stack, seg :: segs =>
    if seg = [] ∨ seg = ascii "." then walk_below stack segs
    else if seg = ascii ".." then
      match stack with
      | [] => none
      | _ :: st => walk_below st segs
    else walk_below (seg :: stack) segs

/-- A path, resolved lexically from the working directory, enters `./storage` and never
climbs above it afterwards. -/
def stays_beneath_storage (path : CString) : Bool :=
  match segments path with
  | d :: s :: rest =>
    decide (d = ascii ".") && decide (s = ascii "storage") && (walk_below [] rest).isSome
  | _ => false

/-! ## Name validation of the handlers -/

/-- The two-character constant written `'\\\\'` in the source (value under GCC). -/
def TWO_BACKSLASHES : Nat := 92 * 256 + 92

/-- The two-character constant written `'\\0'` in the source (value under GCC). -/
def BACKSLASH_ZERO : Nat := 92 * 256 + 48

/-- The test `*p == '/' || *p == '\\\\'` of the separator-counting loops. -/
def is_separator (c : CChar) : Bool := c.val == 47 || c.val == TWO_BACKSLASHES

/-- The value of `slash_count` after the counting loop. -/
def slash_count (filename : CString) : Nat := (filename.filter is_separator).length

/-- The index `slash_pos - filename` of the last separator, when there is one. -/
def slash_pos : CString → Option Nat
  | [] => none
  | c :: cs =>
    match slash_pos cs with
    | some i => some (i + 1)
    | none => if is_separator c then some 0 else none

/-- The byte `s[i]` of a NUL-terminated string (`0` at the terminator). -/
def char_at (s : CString) (i : Nat) : Nat :=
  match s[i]? with
  | some c => c.val
  | none => 0

/-- The test `strstr(filename, "..") || filename[0] == '/' || filename[0] == '\\\\'`. -/
def traversal_check (filename : CString) : Bool :=
  (strstr filename (ascii "..")).isSome || char_at filename 0 == 47 ||
    char_at filename 0 == TWO_BACKSLASHES

/-- The test guarding the user-directory creation in `handle_upload`,
`slash_count == 1 && slash_pos && slash_pos != filename && slash_pos[1] != '\\0'`;
when it holds the result is `username_len = slash_pos - filename`. -/
def user_dir_check (filename : CString) : Option Nat :=
  match slash_pos filename with
  | some i =>
    if slash_count filename = 1 ∧ i ≠ 0 ∧ char_at filename (i + 1) ≠ BACKSLASH_ZERO then some i
    else none
  | none => none

/-! ## Files, hashing and metadata -/

/-- The two files a handler run for one name is about: the stored file
`./storage/<name>` and its sidecar `./metadata/<name>.meta` (`none`: absent). -/
structure FileSys where
  stored : Option CString
  sidecar : Option CString
deriving DecidableEq, Repr

/-- The buffer `unsigned char hash[SHA256_DIGEST_LENGTH]`. -/
abbrev Digest := Fin 32 → CChar

/-- One lowercase hexadecimal digit. -/
def hex_digit (n : Nat) : CChar := if n < 10 then Fin.ofNat (48 + n) else Fin.ofNat (87 + n)

/-- The loop `sprintf(output + i * 2, "%02x", hash[i])` over the 32 bytes. -/
def hex_digest (hash : Digest) : CString :=
  (List.finRange 32).flatMap (fun i => [hex_digit ((hash i).val / 16), hex_digit ((hash i).val % 16)])

/-- Outcomes of the system calls of `compute_sha256_file`. -/
structure HashEnv where
  /-- The call `open(path, O_RDONLY)` succeeds. -/
  open_ok : Bool
  /-- Index of the `read` that returns `-1`, if one does. -/
  fail_at : Option Nat
  /-- The call `malloc` for the output succeeds. -/
  malloc_ok : Bool
deriving DecidableEq, Repr

/-- The loop `while ((bytes_read = read(fd, buffer, sizeof(buffer))) > 0) SHA256_Update(...)`:
the bytes fed to the hash.  `rest` is the unread part of the file, `i` counts the reads. -/
def sha_read_loop : Nat → CString → Option Nat → Nat → CString → CString
  | 0, _, _, _, acc => acc
  | fuel + 1, rest, fail_at, i, acc =>
    if fail_at = some i then acc
    else if rest = [] then acc
    else sha_read_loop fuel (rest.drop MAX_BUFFER) fail_at (i + 1) (acc ++ rest.take MAX_BUFFER)

/-- Function `compute_sha256_file(path)` on a file with the given content; `SHA256` is the
OpenSSL digest (`SHA256_Init`, `SHA256_Update` over the pieces, `SHA256_Final`) of the
concatenated input.  `none` is the `NULL` result. -/
def compute_sha256_file (SHA256 : CString → Digest) (path : CString) (file : Option CString)
    (env : HashEnv) : Option CString × List Event :=
  match file with
  | none => (none, [Event.fs_open path OpenMode.rdonly])
  | some content =>
    if env.open_ok then
      let fed := sha_read_loop (content.length + 1) content env.fail_at 0 []
      (if env.malloc_ok then some (hex_digest (SHA256 fed)) else none,
       [Event.fs_open path OpenMode.rdonly, Event.fs_close])
    else (none, [Event.fs_open path OpenMode.rdonly])

/-- Outcomes of the system calls of `update_metadata`. -/
structure MetaEnv where
  /-- The call `open(metapath, O_WRONLY | O_CREAT | O_TRUNC, 0644)` succeeds. -/
  open_ok : Bool
  /-- Number of bytes the `write` puts in the file (at most the text length). -/
  written : Nat
  /-- The text returned by `ctime(&now)`. -/
  ctime : CString
deriving DecidableEq, Repr

/-- The buffer `metadata` after the `snprintf` of `update_metadata`. -/
def metadata_text (filename : CString) (filesize : Int) (ctime hash_hex : CString) : CString :=
  (ascii "Filename: " ++ filename ++ ascii "\nSize: " ++ fmt_long filesize ++
    ascii "\nUploadTime: " ++ ctime ++ ascii "SHA256: " ++ hash_hex ++ ascii "\n").take 767

/-- Function `update_metadata(filename, filesize, hash_hex)`: the sidecar afterwards and
the trace. -/
def update_metadata (sidecar : Option CString) (env : MetaEnv) (filename : CString)
    (filesize : Int) (hash_hex : Option CString) : Option CString × List Event :=
  if env.open_ok then
    let text := metadata_text filename filesize env.ctime (hash_hex.getD (ascii "UNKNOWN"))
    (some (text.take env.written),
     [Event.fs_open (meta_path filename) OpenMode.wronly_creat_trunc, Event.fs_write text,
      Event.fs_close])
  else (sidecar, [Event.fs_open (meta_path filename) OpenMode.wronly_creat_trunc])

/-- The digest written on the `SHA256: ` line of a sidecar text: the rest of the first
line that starts with `SHA256: `. -/
def sidecar_digest (text : CString) : Option CString :=
  match (split_on 10 text).find? (fun l => (ascii "SHA256: ").isPrefixOf l) with
  | some l => some (l.drop 8)
  | none => none

/-! ## UPLOAD -/

/-- What one `read(client_socket, buffer, to_read)` of the transfer loop returns. -/
inductive SockRead where
  /-- The call returns `-1` with `errno == EINTR`. -/
  | eintr
  /-- The call returns `0` (end of stream) or `-1` with another error. -/
  | closed
  /-- The call returns these bytes (at most `to_read` of them are taken). -/
  | data (bytes : CString)
deriving DecidableEq, Repr

/-- Outcomes of the system calls of one iteration of the transfer loop. -/
structure UploadIter where
  /-- Value of `time(NULL)` at the top of the iteration. -/
  current_time : Int
  read : SockRead
  /-- Return value of `write(fd, buffer, bytes_read)`. -/
  written : Int
deriving DecidableEq, Repr

/-- Outcomes of the system calls made by `handle_upload`. -/
structure UploadEnv where
  /-- The call `stat(dir_path, &st)` succeeds. -/
  dir_exists : Bool
  mkdir_ok : Bool
  /-- The call `open(filepath, O_WRONLY | O_CREAT | O_TRUNC, 0644)` succeeds. -/
  open_ok : Bool
  start_time : Int
  iters : List UploadIter
  unlink_ok : Bool
  hash : HashEnv
  metadata : MetaEnv
deriving DecidableEq, Repr

/-- State when `handle_upload` returns. -/
structure UploadResult where
  table : LockTable
  fs : FileSys
  events : List Event
deriving DecidableEq, Repr

/-- How the transfer loop ends: normally (`total_read == filesize`) or through one of its
three error exits; with the trace of the loop and the bytes in the file. -/
structure LoopEnd where
  completed : Bool
  events : List Event
  content : CString
deriving DecidableEq, Repr

/-- The loop `while (total_read < filesize)` of `handle_upload`.  Each iteration consumes
one `UploadIter`; `none` means the loop is still running when the supplied outcomes are
used up. -/
def upload_loop (filename : CString) (filesize start_time : Int) :
    List UploadIter → Int → CString → Option LoopEnd
  | [], total_read, content =>
    if total_read < filesize then none else some ⟨true, [], content⟩
  | it :: rest, total_read, content =>
    if total_read < filesize then
      if it.current_time - start_time > UPLOAD_TIMEOUT then
        some ⟨false,
          [send_response (ascii "ERROR") (ascii "Upload timeout"),
           Event.audit (ascii "UPLOAD") filename (ascii "FAILED")
             (ascii "Timeout - deadlock recovery")], content⟩
      else
        let remaining := filesize - total_read
        let to_read := if remaining < MAX_BUFFER then remaining.toNat else MAX_BUFFER
        let interrupted : LoopEnd :=
          ⟨false,
           [Event.sock_read to_read,
            send_response (ascii "ERROR") (ascii "Transfer interrupted"),
            Event.audit (ascii "UPLOAD") filename (ascii "FAILED") (ascii "Connection error")],
           content⟩
        match it.read with
        | SockRead.eintr =>
          (upload_loop filename filesize start_time rest total_read content).map
            (fun r => { r with events := Event.sock_read to_read :: r.events })
        | SockRead.closed => some interrupted
        | SockRead.data bytes =>
          let chunk := bytes.take to_read
          if chunk = [] then some interrupted
          else if it.written ≠ (chunk.length : Int) then
            some ⟨false,
              [Event.sock_read to_read, Event.fs_write chunk,
               send_response (ascii "ERROR") (ascii "Write error"),
               Event.audit (ascii "UPLOAD") filename (ascii "FAILED") (ascii "Write error")],
              content ++ chunk.take it.written.toNat⟩
          else
            (upload_loop filename filesize start_time rest (total_read + chunk.length)
                (content ++ chunk)).map
              (fun r =>
                { r with events := Event.sock_read to_read :: Event.fs_write chunk :: r.events })
    else some ⟨true, [], content⟩

/-- The part of `handle_upload` from the lock acquisition to the end; `pre` is the trace
of the directory step before it.  `none` means the transfer loop has not ended within
the supplied outcomes. -/
def upload_transfer (SHA256 : CString → Digest) (t : LockTable) (self : Nat) (fs : FileSys)
    (env : UploadEnv) (filename : CString) (filesize : Int) (pre : List Event) :
    Option UploadResult :=
  let filepath := storage_path filename
  let acq := acquire_global_lock t self filename
  if acq.2 ≠ 0 then
    some ⟨acq.1, fs,
      pre ++
      [send_response (ascii "ERROR") (ascii "File is locked by another process"),
       Event.audit (ascii "UPLOAD") filename (ascii "FAILED") (ascii "File locked")]⟩
  else if !env.open_ok then
    some ⟨release_global_lock acq.1 filename, fs,
      pre ++
      [Event.fs_open filepath OpenMode.wronly_creat_trunc,
       send_response (ascii "ERROR") (ascii "Cannot create file"),
       Event.audit (ascii "UPLOAD") filename (ascii "FAILED") (ascii "File creation error")]⟩
  else
    let opened :=
      pre ++
      [Event.fs_open filepath OpenMode.wronly_creat_trunc,
       send_response (ascii "READY") (ascii "Send file data")]
    match upload_loop filename filesize env.start_time env.iters 0 [] with
    | none => none
    | some loop =>
      if loop.completed then
        let stored := some loop.content
        let h := compute_sha256_file SHA256 filepath stored env.hash
        let m := update_metadata fs.sidecar env.metadata filename filesize
          (some (h.1.getD (ascii "HASH_ERROR")))
        some ⟨release_global_lock acq.1 filename, ⟨stored, m.1⟩,
          opened ++ loop.events ++ [Event.fs_close] ++ h.2 ++ m.2 ++
          [Event.audit (ascii "UPLOAD") filename (ascii "SUCCESS")
             ((ascii "Size: " ++ fmt_long filesize ++ ascii " bytes").take 255),
           send_response (ascii "SUCCESS") (ascii "File uploaded successfully")]⟩
      else
        some ⟨release_global_lock acq.1 filename,
          ⟨if env.unlink_ok then none else some loop.content, fs.sidecar⟩,
          opened ++ loop.events ++ [Event.fs_close, Event.fs_unlink filepath]⟩

/-- Function `handle_upload(client_socket, filename, filesize)` run by thread `self`:
the name validation and the user-directory step, then `upload_transfer`. -/
def handle_upload (SHA256 : CString → Digest) (t : LockTable) (self : Nat) (fs : FileSys)
    (env : UploadEnv) (filename : CString) (filesize : Int) : Option UploadResult :=
  if traversal_check filename then
    some ⟨t, fs,
      [send_response (ascii "ERROR") (ascii "Invalid filename"),
       Event.audit (ascii "UPLOAD") filename (ascii "FAILED") (ascii "Invalid filename"),
       Event.security (ascii "ACCESS_VIOLATION") [] filename (ascii "Path traversal attempt")]⟩
  else
    match user_dir_check filename with
    | some username_len =>
      let dir_path := (STORAGE_DIR ++ filename.take username_len).take (MAX_PATH - 1)
      if env.dir_exists then
        upload_transfer SHA256 t self fs env filename filesize [Event.fs_stat dir_path]
      else if env.mkdir_ok then
        upload_transfer SHA256 t self fs env filename filesize
          [Event.fs_stat dir_path, Event.fs_mkdir dir_path]
      else
        some ⟨t, fs,
          [Event.fs_stat dir_path, Event.fs_mkdir dir_path,
           send_response (ascii "ERROR") (ascii "Cannot create user directory"),
           Event.audit (ascii "UPLOAD") filename (ascii "FAILED")
             (ascii "Directory creation error")]⟩
    | none =>
      if slash_count filename > 1 then
        some ⟨t, fs,
          [send_response (ascii "ERROR") (ascii "Invalid filename - too many path separators"),
           Event.audit (ascii "UPLOAD") filename (ascii "FAILED") (ascii "Invalid filename"),
           Event.security (ascii "ACCESS_VIOLATION") [] filename
             (ascii "Multiple path separators")]⟩
      else upload_transfer SHA256 t self fs env filename filesize []

/-- The name passes the validation of `handle_upload`: neither of its two rejecting
branches is taken. -/
def upload_name_ok (filename : CString) : Bool :=
  !traversal_check filename &&
    !((user_dir_check filename).isNone && decide (slash_count filename > 1))

/-- The name passes the validation of `handle_download`. -/
def download_name_ok (filename : CString) : Bool :=
  !(traversal_check filename || decide (slash_count filename > 1))

/-- The name passes the validation of `handle_delete` (the same test as in
`handle_download`). -/
def delete_name_ok (filename : CString) : Bool :=
  !(traversal_check filename || decide (slash_count filename > 1))

/-! ## DOWNLOAD -/

/-- Outcomes of the system calls made by `handle_download`. -/
structure DownloadEnv where
  stat_ok : Bool
  /-- The call `open(filepath, O_RDONLY)` succeeds. -/
  open_ok : Bool
  /-- The call `acquire_file_lock(fd, F_RDLCK)` returns `0`. -/
  lock_ok : Bool
  /-- The call `open(meta_path, O_RDONLY)` succeeds. -/
  meta_open_ok : Bool
  /-- The `read` of the sidecar returns its first bytes (otherwise it returns `-1`). -/
  meta_read_ok : Bool
  hash : HashEnv
  /-- Index of the `read` of the stored file that returns `-1`, if one does. -/
  read_fail_at : Option Nat
  /-- Return values of the payload writes to the socket, in order; a write beyond the
  list is complete. -/
  sends : List Int
deriving DecidableEq, Repr

/-- The content of `expected_hash` after the metadata block of `handle_download`, given
the C string in `meta_buf`: `strstr(meta_buf, "SHA256:")`, then
`sscanf(hash_line, "SHA256: %64s", expected_hash)`. -/
def expected_hash_of (meta_buf : CString) : CString :=
  match strstr meta_buf (ascii "SHA256:") with
  | some hash_line => (scan_word (some 64) (hash_line.drop 7)).1
  | none => []

/-- The loop `while ((bytes_read = read(fd, buffer, MAX_BUFFER)) > 0)` of
`handle_download`: the socket writes and the final `total_sent`. -/
def download_loop : Nat → CString → Option Nat → Nat → List Int → Int → List Event × Int
  | 0, _, _, _, _, total_sent => ([], total_sent)
  | fuel + 1, rest, fail_at, i, sends, total_sent =>
    if fail_at = some i then ([], total_sent)
    else if rest = [] then ([], total_sent)
    else
      let chunk := rest.take MAX_BUFFER
      let bytes_sent : Int := sends.headD chunk.length
      if bytes_sent ≠ (chunk.length : Int) then ([Event.sock_write chunk], total_sent)
      else
        let r := download_loop fuel (rest.drop MAX_BUFFER) fail_at (i + 1) sends.tail
          (total_sent + bytes_sent)
        (Event.sock_write chunk :: r.1, r.2)

/-- The metadata block of `handle_download`: the content of `expected_hash` afterwards
and the trace. -/
def read_expected_hash (fs : FileSys) (env : DownloadEnv) (filename : CString) :
    CString × List Event :=
  match fs.sidecar with
  | some text =>
    if env.meta_open_ok then
      (if env.meta_read_ok ∧ text ≠ [] then expected_hash_of (cstr (text.take 511)) else [],
       [Event.fs_open (meta_path filename) OpenMode.rdonly, Event.fs_close])
    else ([], [Event.fs_open (meta_path filename) OpenMode.rdonly])
  | none => ([], [Event.fs_open (meta_path filename) OpenMode.rdonly])

/-- Function `handle_download(client_socket, filename)`: its trace. -/
def handle_download (SHA256 : CString → Digest) (fs : FileSys) (env : DownloadEnv)
    (filename : CString) : List Event :=
  if traversal_check filename || decide (slash_count filename > 1) then
    [send_response (ascii "ERROR") (ascii "Invalid filename"),
     Event.security (ascii "ACCESS_VIOLATION") [] filename (ascii "Path traversal attempt")]
  else
    let filepath := storage_path filename
    match fs.stored with
    | none =>
      [Event.fs_stat filepath, send_response (ascii "ERROR") (ascii "File not found"),
       Event.audit (ascii "DOWNLOAD") filename (ascii "FAILED") (ascii "File not found")]
    | some content =>
      if !env.stat_ok then
        [Event.fs_stat filepath, send_response (ascii "ERROR") (ascii "File not found"),
         Event.audit (ascii "DOWNLOAD") filename (ascii "FAILED") (ascii "File not found")]
      else if !env.open_ok then
        [Event.fs_stat filepath, Event.fs_open filepath OpenMode.rdonly,
         send_response (ascii "ERROR") (ascii "Cannot open file"),
         Event.audit (ascii "DOWNLOAD") filename (ascii "FAILED") (ascii "Open error")]
      else if !env.lock_ok then
        [Event.fs_stat filepath, Event.fs_open filepath OpenMode.rdonly, Event.fd_lock false,
         send_response (ascii "ERROR") (ascii "File is locked for writing"),
         Event.audit (ascii "DOWNLOAD") filename (ascii "FAILED") (ascii "File locked"),
         Event.fs_close]
      else
        let opened :=
          [Event.fs_stat filepath, Event.fs_open filepath OpenMode.rdonly, Event.fd_lock false]
        let meta := read_expected_hash fs env filename
        let expected_hash := meta.1
        let h := compute_sha256_file SHA256 filepath (some content) env.hash
        let mismatch : Bool :=
          match h.1 with
          | some actual_hash => decide (expected_hash ≠ []) && decide (expected_hash ≠ actual_hash)
          | none => false
        if mismatch then
          opened ++ meta.2 ++ h.2 ++
          [Event.security (ascii "INTEGRITY_FAIL") [] filename
             (ascii "Hash mismatch detected before download"),
           send_response (ascii "ERROR") (ascii "Integrity check failed"),
           Event.fd_unlock, Event.fs_close]
        else
          let loop := download_loop (content.length + 1) content env.read_fail_at 0 env.sends 0
          opened ++ meta.2 ++ h.2 ++
          [Event.sock_write ((ascii "SUCCESS " ++ fmt_long content.length).take 255),
           Event.sock_write (ascii "\n")] ++
          loop.1 ++
          [Event.fd_unlock, Event.fs_close,
           Event.audit (ascii "DOWNLOAD") filename (ascii "SUCCESS")
             ((ascii "Size: " ++ fmt_long loop.2 ++ ascii " bytes").take 255)]

/-! ## DELETE -/

/-- Outcomes of the system calls made by `handle_delete`. -/
structure DeleteEnv where
  /-- The call `access(filepath, F_OK)` returns `0`. -/
  access_ok : Bool
  /-- The call `open(filepath, O_RDWR)` succeeds. -/
  open_ok : Bool
  /-- The call `acquire_file_lock(fd, F_WRLCK)` returns `0`. -/
  lock_ok : Bool
  unlink_ok : Bool
deriving DecidableEq, Repr

/-- Function `handle_delete(client_socket, filename)`: the files afterwards and the trace. -/
def handle_delete (fs : FileSys) (env : DeleteEnv) (filename : CString) :
    FileSys × List Event :=
  if traversal_check filename || decide (slash_count filename > 1) then
    (fs,
     [send_response (ascii "ERROR") (ascii "Invalid filename"),
      Event.security (ascii "ACCESS_VIOLATION") [] filename
        (ascii "Invalid filename for delete")])
  else
    let filepath := storage_path filename
    if fs.stored.isNone || !env.access_ok then
      (fs,
       [Event.fs_access filepath, send_response (ascii "ERROR") (ascii "File not found"),
        Event.audit (ascii "DELETE") filename (ascii "FAILED") (ascii "File not found")])
    else if !env.open_ok then
      (fs,
       [Event.fs_access filepath, Event.fs_open filepath OpenMode.rdwr,
        send_response (ascii "ERROR") (ascii "Cannot open file"),
        Event.audit (ascii "DELETE") filename (ascii "FAILED") (ascii "Open error")])
    else if !env.lock_ok then
      (fs,
       [Event.fs_access filepath, Event.fs_open filepath OpenMode.rdwr, Event.fd_lock true,
        send_response (ascii "ERROR") (ascii "File is currently in use"),
        Event.audit (ascii "DELETE") filename (ascii "FAILED") (ascii "File locked"),
        Event.fs_close])
    else if env.unlink_ok then
      ({ fs with stored := none },
       [Event.fs_access filepath, Event.fs_open filepath OpenMode.rdwr, Event.fd_lock true,
        Event.fs_close, Event.fs_unlink filepath,
        send_response (ascii "SUCCESS") (ascii "File deleted successfully"),
        Event.audit (ascii "DELETE") filename (ascii "SUCCESS") (ascii "File deleted")])
    else
      (fs,
       [Event.fs_access filepath, Event.fs_open filepath OpenMode.rdwr, Event.fd_lock true,
        Event.fs_close, Event.fs_unlink filepath,
        send_response (ascii "ERROR") (ascii "Delete failed"),
        Event.audit (ascii "DELETE") filename (ascii "FAILED") (ascii "Unlink error")])

/-! ## Authentication and dispatch -/

/-- Function `get_auth_token()`: the token in force, given the static buffer and the
value of `getenv("FILE_SERVER_AUTH")`. -/
def get_auth_token (auth_token : CString) (env : Option CString) : CString :=
  match env with
  | some e => if e.length < MAX_TOKEN_LEN then e.take (MAX_TOKEN_LEN - 1) else auth_token
  | none => auth_token

/-- The first line of the request: the bytes of the C string before its first `\n`. -/
def first_line (buffer : List CChar) : CString := (cstr buffer).takeWhile (· ≠ 10)

/-- The pointer `rest` of `require_auth`: the C string after the first `\n`, or `none`
(`NULL`) when the C string has no `\n`. -/
def rest_after_line (buffer : List CChar) : Option CString :=
  if (10 : CChar) ∈ cstr buffer then some (((cstr buffer).dropWhile (· ≠ 10)).drop 1) else none

/-- The test `strncmp(first_line, "AUTH", 4) == 0`. -/
def starts_with_auth (line : CString) : Bool := line.take 4 == ascii "AUTH"

/-- The word stored by `sscanf(first_line, "AUTH %127s", provided)` on a line that starts
with `AUTH`; the call returns `1` exactly when the word is not empty. -/
def provided_token (line : CString) : CString := (scan_word (some 127) (line.drop 4)).1

/-- Result of `require_auth`. -/
structure AuthResult where
  tracker : Tracker
  events : List Event
  /-- The buffer `command_out` when the function returns `0`; `none` when it returns `-1`. -/
  command : Option CString
deriving DecidableEq, Repr

/-- Function `require_auth(buffer, client_socket, ip, command_out, command_size)`.
`buffer` holds the bytes of the first read, `second_read` is what the extra
`read(client_socket, buffer, MAX_BUFFER - 1)` returns (`none`: a value `≤ 0`), `now` the
clock seen by `record_failure`. -/
def require_auth (tr : Tracker) (auth_token : CString) (getenv : Option CString)
    (buffer : List CChar) (ip : CString) (now : Int) (second_read : Option (List CChar)) :
    AuthResult :=
  let line := first_line buffer
  let rest := rest_after_line buffer
  if !starts_with_auth line then
    let f := record_failure tr ip now (ascii "Missing AUTH header")
    ⟨f.1, send_response (ascii "ERROR")
        (ascii "Auth required: send AUTH <token> before command") :: f.2, none⟩
  else if provided_token line = [] then
    let f := record_failure tr ip now (ascii "Malformed AUTH line")
    ⟨f.1, send_response (ascii "ERROR") (ascii "Invalid AUTH format") :: f.2, none⟩
  else if provided_token line ≠ get_auth_token auth_token getenv then
    let f := record_failure tr ip now (ascii "Wrong token")
    ⟨f.1, send_response (ascii "ERROR") (ascii "Unauthorized client") :: f.2, none⟩
  else
    let tr1 := record_success tr ip
    if rest = none ∨ rest = some [] then
      match second_read with
      | none =>
        ⟨tr1, [Event.sock_read (MAX_BUFFER - 1),
               send_response (ascii "ERROR") (ascii "No command after AUTH")], none⟩
      | some bytes =>
        if bytes = [] then
          ⟨tr1, [Event.sock_read (MAX_BUFFER - 1),
                 send_response (ascii "ERROR") (ascii "No command after AUTH")], none⟩
        else
          ⟨tr1, [Event.sock_read (MAX_BUFFER - 1)],
            some ((cstr (bytes.take (MAX_BUFFER - 1))).take (MAX_BUFFER - 1))⟩
    else ⟨tr1, [], some ((rest.getD []).take (MAX_BUFFER - 1))⟩

/-- What `handle_client` does with an authenticated command. -/
inductive Dispatch where
  | upload (filename : CString) (filesize : Int)
  | download (filename : CString)
  | list (username : CString)
  | delete (filename : CString)
  | locks
  | logs
  /-- No handler is called; `handle_client` answers by itself. -/
  | reply (events : List Event)
deriving DecidableEq, Repr

/-- The command parsing of `handle_client` (the `strncmp` / `sscanf` cascade). -/
def dispatch (ip : CString) (command_buffer : CString) : Dispatch :=
  if command_buffer.take 6 == ascii "UPLOAD" then
    let w := scan_word none (command_buffer.drop 6)
    match (if w.1 = [] then none else scan_long w.2) with
    | some filesize =>
      if filesize ≤ 0 ∨ filesize > 1024 * 1024 * 100 then
        Dispatch.reply [send_response (ascii "ERROR") (ascii "Invalid file size")]
      else Dispatch.upload w.1 filesize
    | none =>
      Dispatch.reply [send_response (ascii "ERROR") (ascii "Invalid UPLOAD command format")]
  else if command_buffer.take 8 == ascii "DOWNLOAD" then
    let w := scan_word none (command_buffer.drop 8)
    if w.1 ≠ [] then Dispatch.download w.1
    else Dispatch.reply
      [send_response (ascii "ERROR") (ascii "Invalid DOWNLOAD command format")]
  else if command_buffer.take 4 == ascii "LIST" then
    Dispatch.list (scan_word none (command_buffer.drop 4)).1
  else if command_buffer.take 6 == ascii "DELETE" then
    let w := scan_word none (command_buffer.drop 6)
    if w.1 ≠ [] then Dispatch.delete w.1
    else Dispatch.reply [send_response (ascii "ERROR") (ascii "Invalid DELETE command format")]
  else if command_buffer.take 5 == ascii "LOCKS" then Dispatch.locks
  else if command_buffer.take 4 == ascii "LOGS" then Dispatch.logs
  else
    Dispatch.reply
      [send_response (ascii "ERROR") (ascii "Unknown command"),
       Event.security (ascii "ACCESS_VIOLATION") ip (ascii "N/A") command_buffer]

/-- Outcomes of the reads of `handle_client` and the clock. -/
structure ClientEnv where
  /-- Bytes returned by the first `read` (`none`: it returns a value `≤ 0`). -/
  first_read : Option (List CChar)
  /-- Bytes returned by the extra `read` of `require_auth`. -/
  second_read : Option (List CChar)
  now : Int
  /-- Value of `getenv("FILE_SERVER_AUTH")`. -/
  getenv : Option CString
deriving DecidableEq, Repr

/-- Result of `handle_client` up to the point where a handler is entered. -/
structure ClientResult where
  tracker : Tracker
  /-- Trace of `handle_client` itself; `close(client_socket)` follows in every case. -/
  events : List Event
  /-- The operation handler that is invoked, if any. -/
  handler : Option Dispatch
deriving DecidableEq, Repr

/-- Function `handle_client` for a connection from `ip`. -/
def handle_client (tr : Tracker) (auth_token : CString) (ip : CString) (env : ClientEnv) :
    ClientResult :=
  match env.first_read with
  | none => ⟨tr, [Event.sock_read (MAX_BUFFER - 1)], none⟩
  | some bytes =>
    if bytes = [] then ⟨tr, [Event.sock_read (MAX_BUFFER - 1)], none⟩
    else
      let buffer := bytes.take (MAX_BUFFER - 1)
      let a := require_auth tr auth_token env.getenv buffer ip env.now env.second_read
      match a.command with
      | none => ⟨a.tracker, Event.sock_read (MAX_BUFFER - 1) :: a.events, none⟩
      | some command_buffer =>
        match dispatch ip command_buffer with
        | Dispatch.reply evs =>
          ⟨a.tracker, Event.sock_read (MAX_BUFFER - 1) :: a.events ++ evs, none⟩
        | d => ⟨a.tracker, Event.sock_read (MAX_BUFFER - 1) :: a.events, some d⟩

/-! ## Predicates used in the statements -/

/-- Number of loop outcomes that are not an interrupted read. -/
def progress_count (iters : List UploadIter) : Nat :=
  (iters.filter (fun it => decide (it.read ≠ SockRead.eintr))).length

/-- Every `acquire` of the sequence is one `handle_upload` can make: the name passed its
validation and fits the `filename[MAX_FILENAME]` buffer. -/
def upload_acquires (ops : List LockOp) : Bool :=
  ops.all (fun op =>
    match op with
    | LockOp.acquire _ f => upload_name_ok f && decide (f.length ≤ 255)
    | LockOp.release _ => true)

/-- Every held name passed the validation of `handle_upload`. -/
def HeldNamesValid (t : LockTable) : Prop :=
  ∀ e ∈ t.locked_files, e.locked = true → upload_name_ok e.filename = true

/-- A fixed digest function for concrete evaluations (every digest byte is the input
length modulo 256). -/
def sample_digest : CString → Digest := fun s _ => Fin.ofNat s.length

/-- The responses `handle_upload` can send once the name has passed its validation. -/
def upload_replies : List Event :=
  [send_response (ascii "ERROR") (ascii "Cannot create user directory"),
   send_response (ascii "ERROR") (ascii "File is locked by another process"),
   send_response (ascii "ERROR") (ascii "Cannot create file"),
   send_response (ascii "READY") (ascii "Send file data"),
   send_response (ascii "ERROR") (ascii "Upload timeout"),
   send_response (ascii "ERROR") (ascii "Transfer interrupted"),
   send_response (ascii "ERROR") (ascii "Write error"),
   send_response (ascii "SUCCESS") (ascii "File uploaded successfully")]

/-- Outcomes of a complete two-chunk upload of twelve bytes, for concrete evaluations. -/
def sample_upload_env : UploadEnv :=
  ⟨true, true, true, 0,
    [⟨1, SockRead.data (ascii "hello, "), 7⟩, ⟨2, SockRead.data (ascii "world"), 5⟩],
    true, ⟨true, none, true⟩, ⟨true, 767, ascii "Thu Jan  1 00:00:00 1970\n"⟩⟩

/-! ## LIST, LOCKS and LOGS -/

/-- One entry returned by `readdir`, with the outcome of the `stat` made on it. -/
structure ListEntry where
  d_name : CString
  /-- The call `stat(filepath, &file_stat)` returns `0`. -/
  stat_ok : Bool
  /-- The test `S_ISREG(file_stat.st_mode)`. -/
  is_reg : Bool
  st_size : Int
deriving DecidableEq, Repr

/-- Outcomes of the system calls made by `handle_list`. -/
structure ListEnv where
  opendir_ok : Bool
  entries : List ListEntry
deriving DecidableEq, Repr

/-- The buffer `dirpath` of `handle_list`. -/
def list_dirpath (username : CString) : CString :=
  if username ≠ [] then (STORAGE_DIR ++ username).take (MAX_PATH - 1)
  else STORAGE_DIR.take (MAX_PATH - 1)

/-- The `readdir` loop of `handle_list`: the lines appended to `response` and `count`. -/
def list_lines (username dirpath : CString) : List ListEntry → CString × Nat
  | [] => ([], 0)
  | entry :: rest =>
    let r := list_lines username dirpath rest
    if char_at entry.d_name 0 = 46 then r
    else if entry.stat_ok && entry.is_reg then
      let line :=
        if username ≠ [] then
          (username ++ ascii "/" ++ entry.d_name ++ ascii " (" ++ fmt_long entry.st_size ++
            ascii " bytes)\n").take 511
        else
          (entry.d_name ++ ascii " (" ++ fmt_long entry.st_size ++ ascii " bytes)\n").take 511
      (line ++ r.1, r.2 + 1)
    else r

/-- Function `handle_list(client_socket, username)`: its trace. -/
def handle_list (env : ListEnv) (username : CString) : List Event :=
  let dirpath := list_dirpath username
  if !env.opendir_ok then
    [Event.fs_opendir dirpath,
     send_response (ascii "ERROR") (ascii "Cannot open storage directory")]
  else
    let r := list_lines username dirpath env.entries
    let response :=
      ascii "SUCCESS\n" ++ r.1 ++ (if r.2 = 0 then ascii "No files found\n" else [])
    [Event.fs_opendir dirpath, Event.sock_write response,
     Event.audit (ascii "LIST") (if username ≠ [] then username else ascii "all")
       (ascii "SUCCESS") (ascii "Listed files")]

/-- One entry returned by `readdir` in `handle_locks`, with the outcomes of the probe. -/
structure LockEntry where
  d_name : CString
  /-- The call `open(filepath, O_RDONLY)` succeeds. -/
  open_ok : Bool
  /-- The call `fcntl(fd, F_GETLK, &lock)` returns `0`. -/
  getlk_ok : Bool
  /-- The owner `l_pid` when `l_type != F_UNLCK`. -/
  owner : Option Int
deriving DecidableEq, Repr

/-- Outcomes of the system calls made by `handle_locks`. -/
structure LocksEnv where
  opendir_ok : Bool
  entries : List LockEntry
deriving DecidableEq, Repr

/-- The `readdir` loop of `handle_locks`: the lines appended and `locked_count`. -/
def locks_lines : List LockEntry → CString × Nat
  | [] => ([], 0)
  | entry :: rest =>
    let r := locks_lines rest
    if char_at entry.d_name 0 = 46 then r
    else if !entry.open_ok then r
    else
      match (if entry.getlk_ok then entry.owner else none) with
      | some pid =>
        ((ascii "  LOCKED: " ++ entry.d_name ++ ascii " (PID: " ++ fmt_long pid ++
            ascii ")\n").take 255 ++ r.1, r.2 + 1)
      | none => r

/-- Function `handle_locks(client_socket)`: its trace. -/
def handle_locks (env : LocksEnv) : List Event :=
  if !env.opendir_ok then
    [Event.fs_opendir STORAGE_DIR,
     send_response (ascii "ERROR") (ascii "Cannot open storage directory")]
  else
    let r := locks_lines env.entries
    let response :=
      ascii "SUCCESS\nFile Locks Status:\n" ++ r.1 ++
        (if r.2 = 0 then ascii "  No locked files\n" else [])
    [Event.fs_opendir STORAGE_DIR, Event.sock_write response,
     Event.audit (ascii "LOCKS") (ascii "N/A") (ascii "SUCCESS") (ascii "Viewed locks")]

/-- The bytes `write(fd, "literal", n)` takes from a string literal: the characters of
the literal followed by its terminating NUL, cut to `n` bytes. -/
def literal_bytes (literal : CString) (n : Nat) : CString := (literal ++ [0]).take n

/-- Outcomes of the system calls made by `handle_logs`. -/
structure LogsEnv where
  /-- Content of `./logs/audit.log`; `none` when its `open` fails. -/
  audit_log : Option CString
  /-- Content of `./logs/security.log`; `none` when its `open` fails. -/
  security_log : Option CString
  /-- Index of the `read` of the audit log that returns `-1`, if one does. -/
  audit_fail_at : Option Nat
  /-- Index of the `read` of the security log that returns `-1`, if one does. -/
  security_fail_at : Option Nat
deriving DecidableEq, Repr

/-- A loop `while ((bytes_read = read(fd, buffer, MAX_BUFFER - 1)) > 0)
write(client_socket, buffer, bytes_read)` of `handle_logs`. -/
def logs_copy_loop : Nat → CString → Option Nat → Nat → List Event
  | 0, _, _, _ => []
  | fuel + 1, rest, fail_at, i =>
    if fail_at = some i then []
    else if rest = [] then []
    else
      Event.sock_write (rest.take (MAX_BUFFER - 1)) ::
        logs_copy_loop fuel (rest.drop (MAX_BUFFER - 1)) fail_at (i + 1)

/-- Function `handle_logs(client_socket)`: its trace. -/
def handle_logs (env : LogsEnv) : List Event :=
  match env.audit_log with
  | none => [send_response (ascii "SUCCESS") (ascii "No logs available\n")]
  | some a =>
    let file_size := a.length
    let start_pos := if file_size > 10240 then file_size - 10240 else 0
    [Event.sock_write (literal_bytes (ascii "SUCCESS\n") 8),
     Event.sock_write (literal_bytes (ascii "=== AUDIT LOGS ===\n") 19)] ++
    logs_copy_loop (a.length + 1) (a.drop start_pos) env.audit_fail_at 0 ++
    [Event.sock_write (literal_bytes (ascii "\n=== SECURITY LOGS ===\n") 24)] ++
    (match env.security_log with
     | some s => logs_copy_loop (s.length + 1) s env.security_fail_at 0
     | none => [Event.sock_write (literal_bytes (ascii "No security events yet\n") 24)])

/-- All the bytes a trace passes to `write(client_socket, ...)`, in order. -/
def sent_bytes : List Event → CString
  | [] => []
  | Event.sock_write b :: rest => b ++ sent_bytes rest
  | _ :: rest => sent_bytes rest

/-! ## Predicates on traces used in the statements -/

/-- The event is a response that starts with `ERROR `. -/
def Event.isErrorReply : Event → Bool
  | .sock_write b => (ascii "ERROR ").isPrefixOf b
  | _ => false

/-- The event is a response that starts with `SUCCESS`. -/
def Event.isSuccessReply : Event → Bool
  | .sock_write b => (ascii "SUCCESS").isPrefixOf b
  | _ => false

/-- The trace holds exactly one audit record, it is for operation `op`, and its status
agrees with the answer: `FAILED` with an `ERROR` response in the trace, `SUCCESS` with a
`SUCCESS` response in the trace. -/
def one_audit_record (op : CString) (evs : List Event) : Bool :=
  match evs.filter Event.isAudit with
  | [Event.audit o _ status _] =>
    decide (o = op) &&
      ((decide (status = ascii "FAILED") && evs.any Event.isErrorReply) ||
       (decide (status = ascii "SUCCESS") && evs.any Event.isSuccessReply))
  | _ => false

/-- The part of a trace of `handle_upload` before the stored file is closed. -/
def transfer_trace (evs : List Event) : List Event :=
  evs.takeWhile (fun e => decide (e ≠ Event.fs_close))

/-- The bytes passed to `write(fd, ...)` along a trace, in order. -/
def written_bytes : List Event → CString
  | [] => []
  | Event.fs_write b :: rest => b ++ written_bytes rest
  | _ :: rest => written_bytes rest

/-- Walks the trace of a transfer with the number of bytes received so far: every
`read` on the socket asks for at most `min (filesize - total_read) 4096` bytes and
`total_read` never exceeds `filesize`. -/
def reads_bounded (filesize : Int) : Int → List Event → Bool
  | total_read, [] => decide (total_read ≤ filesize)
  | total_read, Event.sock_read n :: rest =>
    decide (total_read ≤ filesize) && decide ((n : Int) ≤ min (filesize - total_read) 4096) &&
      reads_bounded filesize total_read rest
  | total_read, Event.fs_write b :: rest =>
    reads_bounded filesize (total_read + b.length) rest
  | total_read, _ :: rest => reads_bounded filesize total_read rest

/-- The event is neither a socket read, a file write nor the closing of a file. -/
def Event.isQuiet : Event → Bool
  | .sock_read _ => false
  | .fs_write _ => false
  | .fs_close => false
  | _ => true

/-- Outcomes of the system calls of the operation handlers. -/
structure HandlerEnv where
  upload : UploadEnv
  download : DownloadEnv
  delete : DeleteEnv
  list : ListEnv
  locks : LocksEnv
  logs : LogsEnv
deriving DecidableEq, Repr

/-- The trace of what `handle_client` does with a dispatched command: the trace of the
handler it calls, or its own answer.  `none` means the transfer loop of `handle_upload`
has not ended within the supplied outcomes. -/
def handler_trace (SHA256 : CString → Digest) (t : LockTable) (self : Nat) (fs : FileSys)
    (env : HandlerEnv) : Dispatch → Option (List Event)
  | Dispatch.upload filename filesize =>
    (handle_upload SHA256 t self fs env.upload filename filesize).map (fun r => r.events)
  | Dispatch.download filename => some (handle_download SHA256 fs env.download filename)
  | Dispatch.list username => some (handle_list env.list username)
  | Dispatch.delete filename => some (handle_delete fs env.delete filename).2
  | Dispatch.locks => some (handle_locks env.locks)
  | Dispatch.logs => some (handle_logs env.logs)
  | Dispatch.reply events => some events

/-- Outcomes in which every system call succeeds, for concrete evaluations. -/
def sample_handler_env : HandlerEnv :=
  ⟨sample_upload_env, ⟨true, true, true, true, true, ⟨true, none, true⟩, none, []⟩,
    ⟨true, true, true, true⟩, ⟨true, []⟩, ⟨true, []⟩, ⟨none, none, none, none⟩⟩

/-! # Theorems -/
theorem find_locked_none {es : List locked_file_t} {n : Nat} {f : CString}
    (h : find_locked es n f = none) :
    ∀ i e, i < n → es[i]? = some e → slot_matches e f = false := by
  induction es generalizing n with
  | nil => intro i e _ he; simp at he
  | cons x xs ih =>
    cases n with
    | zero => intro i e hi; omega
    | succ n =>
      simp only [find_locked] at h
      split at h
      · simp at h
      · rename_i hx
        have h2 : find_locked xs n f = none := by
          cases hfl : find_locked xs n f with
          | none => rfl
          | some v => rw [hfl] at h; simp at h
        intro i e hi he
        cases i with
        | zero =>
          simp at he; subst he; simpa using hx
        | succ i =>
          simp at he
          exact ih h2 i e (by omega) he

theorem find_locked_some {es : List locked_file_t} {n : Nat} {f : CString} {i : Nat}
    (h : find_locked es n f = some i) :
    i < n ∧ ∃ e, es[i]? = some e ∧ slot_matches e f = true := by
  induction es generalizing n i with
  | nil => simp [find_locked] at h
  | cons x xs ih =>
    cases n with
    | zero => simp [find_locked] at h
    | succ n =>
      simp only [find_locked] at h
      split at h
      · rename_i hx
        simp at h; subst h
        exact ⟨by omega, x, by simp, hx⟩
      · cases hfl : find_locked xs n f with
        | none => rw [hfl] at h; simp at h
        | some v =>
          rw [hfl] at h; simp at h; subst h
          obtain ⟨h1, e, h2, h3⟩ := ih hfl
          exact ⟨by omega, e, by simpa using h2, h3⟩

theorem lock_first_free_none {es : List locked_file_t} {n : Nat} {new : locked_file_t}
    (h : lock_first_free es n new = none) :
    ∀ i e, i < n → es[i]? = some e → e.locked = true := by
  induction es generalizing n with
  | nil => intro i e _ he; simp at he
  | cons x xs ih =>
    cases n with
    | zero => intro i e hi; omega
    | succ n =>
      simp only [lock_first_free] at h
      split at h
      · simp at h
      · rename_i hx
        have h2 : lock_first_free xs n new = none := by
          cases hfl : lock_first_free xs n new with
          | none => rfl
          | some v => rw [hfl] at h; simp at h
        intro i e hi he
        cases i with
        | zero => simp at he; subst he; simpa using hx
        | succ i => simp at he; exact ih h2 i e (by omega) he

theorem lock_first_free_some {es : List locked_file_t} {n : Nat} {new : locked_file_t}
    {i : Nat} {fs : List locked_file_t} (h : lock_first_free es n new = some (i, fs)) :
    i < n ∧ fs = es.set i new ∧ ∃ e, es[i]? = some e ∧ e.locked = false := by
  induction es generalizing n i fs with
  | nil => simp [lock_first_free] at h
  | cons x xs ih =>
    cases n with
    | zero => simp [lock_first_free] at h
    | succ n =>
      simp only [lock_first_free] at h
      split at h
      · rename_i hx
        simp at h; obtain ⟨rfl, rfl⟩ := h
        exact ⟨by omega, by simp, x, by simp, hx⟩
      · cases hfl : lock_first_free xs n new with
        | none => rw [hfl] at h; simp at h
        | some v =>
          obtain ⟨vi, vfs⟩ := v
          rw [hfl] at h; simp at h; obtain ⟨rfl, rfl⟩ := h
          obtain ⟨h1, h2, e, h3, h4⟩ := ih hfl
          exact ⟨by omega, by simp [h2], e, by simpa using h3, h4⟩

theorem unlock_first_eq (es : List locked_file_t) (n : Nat) (f : CString) :
    (find_locked es n f = none ∧ unlock_first es n f = es) ∨
    (∃ i e, find_locked es n f = some i ∧ es[i]? = some e ∧ slot_matches e f = true ∧
      unlock_first es n f = es.set i { e with locked := false }) := by
  induction es generalizing n with
  | nil => left; simp [find_locked, unlock_first]
  | cons x xs ih =>
    cases n with
    | zero => left; simp [find_locked, unlock_first]
    | succ n =>
      by_cases hx : slot_matches x f = true
      · right
        exact ⟨0, x, by simp [find_locked, hx], by simp, hx, by simp [unlock_first, hx]⟩
      · rcases ih n with ⟨h1, h2⟩ | ⟨i, e, h1, h2, h3, h4⟩
        · left; simp [find_locked, unlock_first, hx, h1, h2]
        · right
          exact ⟨i + 1, e, by simp [find_locked, hx, h1], by simpa using h2, h3,
            by simp [unlock_first, hx, h4]⟩

theorem held_iff (t : LockTable) (f : CString) :
    held t f = true ↔ ∃ (i : Nat) (e : locked_file_t), t.locked_files[i]? = some e ∧ e.locked = true ∧ e.filename = f := by
  simp only [held, List.any_eq_true, Bool.and_eq_true, decide_eq_true_eq]
  constructor
  · rintro ⟨e, he, h1, h2⟩
    obtain ⟨i, hi⟩ := List.mem_iff_getElem?.1 he
    exact ⟨i, e, hi, h1, h2⟩
  · rintro ⟨i, e, hi, h1, h2⟩
    exact ⟨e, List.mem_iff_getElem?.2 ⟨i, hi⟩, h1, h2⟩

theorem slot_matches_iff (e : locked_file_t) (f : CString) :
    slot_matches e f = true ↔ e.filename = f ∧ e.locked = true := by
  simp [slot_matches]

theorem LockInv_empty : LockInv LockTable.empty := by
  refine ⟨by simp [LockTable.empty], ?_⟩
  intro i e he hl
  simp only [LockTable.empty, List.getElem?_replicate] at he
  split at he
  · simp at he; subst he; simp at hl
  · simp at he

theorem no_duplicate_locks_empty : no_duplicate_locks LockTable.empty := by
  intro i j a b ha _ _ hl
  simp only [LockTable.empty, List.getElem?_replicate] at ha
  split at ha
  · simp at ha; subst ha; simp at hl
  · simp at ha

theorem acquire_cases (t : LockTable) (self : Nat) (f : CString) :
    (acquire_global_lock t self f = (t, -1) ∧
      (find_locked t.locked_files t.num_locked_files f ≠ none ∨
        ∀ i e, i < MAX_LOCKED_FILES → t.locked_files[i]? = some e → e.locked = true)) ∨
    (∃ (i : Nat) (e : locked_file_t), find_locked t.locked_files t.num_locked_files f = none ∧
      i < MAX_LOCKED_FILES ∧ t.locked_files[i]? = some e ∧ e.locked = false ∧
      acquire_global_lock t self f =
        ({ locked_files := t.locked_files.set i ⟨f.take (MAX_FILENAME - 1), true, self⟩,
           num_locked_files :=
             if i + 1 > t.num_locked_files then i + 1 else t.num_locked_files }, 0)) := by
  unfold acquire_global_lock
  cases h1 : find_locked t.locked_files t.num_locked_files f with
  | some v => left; simp
  | none =>
    cases h2 : lock_first_free t.locked_files MAX_LOCKED_FILES
        ⟨f.take (MAX_FILENAME - 1), true, self⟩ with
    | none =>
      left
      exact ⟨rfl, Or.inr (fun i e hi he => lock_first_free_none h2 i e hi he)⟩
    | some v =>
      obtain ⟨i, fs⟩ := v
      obtain ⟨h3, h4, e, h5, h6⟩ := lock_first_free_some h2
      right
      exact ⟨i, e, rfl, h3, h5, h6, by simp [h4]⟩

theorem acquire_preserves_inv (t : LockTable) (self : Nat) (f : CString) (h : LockInv t) :
    LockInv (acquire_global_lock t self f).1 := by
  rcases acquire_cases t self f with ⟨h1, _⟩ | ⟨i, e, _, _, _, _, h5⟩
  · rw [h1]; exact h
  · rw [h5]
    refine ⟨by simpa using h.1, ?_⟩
    intro j x hj hx
    simp only [List.getElem?_set] at hj
    by_cases hij : i = j
    · subst hij; simp only; split <;> omega
    · simp only [hij, if_false] at hj
      have := h.2 j x hj hx
      simp only; split <;> omega

theorem release_preserves_inv (t : LockTable) (f : CString) (h : LockInv t) :
    LockInv (release_global_lock t f) := by
  unfold release_global_lock
  rcases unlock_first_eq t.locked_files t.num_locked_files f with ⟨_, h2⟩ | ⟨i, e, _, _, _, h4⟩
  · rw [h2]; exact h
  · rw [h4]
    refine ⟨by simpa using h.1, ?_⟩
    intro j x hj hx
    simp only [List.getElem?_set] at hj
    by_cases hij : i = j
    · simp only [hij, if_true] at hj
      split at hj
      · simp at hj; subst hj; simp at hx
      · simp at hj
    · simp only [hij, if_false] at hj
      exact h.2 j x hj hx

theorem run_lock_ops_inv (ops : List LockOp) (t : LockTable) (h : LockInv t) :
    LockInv (run_lock_ops t ops) := by
  induction ops generalizing t with
  | nil => exact h
  | cons op ops ih =>
    simp only [run_lock_ops, List.foldl_cons]
    apply ih
    cases op with
    | acquire self f => exact acquire_preserves_inv t self f h
    | release f => exact release_preserves_inv t f h

theorem take_of_short (f : CString) (h : f.length ≤ 255) : f.take (MAX_FILENAME - 1) = f := by
  apply List.take_of_length_le
  simpa [MAX_FILENAME] using h

theorem acquire_preserves_unique (t : LockTable) (self : Nat) (f : CString)
    (hf : f.length ≤ 255) (h : LockInv t) (hu : no_duplicate_locks t) :
    no_duplicate_locks (acquire_global_lock t self f).1 := by
  rcases acquire_cases t self f with ⟨h1, _⟩ | ⟨i, e, h1, _, _, _, h5⟩
  · rw [h1]; exact hu
  · rw [h5, take_of_short f hf]
    have key : ∀ (k : Nat) (b : locked_file_t), t.locked_files[k]? = some b →
        b.locked = true → b.filename ≠ f := by
      intro k b hk hb hbf
      have hlt := h.2 k b hk hb
      have := find_locked_none h1 k b hlt hk
      simp [slot_matches, hbf, hb] at this
    intro j k a b hj hk hjk ha hb
    simp only [List.getElem?_set] at hj hk
    by_cases hij : i = j
    · have hik : ¬ i = k := by omega
      simp only [hij, if_true] at hj
      simp only [hik, if_false] at hk
      split at hj
      · simp at hj; subst hj
        exact fun heq => key k b hk hb heq.symm
      · simp at hj
    · simp only [hij, if_false] at hj
      by_cases hik : i = k
      · simp only [hik, if_true] at hk
        split at hk
        · simp at hk; subst hk
          exact key j a hj ha
        · simp at hk
      · simp only [hik, if_false] at hk
        exact hu j k a b hj hk hjk ha hb

theorem release_preserves_unique (t : LockTable) (f : CString) (hu : no_duplicate_locks t) :
    no_duplicate_locks (release_global_lock t f) := by
  unfold release_global_lock
  rcases unlock_first_eq t.locked_files t.num_locked_files f with ⟨_, h2⟩ | ⟨i, e, _, _, _, h4⟩
  · rw [h2]; exact hu
  · rw [h4]
    intro j k a b hj hk hjk ha hb
    simp only [List.getElem?_set] at hj hk
    by_cases hij : i = j
    · simp only [hij, if_true] at hj
      split at hj
      · simp at hj; subst hj; simp at ha
      · simp at hj
    · simp only [hij, if_false] at hj
      by_cases hik : i = k
      · simp only [hik, if_true] at hk
        split at hk
        · simp at hk; subst hk; simp at hb
        · simp at hk
      · simp only [hik, if_false] at hk
        exact hu j k a b hj hk hjk ha hb

theorem run_lock_ops_unique (ops : List LockOp) (t : LockTable)
    (hops : ∀ op ∈ ops, op.name.length ≤ 255) (h : LockInv t) (hu : no_duplicate_locks t) :
    no_duplicate_locks (run_lock_ops t ops) := by
  induction ops generalizing t with
  | nil => exact hu
  | cons op ops ih =>
    simp only [run_lock_ops, List.foldl_cons]
    have hop := hops op (by simp)
    have hrest : ∀ o ∈ ops, o.name.length ≤ 255 := fun o ho => hops o (by simp [ho])
    cases op with
    | acquire self f =>
      exact ih _ hrest (acquire_preserves_inv t self f h)
        (acquire_preserves_unique t self f hop h hu)
    | release f =>
      exact ih _ hrest (release_preserves_inv t f h) (release_preserves_unique t f hu)

/-- C1. Lock-table uniqueness: from the empty table, after any finite sequence of
acquire and release calls on names of at most 255 bytes, no two distinct slots with
`locked = 1` carry the same file name. -/
theorem lock_table_unique (ops : List LockOp) (hops : ∀ op ∈ ops, op.name.length ≤ 255)
    (i j : Nat) (a b : locked_file_t)
    (hi : (run_lock_ops LockTable.empty ops).locked_files[i]? = some a)
    (hj : (run_lock_ops LockTable.empty ops).locked_files[j]? = some b)
    (hij : i ≠ j) (ha : a.locked = true) (hb : b.locked = true) :
    a.filename ≠ b.filename :=
  run_lock_ops_unique ops LockTable.empty hops LockInv_empty no_duplicate_locks_empty
    i j a b hi hj hij ha hb

theorem lock_table_unique_witness :
    (∀ op ∈ [LockOp.acquire 1 (ascii "a"), LockOp.acquire 2 (ascii "b"),
        LockOp.acquire 3 (ascii "a"), LockOp.release (ascii "c")], op.name.length ≤ 255) ∧
    (⟨ascii "a", true, 1⟩ : locked_file_t).filename ≠
      (⟨ascii "b", true, 2⟩ : locked_file_t).filename :=
  ⟨by decide,
   lock_table_unique [LockOp.acquire 1 (ascii "a"), LockOp.acquire 2 (ascii "b"),
        LockOp.acquire 3 (ascii "a"), LockOp.release (ascii "c")] (by decide) 0 1
      ⟨ascii "a", true, 1⟩ ⟨ascii "b", true, 2⟩ (by decide) (by decide) (by decide) rfl rfl⟩

theorem table_full_iff (t : LockTable) (h : LockInv t) :
    table_full t = true ↔
      ∀ i e, i < MAX_LOCKED_FILES → t.locked_files[i]? = some e → e.locked = true := by
  simp only [table_full, List.all_eq_true]
  constructor
  · intro hall i e _ he
    exact hall e (List.mem_iff_getElem?.2 ⟨i, he⟩)
  · intro hall e he
    obtain ⟨i, hi⟩ := List.mem_iff_getElem?.1 he
    have hlt : i < t.locked_files.length := by
      by_contra hge
      rw [List.getElem?_eq_none (by omega)] at hi
      simp at hi
    rw [h.1] at hlt
    exact hall i e hlt hi

theorem held_iff_find_locked (t : LockTable) (h : LockInv t) (f : CString) :
    held t f = true ↔ find_locked t.locked_files t.num_locked_files f ≠ none := by
  rw [held_iff]
  constructor
  · rintro ⟨i, e, hi, hl, hf⟩ hnone
    have := find_locked_none hnone i e (h.2 i e hi hl) hi
    simp [slot_matches, hf, hl] at this
  · intro hne
    cases hfl : find_locked t.locked_files t.num_locked_files f with
    | none => exact absurd hfl hne
    | some i =>
      obtain ⟨_, e, he, hm⟩ := find_locked_some hfl
      rw [slot_matches_iff] at hm
      exact ⟨i, e, he, hm.2, hm.1⟩

theorem acquire_spec_of_inv (t : LockTable) (h : LockInv t) (self : Nat) (name : CString)
    (hname : name.length ≤ 255) :
    ((acquire_global_lock t self name).2 = -1 ↔ (held t name = true ∨ table_full t = true)) ∧
    (¬ (held t name = true ∨ table_full t = true) →
      (acquire_global_lock t self name).2 = 0 ∧
      held (acquire_global_lock t self name).1 name = true ∧
      ∀ m, m ≠ name → held (acquire_global_lock t self name).1 m = held t m) := by
  rcases acquire_cases t self name with ⟨h1, h2⟩ | ⟨i, e, h1, h2, h3, h4, h5⟩
  · have hbusy : held t name = true ∨ table_full t = true := by
      rcases h2 with h2 | h2
      · exact Or.inl ((held_iff_find_locked t h name).2 h2)
      · exact Or.inr ((table_full_iff t h).2 h2)
    rw [h1]
    exact ⟨⟨fun _ => hbusy, fun _ => rfl⟩, fun hn => absurd hbusy hn⟩
  · have hfree : ¬ (held t name = true ∨ table_full t = true) := by
      rintro (hh | hh)
      · exact (held_iff_find_locked t h name).1 hh h1
      · have := (table_full_iff t h).1 hh i e h2 h3
        rw [h4] at this; simp at this
    have hlen : i < t.locked_files.length := by rw [h.1]; exact h2
    rw [h5, take_of_short name hname]
    refine ⟨⟨fun h0 => by simp at h0, fun hb => absurd hb hfree⟩, fun _ => ⟨rfl, ?_, ?_⟩⟩
    · rw [held_iff]
      exact ⟨i, ⟨name, true, self⟩, by simp [List.getElem?_set, hlen], rfl, rfl⟩
    · intro m hm
      rw [Bool.eq_iff_iff, held_iff, held_iff]
      constructor
      · rintro ⟨j, x, hj, hl, hx⟩
        simp only [List.getElem?_set] at hj
        by_cases hij : i = j
        · simp only [hij, if_true] at hj
          split at hj
          · simp at hj; subst hj; exact absurd hx.symm hm
          · simp at hj
        · simp only [hij, if_false] at hj
          exact ⟨j, x, hj, hl, hx⟩
      · rintro ⟨j, x, hj, hl, hx⟩
        have hij : ¬ i = j := by
          rintro rfl
          rw [h3] at hj; simp at hj; subst hj
          rw [h4] at hl; simp at hl
        exact ⟨j, x, by simp [List.getElem?_set, hij, hj], hl, hx⟩

/-- C2. In every table reachable from the empty one and for every name of at most 255
bytes, `acquire_global_lock` returns -1 exactly when the name is held or all slots are
locked; otherwise it returns 0, the name is held afterwards and the held status of every
other name is unchanged. -/
theorem acquire_global_lock_spec (ops : List LockOp) (self : Nat) (name : CString)
    (hname : name.length ≤ 255) :
    ((acquire_global_lock (run_lock_ops LockTable.empty ops) self name).2 = -1 ↔
      (held (run_lock_ops LockTable.empty ops) name = true ∨
        table_full (run_lock_ops LockTable.empty ops) = true)) ∧
    (¬ (held (run_lock_ops LockTable.empty ops) name = true ∨
        table_full (run_lock_ops LockTable.empty ops) = true) →
      (acquire_global_lock (run_lock_ops LockTable.empty ops) self name).2 = 0 ∧
      held (acquire_global_lock (run_lock_ops LockTable.empty ops) self name).1 name = true ∧
      ∀ m, m ≠ name →
        held (acquire_global_lock (run_lock_ops LockTable.empty ops) self name).1 m =
          held (run_lock_ops LockTable.empty ops) m) :=
  acquire_spec_of_inv _ (run_lock_ops_inv ops LockTable.empty LockInv_empty) self name hname

theorem acquire_global_lock_spec_witness :
    (ascii "b").length ≤ 255 ∧
    (acquire_global_lock (run_lock_ops LockTable.empty [LockOp.acquire 1 (ascii "a")]) 2
      (ascii "b")).2 = 0 :=
  ⟨by decide,
   ((acquire_global_lock_spec [LockOp.acquire 1 (ascii "a")] 2 (ascii "b") (by decide)).2
      (by decide)).1⟩


/-! ## Security tracker -/

theorem find_ip_some {es : List client_security_t} {n : Nat} {ip : CString} {i : Nat}
    (h : find_ip es n ip = some i) :
    i < n ∧ ∃ e, es[i]? = some e ∧ e.ip ≠ [] ∧ e.ip = ip := by
  induction es generalizing n i with
  | nil => simp [find_ip] at h
  | cons x xs ih =>
    cases n with
    | zero => simp [find_ip] at h
    | succ n =>
      simp only [find_ip] at h
      split at h
      · rename_i hx
        simp at h; subst h
        exact ⟨by omega, x, by simp, hx.1, hx.2⟩
      · cases hfl : find_ip xs n ip with
        | none => rw [hfl] at h; simp at h
        | some v =>
          rw [hfl] at h; simp at h; subst h
          obtain ⟨h1, e, h2, h3⟩ := ih hfl
          exact ⟨by omega, e, by simpa using h2, h3⟩

theorem find_ip_set_same (es : List client_security_t) (n : Nat) (ip : CString) (j : Nat)
    (x y : client_security_t) (hj : es[j]? = some x)
    (hxy : (x.ip ≠ [] ∧ x.ip = ip) ↔ (y.ip ≠ [] ∧ y.ip = ip)) :
    find_ip (es.set j y) n ip = find_ip es n ip := by
  induction es generalizing n j with
  | nil => simp at hj
  | cons a as ih =>
    cases n with
    | zero => cases j <;> simp [find_ip]
    | succ n =>
      cases j with
      | zero =>
        simp at hj; subst hj
        simp only [List.set_cons_zero, find_ip]
        by_cases h : a.ip ≠ [] ∧ a.ip = ip
        · rw [if_pos h, if_pos (hxy.1 h)]
        · rw [if_neg h, if_neg (fun hy => h (hxy.2 hy))]
      | succ j =>
        simp at hj
        simp only [List.set_cons_succ, find_ip, ih n j hj]

theorem find_ip_set_new (es : List client_security_t) (n : Nat) (ip : CString) (j : Nat)
    (x y : client_security_t) (hn : find_ip es n ip = none) (hj : es[j]? = some x)
    (hjn : j < n) (hy : y.ip ≠ [] ∧ y.ip = ip) :
    find_ip (es.set j y) n ip = some j := by
  induction es generalizing n j with
  | nil => simp at hj
  | cons a as ih =>
    cases n with
    | zero => omega
    | succ n =>
      simp only [find_ip] at hn
      split at hn
      · simp at hn
      · rename_i ha
        have hn2 : find_ip as n ip = none := by
          cases hfl : find_ip as n ip with
          | none => rfl
          | some v => rw [hfl] at hn; simp at hn
        cases j with
        | zero => simp only [List.set_cons_zero, find_ip, if_pos hy]
        | succ j =>
          simp at hj
          simp only [List.set_cons_succ, find_ip, if_neg ha, ih n j hn2 hj (by omega)]
          simp

theorem claim_empty_some {es : List client_security_t} {n : Nat} {ip : CString}
    {i : Nat} {fs : List client_security_t} (h : claim_empty es n ip = some (i, fs)) :
    i < n ∧ ∃ e, es[i]? = some e ∧ e.ip = [] ∧
      fs = es.set i { e with ip := ip.take (INET_ADDRSTRLEN - 1) } := by
  induction es generalizing n i fs with
  | nil => simp [claim_empty] at h
  | cons x xs ih =>
    cases n with
    | zero => simp [claim_empty] at h
    | succ n =>
      simp only [claim_empty] at h
      split at h
      · rename_i hx
        simp at h; obtain ⟨rfl, rfl⟩ := h
        exact ⟨by omega, x, by simp, hx, by simp⟩
      · cases hfl : claim_empty xs n ip with
        | none => rw [hfl] at h; simp at h
        | some v =>
          obtain ⟨vi, vfs⟩ := v
          rw [hfl] at h; simp at h; obtain ⟨rfl, rfl⟩ := h
          obtain ⟨h1, e, h2, h3, h4⟩ := ih hfl
          exact ⟨by omega, e, by simpa using h2, h3, by simp [h4]⟩

/-- The three ways `find_tracker_slot` can end. -/
theorem find_tracker_slot_cases (tr : Tracker) (ip : CString) :
    (∃ i : Nat, find_ip tr MAX_CLIENT_TRACK ip = some i ∧
      find_tracker_slot tr ip = (tr, (i : Int))) ∨
    (∃ (i : Nat) (e : client_security_t), find_ip tr MAX_CLIENT_TRACK ip = none ∧
      i < MAX_CLIENT_TRACK ∧ tr[i]? = some e ∧ e.ip = [] ∧
      find_tracker_slot tr ip =
        (tr.set i { e with ip := ip.take (INET_ADDRSTRLEN - 1) }, (i : Int))) ∨
    (find_ip tr MAX_CLIENT_TRACK ip = none ∧ find_tracker_slot tr ip = (tr, -1)) := by
  unfold find_tracker_slot
  cases h1 : find_ip tr MAX_CLIENT_TRACK ip with
  | some i => left; exact ⟨i, rfl, rfl⟩
  | none =>
    right
    cases h2 : claim_empty tr MAX_CLIENT_TRACK ip with
    | none => right; exact ⟨rfl, rfl⟩
    | some v =>
      obtain ⟨i, fs⟩ := v
      obtain ⟨h3, e, h4, h5, h6⟩ := claim_empty_some h2
      left
      exact ⟨i, e, rfl, h3, h4, h5, by simp [h6]⟩

theorem take_ip_short (ip : CString) (h : ip.length ≤ 15) :
    ip.take (INET_ADDRSTRLEN - 1) = ip := by
  apply List.take_of_length_le
  simpa [INET_ADDRSTRLEN] using h

theorem getElem?_lt {α : Type} {l : List α} {i : Nat} {a : α} (h : l[i]? = some a) :
    i < l.length := by
  by_contra hge
  rw [List.getElem?_eq_none (by omega)] at h
  simp at h

/-- After `find_tracker_slot` succeeds for a non-empty short address, the address owns
the returned slot. -/
theorem find_tracker_slot_owned (tr : Tracker) (ip : CString) (hip : ip ≠ [])
    (hlen : ip.length ≤ 15) (hok : (find_tracker_slot tr ip).2 ≥ 0) :
    ∃ (k : Nat) (e : client_security_t), (find_tracker_slot tr ip).2 = (k : Int) ∧
      slot_state (find_tracker_slot tr ip).1 ip k e ∧
      ((∃ x ∈ tr, x.failures = e.failures)) := by
  rcases find_tracker_slot_cases tr ip with ⟨i, h1, h2⟩ | ⟨i, e, h1, h2, h3, h4, h5⟩ | ⟨_, h2⟩
  · obtain ⟨_, e, he, _⟩ := find_ip_some h1
    rw [h2]
    exact ⟨i, e, rfl, ⟨h1, he⟩, e, List.mem_iff_getElem?.2 ⟨i, he⟩, rfl⟩
  · rw [h5, take_ip_short ip hlen]
    refine ⟨i, { e with ip := ip }, rfl, ⟨?_, ?_⟩, e, List.mem_iff_getElem?.2 ⟨i, h3⟩, rfl⟩
    · exact find_ip_set_new tr MAX_CLIENT_TRACK ip i e _ h1 h3 h2 ⟨hip, rfl⟩
    · simp [List.getElem?_set, getElem?_lt h3]
  · rw [h2] at hok; simp at hok

theorem find_tracker_slot_of_state {tr : Tracker} {ip : CString} {k : Nat}
    {e : client_security_t} (hs : slot_state tr ip k e) :
    find_tracker_slot tr ip = (tr, (k : Int)) := by
  unfold find_tracker_slot
  rw [hs.1]

theorem slot_state_set_self {tr : Tracker} {ip : CString} {k : Nat}
    {e y : client_security_t} (hs : slot_state tr ip k e) (hy : y.ip = e.ip) :
    slot_state (tr.set k y) ip k y := by
  refine ⟨?_, by simp [List.getElem?_set, getElem?_lt hs.2]⟩
  rw [find_ip_set_same tr MAX_CLIENT_TRACK ip k e y hs.2 (by rw [hy]), hs.1]

theorem slot_state_set_other {tr : Tracker} {ip : CString} {k : Nat}
    {e : client_security_t} (hs : slot_state tr ip k e) (j : Nat) (x y : client_security_t)
    (hj : tr[j]? = some x) (hx : x.ip ≠ ip) (hy : y.ip ≠ ip) :
    slot_state (tr.set j y) ip k e := by
  obtain ⟨_, e1, he1, _, hip⟩ := find_ip_some hs.1
  have hjk : j ≠ k := by
    rintro rfl
    rw [hj] at he1; simp at he1; subst he1
    exact hx hip
  refine ⟨?_, by simp [List.getElem?_set, hjk, hs.2]⟩
  rw [find_ip_set_same tr MAX_CLIENT_TRACK ip j x y hj, hs.1]
  constructor
  · intro h; exact absurd h.2 hx
  · intro h; exact absurd h.2 hy

/-- A lookup for another (short) address leaves the slot of `ip` alone, and the slot
it returns carries that other address. -/
theorem find_tracker_slot_other {tr : Tracker} {ip : CString} {k : Nat}
    {e : client_security_t} (hs : slot_state tr ip k e) (ip1 : CString) (hne : ip1 ≠ ip)
    (hlen : ip1.length ≤ 15) :
    slot_state (find_tracker_slot tr ip1).1 ip k e ∧
    ((find_tracker_slot tr ip1).2 ≥ 0 →
      ∃ x, (find_tracker_slot tr ip1).1[(find_tracker_slot tr ip1).2.toNat]? = some x ∧
        x.ip = ip1) := by
  rcases find_tracker_slot_cases tr ip1 with ⟨i, h1, h2⟩ | ⟨i, x, h1, h2, h3, h4, h5⟩ | ⟨_, h2⟩
  · obtain ⟨_, x, hx, _, hx2⟩ := find_ip_some h1
    rw [h2]
    exact ⟨hs, fun _ => ⟨x, by simpa using hx, hx2⟩⟩
  · obtain ⟨_, e1, _, hne1, hip⟩ := find_ip_some hs.1
    have hipne : ip ≠ [] := by rw [← hip]; exact hne1
    rw [h5, take_ip_short ip1 hlen]
    refine ⟨slot_state_set_other hs i x _ h3 ?_ hne, fun _ => ⟨{ x with ip := ip1 }, ?_, rfl⟩⟩
    · rw [h4]; exact fun h => hipne h.symm
    · simp [List.getElem?_set, getElem?_lt h3]
  · rw [h2]
    exact ⟨hs, fun h => by simp at h⟩

theorem record_failure_of_state {tr : Tracker} {ip : CString} {k : Nat}
    {e : client_security_t} (hs : slot_state tr ip k e) (now : Int) (reason : CString) :
    slot_state (record_failure tr ip now reason).1 ip k (bump e now) := by
  unfold record_failure
  simp only [find_tracker_slot_of_state hs, Int.toNat_ofNat, hs.2]
  rw [if_pos (by omega)]
  exact slot_state_set_self hs rfl

theorem is_client_blocked_of_state {tr : Tracker} {ip : CString} {k : Nat}
    {e : client_security_t} (hs : slot_state tr ip k e) (now : Int) :
    is_client_blocked tr ip now = (tr, decide (e.blocked_until > now)) := by
  unfold is_client_blocked
  simp only [find_tracker_slot_of_state hs, Int.toNat_ofNat, hs.2]
  simp

theorem quiet_preserves_state {tr : Tracker} {ip : CString} {k : Nat}
    {e : client_security_t} (hs : slot_state tr ip k e) (op : TrackerOp)
    (hlen : op.ip.length ≤ 15) (hq : op.quiet_for ip = true) :
    slot_state (op.apply tr) ip k e := by
  cases op with
  | blocked ip1 now =>
    simp only [TrackerOp.apply, is_client_blocked]
    by_cases h : ip1 = ip
    · subst h; rw [find_tracker_slot_of_state hs]; exact hs
    · exact (find_tracker_slot_other hs ip1 h hlen).1
  | failure ip1 now reason =>
    have hne : ip1 ≠ ip := by simpa [TrackerOp.quiet_for] using hq
    obtain ⟨h1, h2⟩ := find_tracker_slot_other hs ip1 hne hlen
    simp only [TrackerOp.apply, record_failure]
    split
    · rename_i hge
      obtain ⟨x, hx, hxip⟩ := h2 hge
      rw [hx]
      exact slot_state_set_other h1 _ x _ hx (by rw [hxip]; exact hne) (by simpa [hxip] using hne)
    · exact h1
  | success ip1 =>
    have hne : ip1 ≠ ip := by simpa [TrackerOp.quiet_for] using hq
    obtain ⟨h1, h2⟩ := find_tracker_slot_other hs ip1 hne hlen
    simp only [TrackerOp.apply, record_success]
    split
    · rename_i hge
      obtain ⟨x, hx, hxip⟩ := h2 hge
      rw [hx]
      exact slot_state_set_other h1 _ x _ hx (by rw [hxip]; exact hne) (by simpa [hxip] using hne)
    · exact h1

theorem quiet_run_preserves_state (ops : List TrackerOp) {tr : Tracker} {ip : CString}
    {k : Nat} {e : client_security_t} (hs : slot_state tr ip k e)
    (hops : ∀ op ∈ ops, op.ip.length ≤ 15 ∧ op.quiet_for ip = true) :
    slot_state (run_tracker_ops tr ops) ip k e := by
  induction ops generalizing tr with
  | nil => exact hs
  | cons op ops ih =>
    simp only [run_tracker_ops, List.foldl_cons]
    have hop := hops op (by simp)
    exact ih (quiet_preserves_state hs op hop.1 hop.2)
      (fun o ho => hops o (by simp [ho]))

theorem nonneg_set {tr : Tracker} (h : FailuresNonneg tr) (i : Nat) (y : client_security_t)
    (hy : 0 ≤ y.failures) : FailuresNonneg (tr.set i y) := by
  intro e he
  rcases List.mem_or_eq_of_mem_set he with h1 | h1
  · exact h e h1
  · rw [h1]; exact hy

theorem nonneg_find_tracker_slot {tr : Tracker} (h : FailuresNonneg tr) (ip : CString) :
    FailuresNonneg (find_tracker_slot tr ip).1 := by
  rcases find_tracker_slot_cases tr ip with ⟨i, _, h2⟩ | ⟨i, e, _, _, h3, _, h5⟩ | ⟨_, h2⟩
  · rw [h2]; exact h
  · rw [h5]
    exact nonneg_set h i _ (h e (List.mem_iff_getElem?.2 ⟨i, h3⟩))
  · rw [h2]; exact h

theorem nonneg_apply {tr : Tracker} (h : FailuresNonneg tr) (op : TrackerOp) :
    FailuresNonneg (op.apply tr) := by
  have h1 := nonneg_find_tracker_slot h op.ip
  cases op with
  | blocked ip now => exact h1
  | failure ip now reason =>
    simp only [TrackerOp.apply, record_failure]
    simp only [TrackerOp.ip] at h1
    split
    · split
      · rename_i e he
        have := h1 e (List.mem_iff_getElem?.2 ⟨_, he⟩)
        exact nonneg_set h1 _ _ (by simp only; omega)
      · exact h1
    · exact h1
  | success ip =>
    simp only [TrackerOp.apply, record_success]
    simp only [TrackerOp.ip] at h1
    split
    · split
      · exact nonneg_set h1 _ _ (by simp)
      · exact h1
    · exact h1

theorem nonneg_run (ops : List TrackerOp) {tr : Tracker} (h : FailuresNonneg tr) :
    FailuresNonneg (run_tracker_ops tr ops) := by
  induction ops generalizing tr with
  | nil => exact h
  | cons op ops ih =>
    simp only [run_tracker_ops, List.foldl_cons]
    exact ih (nonneg_apply h op)

theorem nonneg_init : FailuresNonneg Tracker.init := by
  intro e he
  simp only [Tracker.init, List.mem_replicate] at he
  rw [he.2]

theorem run_tracker_ops_append (tr : Tracker) (a b : List TrackerOp) :
    run_tracker_ops tr (a ++ b) = run_tracker_ops (run_tracker_ops tr a) b := by
  simp [run_tracker_ops, List.foldl_append]

/-- The first counted failure of an address that has, or can get, a slot. -/
theorem record_failure_first {tr : Tracker} (hnn : FailuresNonneg tr) (ip : CString)
    (hip : ip ≠ []) (hlen : ip.length ≤ 15) (hok : (find_tracker_slot tr ip).2 ≥ 0)
    (now : Int) (reason : CString) :
    ∃ (k : Nat) (e : client_security_t),
      slot_state (record_failure tr ip now reason).1 ip k e ∧ 1 ≤ e.failures := by
  obtain ⟨k, e, hk, hs, x, hx, hxe⟩ := find_tracker_slot_owned tr ip hip hlen hok
  refine ⟨k, bump e now, ?_, ?_⟩
  · unfold record_failure
    simp only [hk, Int.toNat_ofNat, hs.2]
    rw [if_pos (by omega)]
    exact slot_state_set_self hs rfl
  · have := hnn x hx
    simp only [bump]
    omega

/-- C5. Brute-force block: for a non-empty peer address that has a tracker slot or can
get one, after three `record_failure` calls for it at times `t1 ≤ t2 ≤ t3`, interleaved
only with calls that neither reset nor count for that address, `is_client_blocked` is
true at every time `t` with `t3 ≤ t < t3 + 600`, and the accept loop answers
`ERROR Client blocked due to repeated failures`, logs `BLOCKED_CLIENT`, closes the
socket and starts no handler. -/
theorem brute_force_block (pre b1 b2 b3 : List TrackerOp) (ip r1 r2 r3 : CString)
    (t1 t2 t3 t : Int) (hip : ip ≠ []) (hlen : ip.length ≤ 15)
    (hslot : (find_tracker_slot (run_tracker_ops Tracker.init pre) ip).2 ≥ 0)
    (hb1 : ∀ op ∈ b1, op.ip.length ≤ 15 ∧ op.quiet_for ip = true)
    (hb2 : ∀ op ∈ b2, op.ip.length ≤ 15 ∧ op.quiet_for ip = true)
    (hb3 : ∀ op ∈ b3, op.ip.length ≤ 15 ∧ op.quiet_for ip = true)
    (_h12 : t1 ≤ t2) (_h23 : t2 ≤ t3) (ht : t3 ≤ t) (ht2 : t < t3 + 600) :
    (is_client_blocked
      (run_tracker_ops Tracker.init
        (pre ++ [TrackerOp.failure ip t1 r1] ++ b1 ++ [TrackerOp.failure ip t2 r2] ++ b2 ++
          [TrackerOp.failure ip t3 r3] ++ b3)) ip t).2 = true ∧
    (accept_connection
      (run_tracker_ops Tracker.init
        (pre ++ [TrackerOp.failure ip t1 r1] ++ b1 ++ [TrackerOp.failure ip t2 r2] ++ b2 ++
          [TrackerOp.failure ip t3 r3] ++ b3)) ip t).events =
      [Event.sock_write (ascii "ERROR Client blocked due to repeated failures\n"),
       Event.security (ascii "BLOCKED_CLIENT") ip (ascii "N/A") (ascii "Connection rejected"),
       Event.sock_close] ∧
    (accept_connection
      (run_tracker_ops Tracker.init
        (pre ++ [TrackerOp.failure ip t1 r1] ++ b1 ++ [TrackerOp.failure ip t2 r2] ++ b2 ++
          [TrackerOp.failure ip t3 r3] ++ b3)) ip t).spawned = false := by
  have hnn := nonneg_run pre nonneg_init
  obtain ⟨k, e1, hs1, he1⟩ := record_failure_first hnn ip hip hlen hslot t1 r1
  have hs2 := record_failure_of_state (quiet_run_preserves_state b1 hs1 hb1) t2 r2
  have hs3 := record_failure_of_state (quiet_run_preserves_state b2 hs2 hb2) t3 r3
  have hs4 := quiet_run_preserves_state b3 hs3 hb3
  have hfinal : run_tracker_ops Tracker.init
        (pre ++ [TrackerOp.failure ip t1 r1] ++ b1 ++ [TrackerOp.failure ip t2 r2] ++ b2 ++
          [TrackerOp.failure ip t3 r3] ++ b3) =
      run_tracker_ops (record_failure (run_tracker_ops (record_failure (run_tracker_ops
        (record_failure (run_tracker_ops Tracker.init pre) ip t1 r1).1 b1) ip t2 r2).1 b2)
          ip t3 r3).1 b3 := by
    simp only [run_tracker_ops_append]
    simp [run_tracker_ops, TrackerOp.apply]
  have hblocked : (bump (bump e1 t2) t3).blocked_until > t := by
    simp only [bump, FAILURE_THRESHOLD, BLOCK_SECONDS]
    rw [if_pos (by omega)]
    omega
  have hb : is_client_blocked _ ip t = (_, decide ((bump (bump e1 t2) t3).blocked_until > t)) :=
    is_client_blocked_of_state hs4 t
  rw [hfinal]
  refine ⟨by rw [hb]; simpa using hblocked, ?_, ?_⟩
  · unfold accept_connection
    simp only [hb, decide_eq_true hblocked, if_true]
    rfl
  · unfold accept_connection
    simp only [hb, decide_eq_true hblocked, if_true]

set_option maxRecDepth 20000 in
theorem brute_force_block_witness :
    (is_client_blocked
      (run_tracker_ops Tracker.init
        ([TrackerOp.failure (ascii "10.0.0.9") 5 []] ++
          [TrackerOp.failure (ascii "10.0.0.7") 100 (ascii "Wrong token")] ++
          [TrackerOp.blocked (ascii "10.0.0.7") 101] ++
          [TrackerOp.failure (ascii "10.0.0.7") 110 (ascii "Wrong token")] ++
          [TrackerOp.success (ascii "10.0.0.9")] ++
          [TrackerOp.failure (ascii "10.0.0.7") 120 (ascii "Wrong token")] ++
          [TrackerOp.failure (ascii "10.0.0.9") 130 []])) (ascii "10.0.0.7") 719).2 = true :=
  (brute_force_block [TrackerOp.failure (ascii "10.0.0.9") 5 []]
    [TrackerOp.blocked (ascii "10.0.0.7") 101] [TrackerOp.success (ascii "10.0.0.9")]
    [TrackerOp.failure (ascii "10.0.0.9") 130 []]
    (ascii "10.0.0.7") (ascii "Wrong token") (ascii "Wrong token") (ascii "Wrong token")
    100 110 120 719 (by decide) (by decide) (by decide) (by decide) (by decide) (by decide)
    (by decide) (by decide) (by decide) (by decide)).1

/-! ## Name validation -/

theorem strstr_of_occurs (needle : CString) :
    ∀ hay : CString, needle <:+: hay → (strstr hay needle).isSome = true
  | [], h => by
    have : needle = [] := List.eq_nil_of_infix_nil h
    simp [strstr, this]
  | c :: cs, h => by
    simp only [strstr]
    by_cases hp : needle.isPrefixOf (c :: cs) = true
    · rw [if_pos hp]; rfl
    · rw [if_neg hp]
      rcases List.infix_cons_iff.1 h with h1 | h1
      · exact absurd (List.isPrefixOf_iff_prefix.2 h1) hp
      · exact strstr_of_occurs needle cs h1

theorem occurs_of_strstr (needle : CString) :
    ∀ hay : CString, (strstr hay needle).isSome = true → needle <:+: hay
  | [], h => by
    simp only [strstr] at h
    split at h
    · rename_i hn; rw [hn]
    · simp at h
  | c :: cs, h => by
    simp only [strstr] at h
    split at h
    · rename_i hp
      exact (List.isPrefixOf_iff_prefix.1 hp).isInfix
    · exact List.infix_cons (occurs_of_strstr needle cs h)

theorem is_separator_iff (c : CChar) : is_separator c = true ↔ c = 47 := by
  have hlt := c.isLt
  simp only [is_separator, TWO_BACKSLASHES, Bool.or_eq_true, beq_iff_eq]
  constructor
  · rintro (h | h)
    · exact Fin.ext h
    · omega
  · intro h; left; rw [h]; rfl

theorem slash_count_eq (name : CString) : slash_count name = name.count 47 := by
  induction name with
  | nil => rfl
  | cons c cs ih =>
    simp only [slash_count, List.filter_cons] at ih ⊢
    by_cases h : c = 47
    · rw [if_pos ((is_separator_iff c).2 h), h]
      simp [ih]
    · rw [if_neg (fun hh => h ((is_separator_iff c).1 hh))]
      rw [List.count_cons_of_ne (fun hh => h hh.symm)]
      exact ih

theorem char_at_zero (name : CString) : char_at name 0 = 47 ↔ name.head? = some 47 := by
  cases name with
  | nil => simp [char_at]
  | cons c cs =>
    simp only [char_at, List.getElem?_cons_zero, List.head?_cons, Option.some.injEq]
    constructor
    · intro h; exact Fin.ext h
    · intro h; rw [h]; rfl

theorem char_at_ne_two_backslashes (name : CString) (i : Nat) :
    char_at name i ≠ TWO_BACKSLASHES := by
  simp only [char_at, TWO_BACKSLASHES]
  split
  · rename_i c _; have := c.isLt; omega
  · omega

/-- The traversal test in the words of the specification: the name contains `..` or
begins with `/`. -/
theorem traversal_check_iff (name : CString) :
    traversal_check name = true ↔ (ascii ".." <:+: name ∨ name.head? = some 47) := by
  have h2 := char_at_ne_two_backslashes name 0
  simp only [traversal_check, Bool.or_eq_true, beq_iff_eq]
  constructor
  · rintro ((h | h) | h)
    · exact Or.inl (occurs_of_strstr _ _ h)
    · exact Or.inr ((char_at_zero name).1 h)
    · exact absurd h h2
  · rintro (h | h)
    · exact Or.inl (Or.inl (strstr_of_occurs _ _ h))
    · exact Or.inl (Or.inr ((char_at_zero name).2 h))

theorem user_dir_check_count (name : CString) (n : Nat) (h : user_dir_check name = some n) :
    slash_count name = 1 := by
  simp only [user_dir_check] at h
  split at h
  · split at h
    · rename_i hc; exact hc.1
    · simp at h
  · simp at h

theorem upload_name_ok_iff (name : CString) :
    upload_name_ok name = true ↔ (traversal_check name = false ∧ name.count 47 ≤ 1) := by
  rw [← slash_count_eq]
  simp only [upload_name_ok, Bool.and_eq_true, Bool.not_eq_true', Bool.and_eq_false_imp,
    Option.isNone_iff_eq_none, decide_eq_false_iff_not]
  constructor
  · rintro ⟨h1, h2⟩
    refine ⟨h1, ?_⟩
    cases hud : user_dir_check name with
    | none => have := h2 hud; omega
    | some n => rw [user_dir_check_count name n hud]
  · rintro ⟨h1, h2⟩
    exact ⟨h1, fun _ => by omega⟩

theorem download_name_ok_iff (name : CString) :
    download_name_ok name = true ↔ (traversal_check name = false ∧ name.count 47 ≤ 1) := by
  rw [← slash_count_eq]
  simp only [download_name_ok, Bool.not_eq_true', Bool.or_eq_false_iff, decide_eq_false_iff_not]
  constructor
  · rintro ⟨h1, h2⟩; exact ⟨h1, by omega⟩
  · rintro ⟨h1, h2⟩; exact ⟨h1, by omega⟩

theorem delete_name_ok_eq (name : CString) : delete_name_ok name = download_name_ok name := rfl

/-- The first piece of a split is a prefix of the string, and no split is empty. -/
theorem split_on_head (sep : CChar) :
    ∀ s : CString, ∃ p ps, split_on sep s = p :: ps ∧ p <+: s
  | [] => ⟨[], [], rfl, List.prefix_refl _⟩
  | c :: cs => by
    obtain ⟨p, ps, h1, h2⟩ := split_on_head sep cs
    simp only [split_on]
    by_cases hc : c = sep
    · rw [if_pos hc]; exact ⟨[], _, rfl, List.nil_prefix⟩
    · rw [if_neg hc, h1]
      exact ⟨c :: p, ps, rfl, by simpa using h2⟩

/-- Every piece of a split occurs in the string. -/
theorem split_on_occurs (sep : CChar) :
    ∀ s : CString, ∀ seg ∈ split_on sep s, seg <:+: s
  | [], seg, h => by
    simp only [split_on, List.mem_singleton] at h
    rw [h]
  | c :: cs, seg, h => by
    obtain ⟨p, ps, h1, h2⟩ := split_on_head sep cs
    simp only [split_on] at h
    by_cases hc : c = sep
    · rw [if_pos hc] at h
      rcases List.mem_cons.1 h with h3 | h3
      · rw [h3]; exact List.nil_infix
      · exact List.infix_cons (split_on_occurs sep cs seg h3)
    · rw [if_neg hc, h1] at h
      rcases List.mem_cons.1 h with h3 | h3
      · rw [h3]
        have : c :: p <+: c :: cs := by simpa using h2
        exact this.isInfix
      · exact List.infix_cons (split_on_occurs sep cs seg (by rw [h1]; exact List.mem_cons_of_mem _ h3))

theorem walk_below_isSome (segs : List CString) (h : ∀ seg ∈ segs, seg ≠ ascii "..") :
    ∀ stack : List CString, (walk_below stack segs).isSome = true := by
  induction segs with
  | nil => intro stack; rfl
  | cons seg segs ih =>
    intro stack
    have hrest : ∀ s ∈ segs, s ≠ ascii ".." := fun s hs => h s (List.mem_cons_of_mem _ hs)
    have hseg : seg ≠ ascii ".." := h seg (List.mem_cons_self _ _)
    simp only [walk_below]
    by_cases h1 : seg = [] ∨ seg = ascii "."
    · rw [if_pos h1]; exact ih hrest stack
    · rw [if_neg h1, if_neg hseg]; exact ih hrest _

theorem storage_path_eq (name : CString) :
    storage_path name = ascii "./storage/" ++ name.take 501 := by
  have h : ascii "./storage/" = [46, 47, 115, 116, 111, 114, 97, 103, 101, 47] := by decide
  simp only [storage_path, STORAGE_DIR, MAX_PATH, h]
  rw [List.take_append_eq_append_take]
  simp

theorem segments_storage (rest : CString) :
    segments (ascii "./storage/" ++ rest) = ascii "." :: ascii "storage" :: segments rest := by
  have h : ascii "./storage/" = [46, 47, 115, 116, 111, 114, 97, 103, 101, 47] := by decide
  have h1 : ascii "." = [46] := by decide
  have h2 : ascii "storage" = [115, 116, 111, 114, 97, 103, 101] := by decide
  rw [h, h1, h2]
  simp [segments, split_on]

/-- A name that passes the traversal test has no `..` segment, and neither has any of
its prefixes. -/
theorem no_dotdot_segment (name : CString) (h : traversal_check name = false) (k : Nat) :
    ∀ seg ∈ segments (name.take k), seg ≠ ascii ".." := by
  intro seg hseg heq
  have h1 : seg <:+: name.take k := split_on_occurs 47 _ seg hseg
  have h2 : ascii ".." <:+: name := by
    rw [← heq]
    exact h1.trans (List.take_prefix k name).isInfix
  have := (traversal_check_iff name).2 (Or.inl h2)
  rw [h] at this
  simp at this

/-- C7. Path confinement: for every name that passes the name validation of
`handle_upload`, `handle_download` or `handle_delete`, the path built from `./storage/`
and the name, resolved lexically, enters `./storage` and never climbs above it; the name
does not begin with `/` and none of its `/`-separated segments is `..`. -/
theorem path_confinement (name : CString)
    (h : upload_name_ok name = true ∨ download_name_ok name = true ∨
      delete_name_ok name = true) :
    stays_beneath_storage (storage_path name) = true ∧
    name.head? ≠ some 47 ∧ ∀ seg ∈ segments name, seg ≠ ascii ".." := by
  have ht : traversal_check name = false := by
    rcases h with h | h | h
    · exact ((upload_name_ok_iff name).1 h).1
    · exact ((download_name_ok_iff name).1 h).1
    · rw [delete_name_ok_eq] at h; exact ((download_name_ok_iff name).1 h).1
  refine ⟨?_, ?_, ?_⟩
  · rw [storage_path_eq]
    simp only [stays_beneath_storage, segments_storage, decide_True, Bool.true_and]
    exact walk_below_isSome _ (no_dotdot_segment name ht 501) []
  · intro hh
    have := (traversal_check_iff name).2 (Or.inr hh)
    rw [ht] at this
    simp at this
  · have := no_dotdot_segment name ht name.length
    rwa [List.take_length] at this

theorem path_confinement_witness :
    upload_name_ok (ascii "alice/my.notes.txt") = true ∧
    stays_beneath_storage (storage_path (ascii "alice/my.notes.txt")) = true :=
  ⟨by decide, (path_confinement (ascii "alice/my.notes.txt") (Or.inl (by decide))).1⟩

/-! ## UPLOAD and the lock table -/

/-- Releasing right after a successful acquire restores the set of held names. -/
theorem release_after_acquire (t : LockTable) (h : LockInv t) (self : Nat) (name : CString)
    (hname : name.length ≤ 255) (h0 : (acquire_global_lock t self name).2 = 0) (m : CString) :
    held (release_global_lock (acquire_global_lock t self name).1 name) m = held t m := by
  rcases acquire_cases t self name with ⟨h1, _⟩ | ⟨i, e, h1, h2, h3, h4, h5⟩
  · rw [h1] at h0; simp at h0
  · have hlen : i < t.locked_files.length := getElem?_lt h3
    rw [h5, take_of_short name hname]
    unfold release_global_lock
    simp only
    rcases unlock_first_eq (t.locked_files.set i ⟨name, true, self⟩)
        (if i + 1 > t.num_locked_files then i + 1 else t.num_locked_files) name with
      ⟨h6, _⟩ | ⟨j, x, _, h7, h8, h9⟩
    · have := find_locked_none h6 i ⟨name, true, self⟩ (by split <;> omega)
        (by simp [List.getElem?_set, hlen])
      simp [slot_matches] at this
    · have hji : j = i := by
        by_contra hne
        rw [List.getElem?_set_ne (fun hh => hne hh.symm)] at h7
        rw [slot_matches_iff] at h8
        have hlt := h.2 j x h7 h8.2
        have := find_locked_none h1 j x hlt h7
        simp [slot_matches, h8.1, h8.2] at this
      subst hji
      rw [List.getElem?_set_self hlen] at h7
      simp at h7
      subst h7
      rw [h9, List.set_set, Bool.eq_iff_iff, held_iff, held_iff]
      constructor
      · rintro ⟨k, y, hk, hl, hy⟩
        simp only [List.getElem?_set] at hk
        by_cases hjk : j = k
        · simp only [hjk, if_true] at hk
          split at hk
          · simp at hk; subst hk; simp at hl
          · simp at hk
        · simp only [hjk, if_false] at hk
          exact ⟨k, y, hk, hl, hy⟩
      · rintro ⟨k, y, hk, hl, hy⟩
        have hjk : ¬ j = k := by
          rintro rfl
          rw [h3] at hk; simp at hk; subst hk
          rw [h4] at hl; simp at hl
        exact ⟨k, y, by simp [List.getElem?_set, hjk, hk], hl, hy⟩

theorem progress_count_cons_eintr (it : UploadIter) (rest : List UploadIter)
    (h : it.read = SockRead.eintr) : progress_count (it :: rest) = progress_count rest := by
  simp [progress_count, List.filter_cons, h]

theorem progress_count_cons_other (it : UploadIter) (rest : List UploadIter)
    (h : it.read ≠ SockRead.eintr) : progress_count (it :: rest) = progress_count rest + 1 := by
  simp [progress_count, List.filter_cons, h]

/-- The transfer loop ends once enough non-interrupted outcomes are supplied. -/
theorem upload_loop_terminates (filename : CString) (filesize start_time : Int)
    (iters : List UploadIter) (total_read : Int) (content : CString)
    (h : filesize - total_read ≤ (progress_count iters : Int)) :
    (upload_loop filename filesize start_time iters total_read content).isSome = true := by
  induction iters generalizing total_read content with
  | nil =>
    simp only [progress_count, List.filter_nil, List.length_nil] at h
    simp only [upload_loop]
    rw [if_neg (by push_cast at h; omega)]
    rfl
  | cons it rest ih =>
    simp only [upload_loop]
    generalize (if filesize - total_read < (MAX_BUFFER : Int)
      then (filesize - total_read).toNat else MAX_BUFFER) = to_read
    by_cases h1 : total_read < filesize
    · rw [if_pos h1]
      by_cases h2 : it.current_time - start_time > UPLOAD_TIMEOUT
      · rw [if_pos h2]; rfl
      · rw [if_neg h2]
        cases hr : it.read with
        | eintr =>
          simp only [Option.isSome_map']
          apply ih
          rw [progress_count_cons_eintr it rest hr] at h
          exact h
        | closed => rfl
        | data bytes =>
          simp only
          by_cases hne : List.take to_read bytes = []
          · rw [if_pos hne]; rfl
          · rw [if_neg hne]
            by_cases hw : it.written ≠ ((List.take to_read bytes).length : Int)
            · rw [if_pos hw]; rfl
            · rw [if_neg hw, Option.isSome_map']
              apply ih
              have hpos : 0 < (List.take to_read bytes).length := List.length_pos.2 hne
              rw [progress_count_cons_other it rest (by rw [hr]; simp)] at h
              push_cast at h
              omega
    · rw [if_neg h1]; rfl

/-- What the transfer part leaves in the lock table: the table it found, or that table
after a successful acquire followed by the release of the same name. -/
theorem upload_transfer_table (SHA256 : CString → Digest) (t : LockTable) (self : Nat)
    (fs : FileSys) (env : UploadEnv) (name : CString) (filesize : Int) (pre : List Event)
    (r : UploadResult) (hr : upload_transfer SHA256 t self fs env name filesize pre = some r) :
    r.table = t ∨
    ((acquire_global_lock t self name).2 = 0 ∧
      r.table = release_global_lock (acquire_global_lock t self name).1 name) := by
  unfold upload_transfer at hr
  simp only at hr
  split at hr
  · rename_i hacq
    simp at hr
    left
    rw [← hr]
    rcases acquire_cases t self name with ⟨h1, _⟩ | ⟨i, e, _, _, _, _, h5⟩
    · rw [h1]
    · rw [h5] at hacq; simp at hacq
  · rename_i hacq
    have h0 : (acquire_global_lock t self name).2 = 0 := by
      by_contra hne; exact hacq hne
    split at hr
    · simp at hr; right; exact ⟨h0, by rw [← hr]⟩
    · split at hr
      · simp at hr
      · split at hr
        · simp at hr; right; exact ⟨h0, by rw [← hr]⟩
        · simp at hr; right; exact ⟨h0, by rw [← hr]⟩

/-- The same for the whole handler. -/
theorem handle_upload_table (SHA256 : CString → Digest) (t : LockTable) (self : Nat)
    (fs : FileSys) (env : UploadEnv) (name : CString) (filesize : Int) (r : UploadResult)
    (hr : handle_upload SHA256 t self fs env name filesize = some r) :
    r.table = t ∨
    ((acquire_global_lock t self name).2 = 0 ∧
      r.table = release_global_lock (acquire_global_lock t self name).1 name) := by
  unfold handle_upload at hr
  split at hr
  · simp at hr; left; rw [← hr]
  · split at hr
    · simp only at hr
      split at hr
      · exact upload_transfer_table SHA256 t self fs env name filesize _ r hr
      · split at hr
        · exact upload_transfer_table SHA256 t self fs env name filesize _ r hr
        · simp at hr; left; rw [← hr]
    · split at hr
      · simp at hr; left; rw [← hr]
      · exact upload_transfer_table SHA256 t self fs env name filesize _ r hr

theorem upload_transfer_isSome (SHA256 : CString → Digest) (t : LockTable) (self : Nat)
    (fs : FileSys) (env : UploadEnv) (name : CString) (filesize : Int) (pre : List Event)
    (h : filesize ≤ (progress_count env.iters : Int)) :
    (upload_transfer SHA256 t self fs env name filesize pre).isSome = true := by
  have hl := upload_loop_terminates name filesize env.start_time env.iters 0 [] (by simpa using h)
  unfold upload_transfer
  simp only
  split
  · rfl
  · split
    · rfl
    · split
      · rename_i hnone
        rw [hnone] at hl; simp at hl
      · split <;> rfl

theorem handle_upload_isSome (SHA256 : CString → Digest) (t : LockTable) (self : Nat)
    (fs : FileSys) (env : UploadEnv) (name : CString) (filesize : Int)
    (h : filesize ≤ (progress_count env.iters : Int)) :
    (handle_upload SHA256 t self fs env name filesize).isSome = true := by
  unfold handle_upload
  split
  · rfl
  · split
    · simp only
      split
      · exact upload_transfer_isSome SHA256 t self fs env name filesize _ h
      · split
        · exact upload_transfer_isSome SHA256 t self fs env name filesize _ h
        · rfl
    · split
      · rfl
      · exact upload_transfer_isSome SHA256 t self fs env name filesize _ h

/-- C3. `handle_upload` releases its lock on every exit path: whatever the outcomes of
the open, of the socket reads, of the file writes and of the clock, the set of names held
when it returns is the set held when it was entered; and it does return as soon as the
outcomes contain `filesize` reads that are not interrupted. -/
theorem upload_releases_lock (SHA256 : CString → Digest) (ops : List LockOp) (self : Nat)
    (fs : FileSys) (env : UploadEnv) (name : CString) (filesize : Int)
    (hname : name.length ≤ 255) :
    (∀ r, handle_upload SHA256 (run_lock_ops LockTable.empty ops) self fs env name filesize
        = some r →
      ∀ m, held r.table m = held (run_lock_ops LockTable.empty ops) m) ∧
    (filesize ≤ (progress_count env.iters : Int) →
      (handle_upload SHA256 (run_lock_ops LockTable.empty ops) self fs env name
        filesize).isSome = true) := by
  refine ⟨?_, handle_upload_isSome SHA256 _ self fs env name filesize⟩
  intro r hr m
  rcases handle_upload_table SHA256 _ self fs env name filesize r hr with h1 | ⟨h0, h1⟩
  · rw [h1]
  · rw [h1]
    exact release_after_acquire _ (run_lock_ops_inv ops LockTable.empty LockInv_empty)
      self name hname h0 m

theorem upload_releases_lock_witness :
    (ascii "alice/note").length ≤ 255 ∧
    (handle_upload sample_digest
      (run_lock_ops LockTable.empty [LockOp.acquire 7 (ascii "other")]) 1 ⟨none, none⟩
      ⟨true, true, true, 0,
        [⟨1, SockRead.data (ascii "hel"), 3⟩, ⟨2, SockRead.eintr, 0⟩,
         ⟨400, SockRead.data (ascii "lo"), 2⟩, ⟨401, SockRead.closed, 0⟩,
         ⟨402, SockRead.closed, 0⟩],
        true, ⟨true, none, true⟩, ⟨true, 1000, ascii "Thu Jan  1 00:00:00 1970\n"⟩⟩
      (ascii "alice/note") 4).isSome = true :=
  ⟨by decide,
   (upload_releases_lock sample_digest [LockOp.acquire 7 (ascii "other")] 1 ⟨none, none⟩
      ⟨true, true, true, 0,
        [⟨1, SockRead.data (ascii "hel"), 3⟩, ⟨2, SockRead.eintr, 0⟩,
         ⟨400, SockRead.data (ascii "lo"), 2⟩, ⟨401, SockRead.closed, 0⟩,
         ⟨402, SockRead.closed, 0⟩],
        true, ⟨true, none, true⟩, ⟨true, 1000, ascii "Thu Jan  1 00:00:00 1970\n"⟩⟩
      (ascii "alice/note") 4 (by decide)).2 (by decide)⟩

theorem acquire_preserves_valid (t : LockTable) (self : Nat) (f : CString)
    (hf : upload_name_ok f = true) (hlen : f.length ≤ 255) (h : HeldNamesValid t) :
    HeldNamesValid (acquire_global_lock t self f).1 := by
  rcases acquire_cases t self f with ⟨h1, _⟩ | ⟨i, e, _, _, _, _, h5⟩
  · rw [h1]; exact h
  · rw [h5, take_of_short f hlen]
    intro x hx hl
    rcases List.mem_or_eq_of_mem_set hx with h6 | h6
    · exact h x h6 hl
    · rw [h6]; exact hf

theorem release_preserves_valid (t : LockTable) (f : CString) (h : HeldNamesValid t) :
    HeldNamesValid (release_global_lock t f) := by
  unfold release_global_lock
  rcases unlock_first_eq t.locked_files t.num_locked_files f with ⟨_, h2⟩ | ⟨i, e, _, _, _, h4⟩
  · rw [h2]; exact h
  · rw [h4]
    intro x hx hl
    rcases List.mem_or_eq_of_mem_set hx with h6 | h6
    · exact h x h6 hl
    · rw [h6] at hl; simp at hl

theorem run_lock_ops_valid (ops : List LockOp) (t : LockTable)
    (hops : upload_acquires ops = true) (h : HeldNamesValid t) :
    HeldNamesValid (run_lock_ops t ops) := by
  induction ops generalizing t with
  | nil => exact h
  | cons op ops ih =>
    simp only [run_lock_ops, List.foldl_cons]
    simp only [upload_acquires, List.all_cons, Bool.and_eq_true] at hops
    have hrest : upload_acquires ops = true := hops.2
    cases op with
    | acquire self f =>
      have hf := hops.1
      simp only [Bool.and_eq_true, decide_eq_true_eq] at hf
      exact ih _ hrest (acquire_preserves_valid t self f hf.1 hf.2 h)
    | release f => exact ih _ hrest (release_preserves_valid t f h)

theorem valid_empty : HeldNamesValid LockTable.empty := by
  intro e he hl
  simp only [LockTable.empty, List.mem_replicate] at he
  rw [he.2] at hl
  simp at hl

theorem held_name_valid (t : LockTable) (h : HeldNamesValid t) (name : CString)
    (hheld : held t name = true) : upload_name_ok name = true := by
  simp only [held, List.any_eq_true, Bool.and_eq_true, decide_eq_true_eq] at hheld
  obtain ⟨e, he, hl, hn⟩ := hheld
  rw [← hn]
  exact h e he hl

theorem acquire_busy (t : LockTable) (h : LockInv t) (self : Nat) (name : CString)
    (hheld : held t name = true) : acquire_global_lock t self name = (t, -1) := by
  rcases acquire_cases t self name with ⟨h1, _⟩ | ⟨i, e, h1, _, _, _, _⟩
  · exact h1
  · exact absurd h1 ((held_iff_find_locked t h name).1 hheld)

/-- C4. When the requested name is already held (in a table produced by uploads) and the
user directory exists or can be created, `handle_upload` returns with the lock table and
the files unchanged; its only response is `ERROR File is locked by another process`, its
only audit record is the `FAILED` one, and it opens, writes and unlinks nothing. -/
theorem upload_busy (SHA256 : CString → Digest) (ops : List LockOp)
    (hops : upload_acquires ops = true)
    (self : Nat) (fs : FileSys) (env : UploadEnv) (name : CString) (filesize : Int)
    (hheld : held (run_lock_ops LockTable.empty ops) name = true)
    (hdir : env.dir_exists = true ∨ env.mkdir_ok = true) :
    ∃ r, handle_upload SHA256 (run_lock_ops LockTable.empty ops) self fs env name filesize
        = some r ∧
      r.table = run_lock_ops LockTable.empty ops ∧ r.fs = fs ∧
      r.events.filter Event.isResponse =
        [Event.sock_write (ascii "ERROR File is locked by another process\n")] ∧
      r.events.filter Event.isAudit =
        [Event.audit (ascii "UPLOAD") name (ascii "FAILED") (ascii "File locked")] ∧
      ∀ e ∈ r.events, e.opensOrRemoves = false := by
  have hinv := run_lock_ops_inv ops LockTable.empty LockInv_empty
  have hok := held_name_valid _ (run_lock_ops_valid ops LockTable.empty hops valid_empty)
    name hheld
  have hbusy := acquire_busy _ hinv self name hheld
  obtain ⟨htrav, hcount⟩ := (upload_name_ok_iff name).1 hok
  rw [← slash_count_eq] at hcount
  have hsend : send_response (ascii "ERROR") (ascii "File is locked by another process") =
      Event.sock_write (ascii "ERROR File is locked by another process\n") := by decide
  -- the transfer part stops at the lock, after any silent prefix
  have key : ∀ pre : List Event, (∀ e ∈ pre, e.isResponse = false ∧ e.isAudit = false ∧
        e.opensOrRemoves = false) →
      ∃ r, upload_transfer SHA256 (run_lock_ops LockTable.empty ops) self fs env name filesize
          pre = some r ∧
        r.table = run_lock_ops LockTable.empty ops ∧ r.fs = fs ∧
        r.events.filter Event.isResponse =
          [Event.sock_write (ascii "ERROR File is locked by another process\n")] ∧
        r.events.filter Event.isAudit =
          [Event.audit (ascii "UPLOAD") name (ascii "FAILED") (ascii "File locked")] ∧
        ∀ e ∈ r.events, e.opensOrRemoves = false := by
    intro pre hpre
    have h1 : pre.filter Event.isResponse = [] :=
      List.filter_eq_nil_iff.2 (fun e he => by simp [(hpre e he).1])
    have h2 : pre.filter Event.isAudit = [] :=
      List.filter_eq_nil_iff.2 (fun e he => by simp [(hpre e he).2.1])
    unfold upload_transfer
    simp only [hbusy]
    refine ⟨_, rfl, rfl, rfl, ?_, ?_, ?_⟩
    · rw [List.filter_append, h1, hsend]; rfl
    · rw [List.filter_append, h2, hsend]; rfl
    · intro e he
      rcases List.mem_append.1 he with h3 | h3
      · exact (hpre e h3).2.2
      · simp only [hsend, List.mem_cons, List.mem_singleton, List.not_mem_nil, or_false] at h3
        rcases h3 with rfl | rfl <;> rfl
  unfold handle_upload
  rw [if_neg (by simp [htrav])]
  cases hud : user_dir_check name with
  | none =>
    simp only
    rw [if_neg (by omega)]
    exact key [] (fun e he => by simp at he)
  | some n =>
    simp only
    by_cases hd : env.dir_exists = true
    · rw [if_pos hd]
      exact key _ (fun e he => by
        simp only [List.mem_singleton] at he
        subst he
        exact ⟨rfl, rfl, rfl⟩)
    · have hm : env.mkdir_ok = true := by
        rcases hdir with h | h
        · exact absurd h hd
        · exact h
      rw [if_neg hd, if_pos hm]
      exact key _ (fun e he => by
        simp only [List.mem_cons, List.mem_singleton, List.not_mem_nil, or_false] at he
        rcases he with rfl | rfl <;> exact ⟨rfl, rfl, rfl⟩)

theorem upload_busy_witness :
    held (run_lock_ops LockTable.empty [LockOp.acquire 7 (ascii "alice/note")])
      (ascii "alice/note") = true ∧
    ∃ r, handle_upload sample_digest
        (run_lock_ops LockTable.empty [LockOp.acquire 7 (ascii "alice/note")]) 1
        ⟨some (ascii "old"), none⟩
        ⟨true, true, true, 0, [], true, ⟨true, none, true⟩, ⟨true, 1000, []⟩⟩
        (ascii "alice/note") 5 = some r ∧
      r.table = run_lock_ops LockTable.empty [LockOp.acquire 7 (ascii "alice/note")] ∧
      r.fs = ⟨some (ascii "old"), none⟩ ∧
      r.events.filter Event.isResponse =
        [Event.sock_write (ascii "ERROR File is locked by another process\n")] ∧
      r.events.filter Event.isAudit =
        [Event.audit (ascii "UPLOAD") (ascii "alice/note") (ascii "FAILED")
          (ascii "File locked")] ∧
      ∀ e ∈ r.events, e.opensOrRemoves = false :=
  ⟨by decide,
   upload_busy sample_digest [LockOp.acquire 7 (ascii "alice/note")] (by decide) 1
    ⟨some (ascii "old"), none⟩
    ⟨true, true, true, 0, [], true, ⟨true, none, true⟩, ⟨true, 1000, []⟩⟩
    (ascii "alice/note") 5 (by decide) (Or.inl rfl)⟩

theorem send_invalid_filename :
    send_response (ascii "ERROR") (ascii "Invalid filename") =
      Event.sock_write (ascii "ERROR Invalid filename\n") := by decide

theorem send_too_many_separators :
    send_response (ascii "ERROR") (ascii "Invalid filename - too many path separators") =
      Event.sock_write (ascii "ERROR Invalid filename - too many path separators\n") := by
  decide

theorem upload_reject_traversal (SHA256 : CString → Digest) (t : LockTable) (self : Nat)
    (fs : FileSys) (env : UploadEnv) (name : CString) (filesize : Int)
    (h : traversal_check name = true) :
    handle_upload SHA256 t self fs env name filesize =
      some ⟨t, fs,
        [Event.sock_write (ascii "ERROR Invalid filename\n"),
         Event.audit (ascii "UPLOAD") name (ascii "FAILED") (ascii "Invalid filename"),
         Event.security (ascii "ACCESS_VIOLATION") [] name (ascii "Path traversal attempt")]⟩ := by
  unfold handle_upload
  rw [if_pos h, send_invalid_filename]

theorem user_dir_check_none (name : CString) (h : 2 ≤ name.count 47) :
    user_dir_check name = none := by
  cases hud : user_dir_check name with
  | none => rfl
  | some n =>
    have := user_dir_check_count name n hud
    rw [slash_count_eq] at this
    omega

theorem upload_reject_count (SHA256 : CString → Digest) (t : LockTable) (self : Nat)
    (fs : FileSys) (env : UploadEnv) (name : CString) (filesize : Int)
    (h : traversal_check name = false) (hc : 2 ≤ name.count 47) :
    handle_upload SHA256 t self fs env name filesize =
      some ⟨t, fs,
        [Event.sock_write (ascii "ERROR Invalid filename - too many path separators\n"),
         Event.audit (ascii "UPLOAD") name (ascii "FAILED") (ascii "Invalid filename"),
         Event.security (ascii "ACCESS_VIOLATION") [] name
           (ascii "Multiple path separators")]⟩ := by
  unfold handle_upload
  rw [if_neg (by simp [h])]
  simp only [user_dir_check_none name hc]
  rw [if_pos (by rw [slash_count_eq]; omega), send_too_many_separators]

theorem download_reject (SHA256 : CString → Digest) (fs : FileSys) (env : DownloadEnv)
    (name : CString) (h : download_name_ok name = false) :
    handle_download SHA256 fs env name =
      [Event.sock_write (ascii "ERROR Invalid filename\n"),
       Event.security (ascii "ACCESS_VIOLATION") [] name (ascii "Path traversal attempt")] := by
  unfold handle_download
  simp only [download_name_ok, Bool.not_eq_false'] at h
  rw [if_pos h, send_invalid_filename]

theorem delete_reject (fs : FileSys) (env : DeleteEnv) (name : CString)
    (h : delete_name_ok name = false) :
    handle_delete fs env name =
      (fs, [Event.sock_write (ascii "ERROR Invalid filename\n"),
            Event.security (ascii "ACCESS_VIOLATION") [] name
              (ascii "Invalid filename for delete")]) := by
  unfold handle_delete
  simp only [delete_name_ok, Bool.not_eq_false'] at h
  rw [if_pos h, send_invalid_filename]

/-- The names the specification calls invalid fail the validation of `handle_download`
and `handle_delete`. -/
theorem download_name_not_ok (name : CString)
    (h : ascii ".." <:+: name ∨ name.head? = some 47 ∨ 2 ≤ name.count 47) :
    download_name_ok name = false := by
  cases hok : download_name_ok name with
  | false => rfl
  | true =>
    obtain ⟨h1, h2⟩ := (download_name_ok_iff name).1 hok
    rcases h with h | h | h
    · have := (traversal_check_iff name).2 (Or.inl h); rw [h1] at this; simp at this
    · have := (traversal_check_iff name).2 (Or.inr h); rw [h1] at this; simp at this
    · omega

/-- C8 (as amended). For a name that contains `..`, begins with `/` or contains two or
more `/`: `handle_download` and `handle_delete` send exactly `ERROR Invalid filename`
and log one `ACCESS_VIOLATION`; `handle_upload` does the same (with an audit record) when
the name contains `..` or begins with `/`, and otherwise sends exactly
`ERROR Invalid filename - too many path separators`; in every case nothing is created,
opened, written or removed and the lock table is untouched. -/
theorem invalid_name_rejected (SHA256 : CString → Digest) (t : LockTable) (self : Nat)
    (fs : FileSys) (uenv : UploadEnv) (denv : DownloadEnv) (xenv : DeleteEnv)
    (name : CString) (filesize : Int)
    (h : ascii ".." <:+: name ∨ name.head? = some 47 ∨ 2 ≤ name.count 47) :
    handle_download SHA256 fs denv name =
      [Event.sock_write (ascii "ERROR Invalid filename\n"),
       Event.security (ascii "ACCESS_VIOLATION") [] name (ascii "Path traversal attempt")] ∧
    handle_delete fs xenv name =
      (fs, [Event.sock_write (ascii "ERROR Invalid filename\n"),
            Event.security (ascii "ACCESS_VIOLATION") [] name
              (ascii "Invalid filename for delete")]) ∧
    ((ascii ".." <:+: name ∨ name.head? = some 47) →
      handle_upload SHA256 t self fs uenv name filesize =
        some ⟨t, fs,
          [Event.sock_write (ascii "ERROR Invalid filename\n"),
           Event.audit (ascii "UPLOAD") name (ascii "FAILED") (ascii "Invalid filename"),
           Event.security (ascii "ACCESS_VIOLATION") [] name
             (ascii "Path traversal attempt")]⟩) ∧
    (¬ (ascii ".." <:+: name ∨ name.head? = some 47) →
      handle_upload SHA256 t self fs uenv name filesize =
        some ⟨t, fs,
          [Event.sock_write (ascii "ERROR Invalid filename - too many path separators\n"),
           Event.audit (ascii "UPLOAD") name (ascii "FAILED") (ascii "Invalid filename"),
           Event.security (ascii "ACCESS_VIOLATION") [] name
             (ascii "Multiple path separators")]⟩) := by
  have hd := download_name_not_ok name h
  refine ⟨download_reject SHA256 fs denv name hd, delete_reject fs xenv name hd, ?_, ?_⟩
  · intro ht
    exact upload_reject_traversal SHA256 t self fs uenv name filesize
      ((traversal_check_iff name).2 ht)
  · intro hn
    have ht : traversal_check name = false := by
      cases hc : traversal_check name with
      | false => rfl
      | true => exact absurd ((traversal_check_iff name).1 hc) hn
    have hc : 2 ≤ name.count 47 := by
      rcases h with h | h | h
      · exact absurd (Or.inl h) hn
      · exact absurd (Or.inr h) hn
      · exact h
    exact upload_reject_count SHA256 t self fs uenv name filesize ht hc

theorem invalid_name_rejected_witness :
    2 ≤ (ascii "a/b/c").count 47 ∧
    handle_download sample_digest ⟨some (ascii "data"), none⟩
      ⟨true, true, true, true, true, ⟨true, none, true⟩, none, []⟩ (ascii "a/b/c") =
      [Event.sock_write (ascii "ERROR Invalid filename\n"),
       Event.security (ascii "ACCESS_VIOLATION") [] (ascii "a/b/c")
         (ascii "Path traversal attempt")] :=
  ⟨by decide,
   (invalid_name_rejected sample_digest LockTable.empty 1 ⟨some (ascii "data"), none⟩
      ⟨true, true, true, 0, [], true, ⟨true, none, true⟩, ⟨true, 1000, []⟩⟩
      ⟨true, true, true, true, true, ⟨true, none, true⟩, none, []⟩ ⟨true, true, true, true⟩
      (ascii "a/b/c") 5 (Or.inr (Or.inr (by decide)))).1⟩

/-- C8 (counterexample). For the name `a/b/c` the only response of `handle_upload` is
`ERROR Invalid filename - too many path separators`, which is not the response
`ERROR Invalid filename` of the claim. -/
theorem upload_too_many_separators_reply :
    2 ≤ (ascii "a/b/c").count 47 ∧
    (handle_upload sample_digest LockTable.empty 1 ⟨none, none⟩
        ⟨true, true, true, 0, [], true, ⟨true, none, true⟩, ⟨true, 1000, []⟩⟩
        (ascii "a/b/c") 5).map (fun r => r.events.filter Event.isResponse) =
      some [Event.sock_write (ascii "ERROR Invalid filename - too many path separators\n")] ∧
    (handle_upload sample_digest LockTable.empty 1 ⟨none, none⟩
        ⟨true, true, true, 0, [], true, ⟨true, none, true⟩, ⟨true, 1000, []⟩⟩
        (ascii "a/b/c") 5).map (fun r => r.events.filter Event.isResponse) ≠
      some [Event.sock_write (ascii "ERROR Invalid filename\n")] := by
  decide

theorem upload_loop_replies (filename : CString) (filesize start_time : Int)
    (iters : List UploadIter) (total_read : Int) (content : CString) (r : LoopEnd)
    (hr : upload_loop filename filesize start_time iters total_read content = some r) :
    ∀ e ∈ r.events, e.isResponse = true → e ∈ upload_replies := by
  induction iters generalizing total_read content r with
  | nil =>
    simp only [upload_loop] at hr
    split at hr
    · simp at hr
    · simp at hr; subst hr; intro e he; simp at he
  | cons it rest ih =>
    simp only [upload_loop] at hr
    generalize (if filesize - total_read < (MAX_BUFFER : Int)
      then (filesize - total_read).toNat else MAX_BUFFER) = to_read at hr
    by_cases h1 : total_read < filesize
    · rw [if_pos h1] at hr
      by_cases h2 : it.current_time - start_time > UPLOAD_TIMEOUT
      · rw [if_pos h2] at hr
        simp at hr; subst hr
        intro e he hresp
        simp at he
        rcases he with rfl | rfl
        · simp [upload_replies]
        · simp [Event.isResponse] at hresp
      · rw [if_neg h2] at hr
        cases hread : it.read with
        | eintr =>
          rw [hread] at hr
          simp only [Option.map_eq_some'] at hr
          obtain ⟨r1, hr1, hr2⟩ := hr
          subst hr2
          intro e he hresp
          simp only [List.mem_cons] at he
          rcases he with rfl | he
          · simp [Event.isResponse] at hresp
          · exact ih total_read content r1 hr1 e he hresp
        | closed =>
          rw [hread] at hr
          simp at hr; subst hr
          intro e he hresp
          simp at he
          rcases he with rfl | rfl | rfl
          · simp [Event.isResponse] at hresp
          · simp [upload_replies]
          · simp [Event.isResponse] at hresp
        | data bytes =>
          rw [hread] at hr
          simp only at hr
          by_cases hne : List.take to_read bytes = []
          · rw [if_pos hne] at hr
            simp at hr; subst hr
            intro e he hresp
            simp at he
            rcases he with rfl | rfl | rfl
            · simp [Event.isResponse] at hresp
            · simp [upload_replies]
            · simp [Event.isResponse] at hresp
          · rw [if_neg hne] at hr
            by_cases hw : it.written ≠ ((List.take to_read bytes).length : Int)
            · rw [if_pos hw] at hr
              simp only [Option.some.injEq] at hr
              subst hr
              intro e he hresp
              simp only [List.mem_cons, List.mem_singleton, List.not_mem_nil, or_false] at he
              rcases he with rfl | rfl | rfl | rfl
              · simp [Event.isResponse] at hresp
              · simp [Event.isResponse] at hresp
              · simp [upload_replies]
              · simp [Event.isResponse] at hresp
            · rw [if_neg hw] at hr
              simp only [Option.map_eq_some'] at hr
              obtain ⟨r1, hr1, hr2⟩ := hr
              subst hr2
              intro e he hresp
              simp only [List.mem_cons] at he
              rcases he with rfl | rfl | he
              · simp [Event.isResponse] at hresp
              · simp [Event.isResponse] at hresp
              · exact ih _ _ r1 hr1 e he hresp
    · rw [if_neg h1] at hr
      simp at hr; subst hr; intro e he; simp at he

theorem hash_events_silent (SHA256 : CString → Digest) (path : CString)
    (file : Option CString) (env : HashEnv) :
    ∀ e ∈ (compute_sha256_file SHA256 path file env).2, e.isResponse = false := by
  intro e he
  unfold compute_sha256_file at he
  split at he
  · simp at he; subst he; rfl
  · split at he
    · simp at he; rcases he with rfl | rfl <;> rfl
    · simp at he; subst he; rfl

theorem metadata_events_silent (sidecar : Option CString) (env : MetaEnv) (filename : CString)
    (filesize : Int) (hash_hex : Option CString) :
    ∀ e ∈ (update_metadata sidecar env filename filesize hash_hex).2, e.isResponse = false := by
  intro e he
  unfold update_metadata at he
  split at he
  · simp at he; rcases he with rfl | rfl | rfl <;> rfl
  · simp at he; subst he; rfl

theorem upload_transfer_replies (SHA256 : CString → Digest) (t : LockTable) (self : Nat)
    (fs : FileSys) (env : UploadEnv) (name : CString) (filesize : Int) (pre : List Event)
    (r : UploadResult) (hpre : ∀ e ∈ pre, e.isResponse = false)
    (hr : upload_transfer SHA256 t self fs env name filesize pre = some r) :
    ∀ e ∈ r.events, e.isResponse = true → e ∈ upload_replies := by
  intro e he hresp
  have hnot : e ∉ pre := fun h => by rw [hpre e h] at hresp; simp at hresp
  unfold upload_transfer at hr
  simp only at hr
  split at hr
  · simp only [Option.some.injEq] at hr
    subst hr
    simp only [List.mem_append, List.mem_cons, List.mem_singleton, List.not_mem_nil,
      or_false] at he
    rcases he with he | rfl | rfl
    · exact absurd he hnot
    · simp [upload_replies]
    · simp [Event.isResponse] at hresp
  · split at hr
    · simp only [Option.some.injEq] at hr
      subst hr
      simp only [List.mem_append, List.mem_cons, List.mem_singleton, List.not_mem_nil,
        or_false] at he
      rcases he with he | rfl | rfl | rfl
      · exact absurd he hnot
      · simp [Event.isResponse] at hresp
      · simp [upload_replies]
      · simp [Event.isResponse] at hresp
    · split at hr
      · simp at hr
      · rename_i loop hloop
        have hl := upload_loop_replies name filesize env.start_time env.iters 0 [] loop hloop
        split at hr
        · simp only [Option.some.injEq] at hr
          subst hr
          simp only [List.append_assoc, List.mem_append, List.mem_cons,
            List.mem_singleton, List.not_mem_nil, or_false] at he
          rcases he with he | (rfl | rfl) | he | rfl | he | he | rfl | rfl
          · exact absurd he hnot
          · simp [Event.isResponse] at hresp
          · simp [upload_replies]
          · exact hl e he hresp
          · simp [Event.isResponse] at hresp
          · rw [hash_events_silent _ _ _ _ e he] at hresp; simp at hresp
          · rw [metadata_events_silent _ _ _ _ _ e he] at hresp; simp at hresp
          · simp [Event.isResponse] at hresp
          · simp [upload_replies]
        · simp only [Option.some.injEq] at hr
          subst hr
          simp only [List.append_assoc, List.mem_append, List.mem_cons,
            List.mem_singleton, List.not_mem_nil, or_false] at he
          rcases he with he | (rfl | rfl) | he | rfl | rfl
          · exact absurd he hnot
          · simp [Event.isResponse] at hresp
          · simp [upload_replies]
          · exact hl e he hresp
          · simp [Event.isResponse] at hresp
          · simp [Event.isResponse] at hresp

/-- Once the name has passed the validation, every response of `handle_upload` is one of
`upload_replies`. -/
theorem upload_replies_only (SHA256 : CString → Digest) (t : LockTable) (self : Nat)
    (fs : FileSys) (env : UploadEnv) (name : CString) (filesize : Int) (r : UploadResult)
    (hok : upload_name_ok name = true)
    (hr : handle_upload SHA256 t self fs env name filesize = some r) :
    ∀ e ∈ r.events, e.isResponse = true → e ∈ upload_replies := by
  obtain ⟨ht, hc⟩ := (upload_name_ok_iff name).1 hok
  rw [← slash_count_eq] at hc
  unfold handle_upload at hr
  rw [if_neg (by simp [ht])] at hr
  cases hud : user_dir_check name with
  | none =>
    rw [hud] at hr
    simp only at hr
    rw [if_neg (by omega)] at hr
    exact upload_transfer_replies SHA256 t self fs env name filesize [] r
      (fun e he => by simp at he) hr
  | some n =>
    rw [hud] at hr
    simp only at hr
    split at hr
    · exact upload_transfer_replies SHA256 t self fs env name filesize _ r
        (fun e he => by simp only [List.mem_singleton] at he; subst he; rfl) hr
    · split at hr
      · exact upload_transfer_replies SHA256 t self fs env name filesize _ r
          (fun e he => by
            simp only [List.mem_cons, List.mem_singleton, List.not_mem_nil, or_false] at he
            rcases he with rfl | rfl <;> rfl) hr
      · simp only [Option.some.injEq] at hr
        subst hr
        intro e he hresp
        simp only [List.mem_cons, List.mem_singleton, List.not_mem_nil, or_false] at he
        rcases he with rfl | rfl | rfl | rfl
        · simp [Event.isResponse] at hresp
        · simp [Event.isResponse] at hresp
        · simp [upload_replies]
        · simp [Event.isResponse] at hresp

theorem invalid_not_upload_reply :
    Event.sock_write (ascii "ERROR Invalid filename\n") ∉ upload_replies := by decide

theorem filter_silent (l : List Event) (h : ∀ e ∈ l, e.isResponse = false) :
    l.filter Event.isResponse = [] :=
  List.filter_eq_nil_iff.2 (fun e he => by simp [h e he])

theorem read_expected_hash_silent (fs : FileSys) (env : DownloadEnv) (name : CString) :
    ∀ e ∈ (read_expected_hash fs env name).2, e.isResponse = false := by
  intro e he
  unfold read_expected_hash at he
  split at he
  · split at he
    · simp at he; rcases he with rfl | rfl <;> rfl
    · simp at he; subst he; rfl
  · simp at he; subst he; rfl

/-- The first response of `handle_download` is not `ERROR Invalid filename` when the
name passes its validation. -/
theorem download_not_rejected (SHA256 : CString → Digest) (fs : FileSys) (env : DownloadEnv)
    (name : CString) (hok : download_name_ok name = true) :
    ((handle_download SHA256 fs env name).filter Event.isResponse).head? ≠
      some (Event.sock_write (ascii "ERROR Invalid filename\n")) := by
  have h0 : (traversal_check name || decide (slash_count name > 1)) = false := by
    simpa [download_name_ok] using hok
  have h1 : send_response (ascii "ERROR") (ascii "File not found") ≠
      Event.sock_write (ascii "ERROR Invalid filename\n") := by decide
  have h2 : send_response (ascii "ERROR") (ascii "Cannot open file") ≠
      Event.sock_write (ascii "ERROR Invalid filename\n") := by decide
  have h3 : send_response (ascii "ERROR") (ascii "File is locked for writing") ≠
      Event.sock_write (ascii "ERROR Invalid filename\n") := by decide
  have h4 : send_response (ascii "ERROR") (ascii "Integrity check failed") ≠
      Event.sock_write (ascii "ERROR Invalid filename\n") := by decide
  have h5 : ∀ n : Int, Event.sock_write ((ascii "SUCCESS " ++ fmt_long n).take 255) ≠
      Event.sock_write (ascii "ERROR Invalid filename\n") := by
    intro n hh
    have e1 : ascii "SUCCESS " = [83, 85, 67, 67, 69, 83, 83, 32] := by decide
    have e2 : ascii "ERROR Invalid filename\n" = 69 :: (ascii "RROR Invalid filename\n") := by
      decide
    rw [e1, e2] at hh
    simp at hh
  have hs1 := hash_events_silent SHA256 (storage_path name)
  have hs2 := read_expected_hash_silent fs env name
  unfold handle_download
  rw [h0]
  simp only [Bool.false_eq_true, if_false]
  cases hst : fs.stored with
  | none =>
    simp only
    simpa [List.filter, Event.isResponse, send_response] using h1
  | some content =>
    simp only
    split_ifs
    · simpa [List.filter, Event.isResponse, send_response] using h1
    · simpa [List.filter, Event.isResponse, send_response] using h2
    · simpa [List.filter, Event.isResponse, send_response] using h3
    · simp only [List.filter_append, filter_silent _ (hs1 _ _), filter_silent _ (hs2)]
      simpa [List.filter, Event.isResponse, send_response] using h4
    · simp only [List.filter_append, filter_silent _ (hs1 _ _), filter_silent _ (hs2)]
      simpa [List.filter, Event.isResponse] using h5 _

/-- The first response of `handle_delete` is not `ERROR Invalid filename` when the name
passes its validation. -/
theorem delete_not_rejected (fs : FileSys) (env : DeleteEnv) (name : CString)
    (hok : delete_name_ok name = true) :
    ((handle_delete fs env name).2.filter Event.isResponse).head? ≠
      some (Event.sock_write (ascii "ERROR Invalid filename\n")) := by
  have h0 : (traversal_check name || decide (slash_count name > 1)) = false := by
    simpa [delete_name_ok] using hok
  have h1 : send_response (ascii "ERROR") (ascii "File not found") ≠
      Event.sock_write (ascii "ERROR Invalid filename\n") := by decide
  have h2 : send_response (ascii "ERROR") (ascii "Cannot open file") ≠
      Event.sock_write (ascii "ERROR Invalid filename\n") := by decide
  have h3 : send_response (ascii "ERROR") (ascii "File is currently in use") ≠
      Event.sock_write (ascii "ERROR Invalid filename\n") := by decide
  have h4 : send_response (ascii "SUCCESS") (ascii "File deleted successfully") ≠
      Event.sock_write (ascii "ERROR Invalid filename\n") := by decide
  have h5 : send_response (ascii "ERROR") (ascii "Delete failed") ≠
      Event.sock_write (ascii "ERROR Invalid filename\n") := by decide
  unfold handle_delete
  rw [h0]
  simp only [Bool.false_eq_true, if_false]
  split_ifs
  · simpa [List.filter, Event.isResponse, send_response] using h1
  · simpa [List.filter, Event.isResponse, send_response] using h2
  · simpa [List.filter, Event.isResponse, send_response] using h3
  · simpa [List.filter, Event.isResponse, send_response] using h4
  · simpa [List.filter, Event.isResponse, send_response] using h5

theorem upload_not_rejected (SHA256 : CString → Digest) (t : LockTable) (self : Nat)
    (fs : FileSys) (env : UploadEnv) (name : CString) (filesize : Int) (r : UploadResult)
    (hok : upload_name_ok name = true)
    (hr : handle_upload SHA256 t self fs env name filesize = some r) :
    (r.events.filter Event.isResponse).head? ≠
      some (Event.sock_write (ascii "ERROR Invalid filename\n")) := by
  intro hh
  have hmem : Event.sock_write (ascii "ERROR Invalid filename\n") ∈
      r.events.filter Event.isResponse := List.mem_of_mem_head? hh
  rw [List.mem_filter] at hmem
  exact invalid_not_upload_reply
    (upload_replies_only SHA256 t self fs env name filesize r hok hr _ hmem.1 hmem.2)

/-- C9 (as amended). For a name with exactly one `/`: when the part before the separator
is empty (the name begins with `/`), each of the three handlers sends exactly
`ERROR Invalid filename`, logs `ACCESS_VIOLATION` and touches nothing (in particular
`handle_upload` creates no directory); when the name does not begin with `/` and
contains no `..`, none of the three validations rejects it, whether or not the part after
the separator is empty: the first response is never `ERROR Invalid filename`. -/
theorem one_separator_names (SHA256 : CString → Digest) (t : LockTable) (self : Nat)
    (fs : FileSys) (uenv : UploadEnv) (denv : DownloadEnv) (xenv : DeleteEnv)
    (name : CString) (filesize : Int) (h1 : name.count 47 = 1) :
    (name.head? = some 47 →
      handle_download SHA256 fs denv name =
        [Event.sock_write (ascii "ERROR Invalid filename\n"),
         Event.security (ascii "ACCESS_VIOLATION") [] name (ascii "Path traversal attempt")] ∧
      handle_delete fs xenv name =
        (fs, [Event.sock_write (ascii "ERROR Invalid filename\n"),
              Event.security (ascii "ACCESS_VIOLATION") [] name
                (ascii "Invalid filename for delete")]) ∧
      handle_upload SHA256 t self fs uenv name filesize =
        some ⟨t, fs,
          [Event.sock_write (ascii "ERROR Invalid filename\n"),
           Event.audit (ascii "UPLOAD") name (ascii "FAILED") (ascii "Invalid filename"),
           Event.security (ascii "ACCESS_VIOLATION") [] name
             (ascii "Path traversal attempt")]⟩) ∧
    (name.head? ≠ some 47 → ¬ ascii ".." <:+: name →
      ((handle_download SHA256 fs denv name).filter Event.isResponse).head? ≠
        some (Event.sock_write (ascii "ERROR Invalid filename\n")) ∧
      ((handle_delete fs xenv name).2.filter Event.isResponse).head? ≠
        some (Event.sock_write (ascii "ERROR Invalid filename\n")) ∧
      ∀ r, handle_upload SHA256 t self fs uenv name filesize = some r →
        (r.events.filter Event.isResponse).head? ≠
          some (Event.sock_write (ascii "ERROR Invalid filename\n"))) := by
  constructor
  · intro hh
    have hd := download_name_not_ok name (Or.inr (Or.inl hh))
    exact ⟨download_reject SHA256 fs denv name hd, delete_reject fs xenv name hd,
      upload_reject_traversal SHA256 t self fs uenv name filesize
        ((traversal_check_iff name).2 (Or.inr hh))⟩
  · intro hh hdd
    have ht : traversal_check name = false := by
      cases hc : traversal_check name with
      | false => rfl
      | true =>
        rcases (traversal_check_iff name).1 hc with h | h
        · exact absurd h hdd
        · exact absurd h hh
    have hdok : download_name_ok name = true := (download_name_ok_iff name).2 ⟨ht, by omega⟩
    have huok : upload_name_ok name = true := (upload_name_ok_iff name).2 ⟨ht, by omega⟩
    exact ⟨download_not_rejected SHA256 fs denv name hdok,
      delete_not_rejected fs xenv name hdok,
      fun r hr => upload_not_rejected SHA256 t self fs uenv name filesize r huok hr⟩

theorem one_separator_names_witness :
    (ascii "alice/").count 47 = 1 ∧
    ((handle_delete ⟨some (ascii "data"), none⟩ ⟨true, true, true, true⟩
        (ascii "alice/")).2.filter Event.isResponse).head? ≠
      some (Event.sock_write (ascii "ERROR Invalid filename\n")) :=
  ⟨by decide,
   ((one_separator_names sample_digest LockTable.empty 1 ⟨some (ascii "data"), none⟩
      ⟨false, true, false, 0, [], true, ⟨true, none, true⟩, ⟨true, 1000, []⟩⟩
      ⟨true, true, true, true, true, ⟨true, none, true⟩, none, []⟩ ⟨true, true, true, true⟩
      (ascii "alice/") 5 (by decide)).2 (by decide) (by decide)).2.1⟩

/-- C9 (counterexample). The name `alice/` has exactly one separator and an empty part
after it, yet no handler rejects it: `handle_upload` creates the directory
`./storage/alice` and goes on to open the file, `handle_download` and `handle_delete`
go on to look the file up. -/
theorem trailing_separator_not_rejected :
    segments (ascii "alice/") = [ascii "alice", []] ∧
    (handle_upload sample_digest LockTable.empty 1 ⟨none, none⟩
        ⟨false, true, false, 0, [], true, ⟨true, none, true⟩, ⟨true, 1000, []⟩⟩
        (ascii "alice/") 5).map (fun r => r.events) =
      some [Event.fs_stat (ascii "./storage/alice"), Event.fs_mkdir (ascii "./storage/alice"),
            Event.fs_open (ascii "./storage/alice/") OpenMode.wronly_creat_trunc,
            Event.sock_write (ascii "ERROR Cannot create file\n"),
            Event.audit (ascii "UPLOAD") (ascii "alice/") (ascii "FAILED")
              (ascii "File creation error")] ∧
    handle_download sample_digest ⟨none, none⟩
        ⟨true, true, true, true, true, ⟨true, none, true⟩, none, []⟩ (ascii "alice/") =
      [Event.fs_stat (ascii "./storage/alice/"),
       Event.sock_write (ascii "ERROR File not found\n"),
       Event.audit (ascii "DOWNLOAD") (ascii "alice/") (ascii "FAILED")
         (ascii "File not found")] ∧
    (handle_delete ⟨none, none⟩ ⟨true, true, true, true⟩ (ascii "alice/")).2 =
      [Event.fs_access (ascii "./storage/alice/"),
       Event.sock_write (ascii "ERROR File not found\n"),
       Event.audit (ascii "DELETE") (ascii "alice/") (ascii "FAILED")
         (ascii "File not found")] := by
  decide

/-! ## Authentication -/

theorem starts_with_auth_iff (line : CString) :
    starts_with_auth line = true ↔ ascii "AUTH" <+: line := by
  simp only [starts_with_auth, beq_iff_eq]
  constructor
  · intro h
    rw [← h]
    exact List.take_prefix 4 line
  · intro h
    obtain ⟨s, hs⟩ := h
    rw [← hs]
    have : (ascii "AUTH").length = 4 := by decide
    rw [List.take_append_of_le_length (by omega), ← this, List.take_length]

theorem provided_token_nil_iff (line : CString) :
    provided_token line = [] ↔ ∀ c ∈ line.drop 4, isspace c = true := by
  simp only [provided_token, scan_word]
  constructor
  · intro h
    have h1 : List.takeWhile (fun c => !isspace c) (List.dropWhile isspace (List.drop 4 line))
        = [] := by
      cases hw : List.takeWhile (fun c => !isspace c)
          (List.dropWhile isspace (List.drop 4 line)) with
      | nil => rfl
      | cons a as => rw [hw] at h; simp at h
    have h2 : List.dropWhile isspace (List.drop 4 line) = [] := by
      cases hd : List.dropWhile isspace (List.drop 4 line) with
      | nil => rfl
      | cons a as =>
        have ha : isspace a = false := by
          have := List.head_dropWhile_not isspace (List.drop 4 line) (by rw [hd]; simp)
          simpa [hd] using this
        rw [hd] at h1
        simp [List.takeWhile, ha] at h1
    exact fun c hc => by
      have := List.dropWhile_eq_nil_iff.1 h2 c hc
      simpa using this
  · intro h
    have h2 : List.dropWhile isspace (List.drop 4 line) = [] :=
      List.dropWhile_eq_nil_iff.2 (fun c hc => by simpa using h c hc)
    rw [h2]
    rfl

/-- C6. Auth gating: when the first line of the first chunk does not begin with `AUTH`,
has nothing but white space after `AUTH`, or carries a token different from the
configured one, `handle_client` sends exactly one response, one of the three
authentication errors, calls `record_failure` once (one `AUTH_FAILURE` event, the tracker
updated once) and invokes no operation handler. -/
theorem auth_gating (tr : Tracker) (auth_token ip : CString) (env : ClientEnv)
    (bytes : List CChar) (hread : env.first_read = some bytes) (hne : bytes ≠ [])
    (hbad : ¬ ascii "AUTH" <+: first_line (bytes.take 4095) ∨
      (∀ c ∈ (first_line (bytes.take 4095)).drop 4, isspace c = true) ∨
      provided_token (first_line (bytes.take 4095)) ≠ get_auth_token auth_token env.getenv) :
    ∃ msg reason,
      (msg, reason) ∈
        [(ascii "Auth required: send AUTH <token> before command", ascii "Missing AUTH header"),
         (ascii "Invalid AUTH format", ascii "Malformed AUTH line"),
         (ascii "Unauthorized client", ascii "Wrong token")] ∧
      handle_client tr auth_token ip env =
        ⟨(record_failure tr ip env.now reason).1,
         [Event.sock_read 4095, send_response (ascii "ERROR") msg,
          Event.security (ascii "AUTH_FAILURE") ip (ascii "N/A") reason],
         none⟩ := by
  have hbuf : MAX_BUFFER - 1 = 4095 := rfl
  unfold handle_client
  simp only [hread, if_neg hne, hbuf]
  unfold require_auth
  simp only
  by_cases hp : starts_with_auth (first_line (bytes.take 4095)) = true
  · by_cases htok : provided_token (first_line (bytes.take 4095)) = []
    · refine ⟨ascii "Invalid AUTH format", ascii "Malformed AUTH line", by simp, ?_⟩
      simp only [hp, htok, Bool.not_true, Bool.false_eq_true, if_false, if_true]
      rfl
    · by_cases heq : provided_token (first_line (bytes.take 4095)) =
          get_auth_token auth_token env.getenv
      · exfalso
        rcases hbad with h | h | h
        · exact h ((starts_with_auth_iff _).1 hp)
        · exact htok ((provided_token_nil_iff _).2 h)
        · exact h heq
      · refine ⟨ascii "Unauthorized client", ascii "Wrong token", by simp, ?_⟩
        simp only [hp, htok, heq, Bool.not_true, Bool.false_eq_true, if_false, if_true,
          ne_eq, not_false_eq_true]
        rfl
  · refine ⟨ascii "Auth required: send AUTH <token> before command",
      ascii "Missing AUTH header", by simp, ?_⟩
    simp only [hp, Bool.not_false, if_true]
    rfl

theorem auth_gating_witness :
    provided_token (first_line ((ascii "AUTH guess\nLIST\n").take 4095)) ≠
      get_auth_token AUTH_TOKEN_DEFAULT none ∧
    ∃ msg reason,
      (msg, reason) ∈
        [(ascii "Auth required: send AUTH <token> before command", ascii "Missing AUTH header"),
         (ascii "Invalid AUTH format", ascii "Malformed AUTH line"),
         (ascii "Unauthorized client", ascii "Wrong token")] ∧
      handle_client Tracker.init AUTH_TOKEN_DEFAULT (ascii "10.0.0.7")
          ⟨some (ascii "AUTH guess\nLIST\n"), none, 100, none⟩ =
        ⟨(record_failure Tracker.init (ascii "10.0.0.7") 100 reason).1,
         [Event.sock_read 4095, send_response (ascii "ERROR") msg,
          Event.security (ascii "AUTH_FAILURE") (ascii "10.0.0.7") (ascii "N/A") reason],
         none⟩ :=
  ⟨by decide,
   auth_gating Tracker.init AUTH_TOKEN_DEFAULT (ascii "10.0.0.7")
     ⟨some (ascii "AUTH guess\nLIST\n"), none, 100, none⟩ (ascii "AUTH guess\nLIST\n") rfl
     (by decide) (Or.inr (Or.inr (by decide)))⟩

/-! ## Hashing and metadata -/

theorem sha_read_loop_all (fuel : Nat) (rest : CString) (i : Nat) (acc : CString)
    (h : rest.length < fuel) : sha_read_loop fuel rest none i acc = acc ++ rest := by
  induction fuel generalizing rest i acc with
  | zero => omega
  | succ fuel ih =>
    simp only [sha_read_loop]
    rw [if_neg (by simp)]
    by_cases hr : rest = []
    · rw [if_pos hr, hr]; simp
    · rw [if_neg hr, ih]
      · rw [List.append_assoc, List.take_append_drop]
      · have : 0 < rest.length := List.length_pos.2 hr
        simp only [List.length_drop, MAX_BUFFER]
        omega

theorem hex_digit_ne_newline (n : Nat) (h : n < 16) : hex_digit n ≠ 10 := by
  interval_cases n <;> decide

theorem hex_digest_no_newline (hash : Digest) : (10 : CChar) ∉ hex_digest hash := by
  intro hmem
  simp only [hex_digest, List.mem_flatMap, List.mem_cons, List.mem_singleton,
    List.not_mem_nil, or_false] at hmem
  obtain ⟨i, _, h | h⟩ := hmem
  · exact hex_digit_ne_newline _ (by have := (hash i).isLt; omega) h.symm
  · exact hex_digit_ne_newline _ (by omega) h.symm

theorem hex_digest_length (hash : Digest) : (hex_digest hash).length = 64 := by
  have h : (List.length ∘ fun i : Fin 32 =>
      [hex_digit ((hash i).val / 16), hex_digit ((hash i).val % 16)]) = fun _ => 2 := rfl
  simp [hex_digest, List.length_flatMap, h]

theorem digit_ne_newline (d : Nat) (h : d < 10) : (Fin.ofNat (48 + d) : CChar) ≠ 10 := by
  interval_cases d <;> decide

theorem decimal_digits_no_newline (fuel n : Nat) (acc : CString)
    (hacc : (10 : CChar) ∉ acc) : (10 : CChar) ∉ decimal_digits fuel n acc := by
  induction fuel generalizing n acc with
  | zero => simpa [decimal_digits] using hacc
  | succ fuel ih =>
    simp only [decimal_digits]
    split
    · rename_i hlt
      intro hmem
      rcases List.mem_cons.1 hmem with h | h
      · exact digit_ne_newline n hlt h.symm
      · exact hacc h
    · apply ih
      intro hmem
      rcases List.mem_cons.1 hmem with h | h
      · exact digit_ne_newline (n % 10) (Nat.mod_lt _ (by omega)) h.symm
      · exact hacc h

theorem decimal_digits_length (fuel n : Nat) (acc : CString) :
    (decimal_digits fuel n acc).length ≤ fuel + acc.length := by
  induction fuel generalizing n acc with
  | zero => simp [decimal_digits]
  | succ fuel ih =>
    simp only [decimal_digits]
    split
    · simp only [List.length_cons]; omega
    · have := ih (n / 10) (Fin.ofNat (48 + n % 10) :: acc)
      simp only [List.length_cons] at this
      omega

theorem fmt_long_no_newline (n : Int) : (10 : CChar) ∉ fmt_long n := by
  unfold fmt_long
  split
  · intro hmem
    rcases List.mem_cons.1 hmem with h | h
    · exact absurd h (by decide)
    · exact decimal_digits_no_newline 20 _ [] (by simp) h
  · exact decimal_digits_no_newline 20 _ [] (by simp)

theorem fmt_long_length (n : Int) : (fmt_long n).length ≤ 21 := by
  unfold fmt_long
  have := decimal_digits_length 20 n.natAbs []
  split
  · simp only [List.length_cons, List.length_nil] at this ⊢; omega
  · simp only [List.length_nil] at this; omega

theorem split_on_no_sep (sep : CChar) (a : CString) (h : sep ∉ a) : split_on sep a = [a] := by
  induction a with
  | nil => rfl
  | cons c cs ih =>
    have hc : c ≠ sep := fun hh => h (by rw [hh]; exact List.mem_cons_self _ _)
    have hcs : sep ∉ cs := fun hh => h (List.mem_cons_of_mem _ hh)
    simp only [split_on, if_neg hc, ih hcs]

theorem split_on_append (sep : CChar) (a b : CString) (h : sep ∉ a) :
    split_on sep (a ++ sep :: b) = a :: split_on sep b := by
  induction a with
  | nil => simp [split_on]
  | cons c cs ih =>
    have hc : c ≠ sep := fun hh => h (by rw [hh]; exact List.mem_cons_self _ _)
    have hcs : sep ∉ cs := fun hh => h (List.mem_cons_of_mem _ hh)
    have := ih hcs
    simp only [List.cons_append, split_on, if_neg hc]
    simp only [List.append_eq, this]

/-- Reading back the digest from the text `update_metadata` writes. -/
theorem sidecar_digest_metadata_text (name : CString) (filesize : Int) (body hex : CString)
    (hname : name.length ≤ 255) (hnl : (10 : CChar) ∉ name) (hbody : (10 : CChar) ∉ body)
    (hblen : body.length ≤ 25) (hhex : (10 : CChar) ∉ hex) (hhlen : hex.length ≤ 64) :
    sidecar_digest (metadata_text name filesize (body ++ [10]) hex) = some hex := by
  have e1 : ascii "Filename: " = [70, 105, 108, 101, 110, 97, 109, 101, 58, 32] := by decide
  have e2 : ascii "\nSize: " = [10, 83, 105, 122, 101, 58, 32] := by decide
  have e3 : ascii "\nUploadTime: " =
      [10, 85, 112, 108, 111, 97, 100, 84, 105, 109, 101, 58, 32] := by decide
  have e4 : ascii "SHA256: " = [83, 72, 65, 50, 53, 54, 58, 32] := by decide
  have e5 : ascii "\n" = [10] := by decide
  have hlen := fmt_long_length filesize
  have hfmt := fmt_long_no_newline filesize
  have hshape : metadata_text name filesize (body ++ [10]) hex =
      ([70, 105, 108, 101, 110, 97, 109, 101, 58, 32] ++ name) ++ 10 ::
      (([83, 105, 122, 101, 58, 32] ++ fmt_long filesize) ++ 10 ::
      (([85, 112, 108, 111, 97, 100, 84, 105, 109, 101, 58, 32] ++ body) ++ 10 ::
      (([83, 72, 65, 50, 53, 54, 58, 32] ++ hex) ++ 10 :: []))) := by
    unfold metadata_text
    rw [e1, e2, e3, e4, e5, List.take_of_length_le]
    · simp
    · simp only [List.length_append, List.length_cons, List.length_nil]
      omega
  have n1 : (10 : CChar) ∉ ([70, 105, 108, 101, 110, 97, 109, 101, 58, 32] ++ name) := by
    intro hm
    rcases List.mem_append.1 hm with h | h
    · revert h; decide
    · exact hnl h
  have n2 : (10 : CChar) ∉ ([83, 105, 122, 101, 58, 32] ++ fmt_long filesize) := by
    intro hm
    rcases List.mem_append.1 hm with h | h
    · revert h; decide
    · exact hfmt h
  have n3 : (10 : CChar) ∉
      ([85, 112, 108, 111, 97, 100, 84, 105, 109, 101, 58, 32] ++ body) := by
    intro hm
    rcases List.mem_append.1 hm with h | h
    · revert h; decide
    · exact hbody h
  have n4 : (10 : CChar) ∉ ([83, 72, 65, 50, 53, 54, 58, 32] ++ hex) := by
    intro hm
    rcases List.mem_append.1 hm with h | h
    · revert h; decide
    · exact hhex h
  rw [hshape]
  unfold sidecar_digest
  rw [split_on_append 10 _ _ n1, split_on_append 10 _ _ n2, split_on_append 10 _ _ n3,
    split_on_append 10 _ _ n4, e4]
  simp [List.find?, List.isPrefixOf]

theorem getLast?_append_right (l m : List Event) (h : m ≠ []) :
    (l ++ m).getLast? = m.getLast? := by
  rw [List.getLast?_append]
  cases hm : m.getLast? with
  | none => exact absurd (List.getLast?_eq_none_iff.1 hm) h
  | some x => rfl

/-- The files left by the transfer part when its last event is the success response. -/
theorem upload_transfer_success (SHA256 : CString → Digest) (t : LockTable) (self : Nat)
    (fs : FileSys) (env : UploadEnv) (name : CString) (filesize : Int) (pre : List Event)
    (r : UploadResult) (hr : upload_transfer SHA256 t self fs env name filesize pre = some r)
    (hlast : r.events.getLast? =
      some (send_response (ascii "SUCCESS") (ascii "File uploaded successfully"))) :
    ∃ content, r.fs =
      ⟨some content,
       (update_metadata fs.sidecar env.metadata name filesize
          (some ((compute_sha256_file SHA256 (storage_path name) (some content)
            env.hash).1.getD (ascii "HASH_ERROR")))).1⟩ := by
  unfold upload_transfer at hr
  simp only at hr
  split at hr
  · simp only [Option.some.injEq] at hr
    subst hr
    rw [getLast?_append_right _ _ (by simp)] at hlast
    simp [send_response] at hlast
  · split at hr
    · simp only [Option.some.injEq] at hr
      subst hr
      rw [getLast?_append_right _ _ (by simp)] at hlast
      simp [send_response] at hlast
    · split at hr
      · simp at hr
      · rename_i loop hloop
        split at hr
        · simp only [Option.some.injEq] at hr
          subst hr
          exact ⟨loop.content, rfl⟩
        · simp only [Option.some.injEq] at hr
          subst hr
          rw [getLast?_append_right _ _ (by simp)] at hlast
          simp [send_response] at hlast

theorem handle_upload_success (SHA256 : CString → Digest) (t : LockTable) (self : Nat)
    (fs : FileSys) (env : UploadEnv) (name : CString) (filesize : Int)
    (r : UploadResult) (hr : handle_upload SHA256 t self fs env name filesize = some r)
    (hlast : r.events.getLast? =
      some (send_response (ascii "SUCCESS") (ascii "File uploaded successfully"))) :
    ∃ content, r.fs =
      ⟨some content,
       (update_metadata fs.sidecar env.metadata name filesize
          (some ((compute_sha256_file SHA256 (storage_path name) (some content)
            env.hash).1.getD (ascii "HASH_ERROR")))).1⟩ := by
  unfold handle_upload at hr
  split at hr
  · simp only [Option.some.injEq] at hr
    subst hr
    simp [send_response] at hlast
  · split at hr
    · simp only at hr
      split at hr
      · exact upload_transfer_success SHA256 t self fs env name filesize _ r hr hlast
      · split at hr
        · exact upload_transfer_success SHA256 t self fs env name filesize _ r hr hlast
        · simp only [Option.some.injEq] at hr
          subst hr
          simp [send_response] at hlast
    · split at hr
      · simp only [Option.some.injEq] at hr
        subst hr
        simp [send_response] at hlast
      · exact upload_transfer_success SHA256 t self fs env name filesize _ r hr hlast

/-- C10 (as amended). In every run of `handle_upload` that ends by sending
`SUCCESS File uploaded successfully`, if the hashing calls (open, reads, allocation) and
the open and write of the sidecar all succeed, then the digest on the `SHA256: ` line of
the sidecar is the SHA-256 hex digest of the bytes stored in the file. -/
theorem upload_metadata_agreement (SHA256 : CString → Digest) (t : LockTable) (self : Nat)
    (fs : FileSys) (env : UploadEnv) (name : CString) (filesize : Int) (r : UploadResult)
    (hr : handle_upload SHA256 t self fs env name filesize = some r)
    (hlast : r.events.getLast? =
      some (send_response (ascii "SUCCESS") (ascii "File uploaded successfully")))
    (hname : name.length ≤ 255) (hnl : (10 : CChar) ∉ name)
    (hhash : env.hash.open_ok = true ∧ env.hash.fail_at = none ∧ env.hash.malloc_ok = true)
    (hmeta : env.metadata.open_ok = true ∧ 767 ≤ env.metadata.written)
    (hctime : ∃ body, env.metadata.ctime = body ++ [10] ∧ (10 : CChar) ∉ body ∧
      body.length ≤ 25) :
    ∃ content, r.fs.stored = some content ∧
      r.fs.sidecar.bind sidecar_digest = some (hex_digest (SHA256 content)) := by
  obtain ⟨content, hfs⟩ := handle_upload_success SHA256 t self fs env name filesize r hr hlast
  obtain ⟨body, hct, hbody, hblen⟩ := hctime
  refine ⟨content, by rw [hfs], ?_⟩
  have hh : (compute_sha256_file SHA256 (storage_path name) (some content) env.hash).1 =
      some (hex_digest (SHA256 content)) := by
    simp only [compute_sha256_file, hhash.1, hhash.2.1, hhash.2.2, if_true]
    rw [sha_read_loop_all _ _ _ _ (by omega)]
    simp
  have htake : ∀ text : CString, text.length ≤ 767 → text.take env.metadata.written = text :=
    fun text h => List.take_of_length_le (by have := hmeta.2; omega)
  have hlen : (metadata_text name filesize env.metadata.ctime
      (hex_digest (SHA256 content))).length ≤ 767 := by
    unfold metadata_text
    rw [List.length_take]
    omega
  rw [hfs]
  simp only [update_metadata, hmeta.1, if_true, hh, Option.getD_some, Option.bind_some,
    htake _ hlen]
  rw [hct]
  exact sidecar_digest_metadata_text name filesize body _ hname hnl hbody hblen
    (hex_digest_no_newline _) (by rw [hex_digest_length])

theorem upload_metadata_agreement_witness :
    ∃ r, handle_upload sample_digest LockTable.empty 1 ⟨none, none⟩ sample_upload_env
        (ascii "alice/note") 12 = some r ∧
      r.events.getLast? =
        some (Event.sock_write (ascii "SUCCESS File uploaded successfully\n")) ∧
      r.fs.stored = some (ascii "hello, world") ∧
      ∃ content, r.fs.stored = some content ∧
        r.fs.sidecar.bind sidecar_digest = some (hex_digest (sample_digest content)) :=
  ⟨(handle_upload sample_digest LockTable.empty 1 ⟨none, none⟩ sample_upload_env
      (ascii "alice/note") 12).get (by decide),
   by simp, by decide, by decide,
   upload_metadata_agreement sample_digest LockTable.empty 1 ⟨none, none⟩ sample_upload_env
      (ascii "alice/note") 12 _ (by simp) (by decide) (by decide) (by decide)
      (by decide) (by decide)
      ⟨ascii "Thu Jan  1 00:00:00 1970", by decide, by decide, by decide⟩⟩

/-- C10 (counterexample). When the `open` of the hashing step fails, the upload of the two
bytes `hi` still ends with `SUCCESS File uploaded successfully`, the file holds `hi`,
and the `SHA256: ` line of the sidecar carries `HASH_ERROR`, which is not the hex digest
of the stored bytes, whatever the digest function. -/
theorem upload_success_with_hash_error :
    ∃ env : UploadEnv, ∀ SHA256 : CString → Digest,
      ∃ r, handle_upload SHA256 LockTable.empty 1 ⟨none, none⟩ env (ascii "x") 2 = some r ∧
        r.events.getLast? =
          some (Event.sock_write (ascii "SUCCESS File uploaded successfully\n")) ∧
        r.fs.stored = some (ascii "hi") ∧
        r.fs.sidecar.bind sidecar_digest = some (ascii "HASH_ERROR") ∧
        r.fs.sidecar.bind sidecar_digest ≠ some (hex_digest (SHA256 (ascii "hi"))) := by
  refine ⟨⟨true, true, true, 0, [⟨1, SockRead.data (ascii "hi"), 2⟩], true,
    ⟨false, none, true⟩, ⟨true, 767, ascii "Thu Jan  1 00:00:00 1970\n"⟩⟩, fun SHA256 => ?_⟩
  have hrun : handle_upload SHA256 LockTable.empty 1 ⟨none, none⟩
      ⟨true, true, true, 0, [⟨1, SockRead.data (ascii "hi"), 2⟩], true,
        ⟨false, none, true⟩, ⟨true, 767, ascii "Thu Jan  1 00:00:00 1970\n"⟩⟩ (ascii "x") 2 =
      handle_upload sample_digest LockTable.empty 1 ⟨none, none⟩
      ⟨true, true, true, 0, [⟨1, SockRead.data (ascii "hi"), 2⟩], true,
        ⟨false, none, true⟩, ⟨true, 767, ascii "Thu Jan  1 00:00:00 1970\n"⟩⟩ (ascii "x") 2 := by
    rfl
  have hdig : (some (ascii "HASH_ERROR") : Option CString) ≠
      some (hex_digest (SHA256 (ascii "hi"))) := by
    intro h
    have h1 := congrArg (fun o => (o.getD []).length) h
    simp only [Option.getD_some, hex_digest_length] at h1
    revert h1
    decide
  rw [hrun]
  have hex : ∃ r, handle_upload sample_digest LockTable.empty 1 ⟨none, none⟩
      ⟨true, true, true, 0, [⟨1, SockRead.data (ascii "hi"), 2⟩], true,
        ⟨false, none, true⟩, ⟨true, 767, ascii "Thu Jan  1 00:00:00 1970\n"⟩⟩ (ascii "x") 2 =
        some r ∧
      r.events.getLast? =
        some (Event.sock_write (ascii "SUCCESS File uploaded successfully\n")) ∧
      r.fs.stored = some (ascii "hi") ∧
      r.fs.sidecar.bind sidecar_digest = some (ascii "HASH_ERROR") := by
    refine ⟨(handle_upload sample_digest LockTable.empty 1 ⟨none, none⟩
      ⟨true, true, true, 0, [⟨1, SockRead.data (ascii "hi"), 2⟩], true,
        ⟨false, none, true⟩, ⟨true, 767, ascii "Thu Jan  1 00:00:00 1970\n"⟩⟩
        (ascii "x") 2).get (by decide), by simp, by decide, by decide, by decide⟩
  obtain ⟨r, h1, h2, h3, h4⟩ := hex
  exact ⟨r, h1, h2, h3, h4, by rw [h4]; exact hdig⟩

/-! ## Security tracker: reset and exhaustion -/

theorem record_success_of_state {tr : Tracker} {ip : CString} {k : Nat}
    {e : client_security_t} (hs : slot_state tr ip k e) :
    slot_state (record_success tr ip) ip k { e with failures := 0, blocked_until := 0 } := by
  unfold record_success
  simp only [find_tracker_slot_of_state hs, Int.toNat_ofNat, hs.2]
  rw [if_pos (by omega)]
  exact slot_state_set_self hs rfl

/-- C15. Reset on success: for every tracker state in which the address owns a slot
(blocked or not), after `record_success` the slot has `failures = 0` and
`blocked_until = 0`; `is_client_blocked` is then false at every time `now ≥ 0`, and it
stays false after one and after two further `record_failure` calls for the address,
also when calls that do not count for the address are interleaved. -/
theorem reset_on_success (tr : Tracker) (ip : CString) (k : Nat)
    (b1 b2 b3 : List TrackerOp) (t1 t2 now : Int) (r1 r2 : CString)
    (htracked : find_ip tr MAX_CLIENT_TRACK ip = some k)
    (hb1 : ∀ op ∈ b1, op.ip.length ≤ 15 ∧ op.quiet_for ip = true)
    (hb2 : ∀ op ∈ b2, op.ip.length ≤ 15 ∧ op.quiet_for ip = true)
    (hb3 : ∀ op ∈ b3, op.ip.length ≤ 15 ∧ op.quiet_for ip = true)
    (hnow : 0 ≤ now) :
    (∃ e, (record_success tr ip)[k]? = some e ∧ e.failures = 0 ∧ e.blocked_until = 0) ∧
    (is_client_blocked (run_tracker_ops (record_success tr ip) b1) ip now).2 = false ∧
    (is_client_blocked
      (run_tracker_ops (record_failure (run_tracker_ops (record_success tr ip) b1)
        ip t1 r1).1 b2) ip now).2 = false ∧
    (is_client_blocked
      (run_tracker_ops (record_failure
        (run_tracker_ops (record_failure (run_tracker_ops (record_success tr ip) b1)
          ip t1 r1).1 b2) ip t2 r2).1 b3) ip now).2 = false := by
  obtain ⟨_, e, he, _⟩ := find_ip_some htracked
  have hs : slot_state tr ip k e := ⟨htracked, he⟩
  have h0 := record_success_of_state hs
  have h1 := quiet_run_preserves_state b1 h0 hb1
  have h2 := quiet_run_preserves_state b2 (record_failure_of_state h1 t1 r1) hb2
  have h3 := quiet_run_preserves_state b3 (record_failure_of_state h2 t2 r2) hb3
  refine ⟨⟨_, h0.2, rfl, rfl⟩, ?_, ?_, ?_⟩
  · rw [is_client_blocked_of_state h1 now]
    simp only [decide_eq_false_iff_not]
    omega
  · rw [is_client_blocked_of_state h2 now]
    simp only [bump, FAILURE_THRESHOLD, decide_eq_false_iff_not]
    rw [if_neg (by omega)]
    omega
  · rw [is_client_blocked_of_state h3 now]
    simp only [bump, FAILURE_THRESHOLD, decide_eq_false_iff_not]
    rw [if_neg (by omega), if_neg (by omega)]
    omega

set_option maxRecDepth 20000 in
theorem reset_on_success_witness :
    (is_client_blocked
      (run_tracker_ops (record_failure
        (run_tracker_ops (record_failure (run_tracker_ops (record_success
          (run_tracker_ops Tracker.init
            [TrackerOp.failure (ascii "10.0.0.7") 10 [], TrackerOp.failure (ascii "10.0.0.7") 11 [],
             TrackerOp.failure (ascii "10.0.0.7") 12 []]) (ascii "10.0.0.7")) [])
          (ascii "10.0.0.7") 20 []).1 [TrackerOp.failure (ascii "10.0.0.9") 21 []])
        (ascii "10.0.0.7") 22 []).1 []) (ascii "10.0.0.7") 23).2 = false :=
  (reset_on_success
    (run_tracker_ops Tracker.init
      [TrackerOp.failure (ascii "10.0.0.7") 10 [], TrackerOp.failure (ascii "10.0.0.7") 11 [],
       TrackerOp.failure (ascii "10.0.0.7") 12 []])
    (ascii "10.0.0.7") 0 [] [TrackerOp.failure (ascii "10.0.0.9") 21 []] [] 20 22 23 [] []
    (by decide) (by decide) (by decide) (by decide) (by decide)).2.2.2

theorem find_ip_none_of (es : List client_security_t) (n : Nat) (ip : CString)
    (h : ∀ e ∈ es, e.ip ≠ ip) : find_ip es n ip = none := by
  induction es generalizing n with
  | nil => rfl
  | cons x xs ih =>
    cases n with
    | zero => rfl
    | succ n =>
      have hx : x.ip ≠ ip := h x (List.mem_cons_self _ _)
      simp only [find_ip]
      rw [if_neg (fun hh => hx hh.2), ih n (fun e he => h e (List.mem_cons_of_mem _ he))]
      rfl

theorem claim_empty_none_of (es : List client_security_t) (n : Nat) (ip : CString)
    (h : ∀ e ∈ es, e.ip ≠ []) : claim_empty es n ip = none := by
  induction es generalizing n with
  | nil => rfl
  | cons x xs ih =>
    cases n with
    | zero => rfl
    | succ n =>
      have hx : x.ip ≠ [] := h x (List.mem_cons_self _ _)
      simp only [claim_empty]
      rw [if_neg hx, ih n (fun e he => h e (List.mem_cons_of_mem _ he))]
      rfl

theorem find_tracker_slot_full (tr : Tracker) (ip : CString)
    (hfull : ∀ e ∈ tr, e.ip ≠ []) (hnew : ∀ e ∈ tr, e.ip ≠ ip) :
    find_tracker_slot tr ip = (tr, -1) := by
  unfold find_tracker_slot
  rw [find_ip_none_of tr _ ip hnew]
  simp only
  rw [claim_empty_none_of tr _ ip hfull]

theorem record_failure_full (tr : Tracker) (ip : CString)
    (hfull : ∀ e ∈ tr, e.ip ≠ []) (hnew : ∀ e ∈ tr, e.ip ≠ ip) (now : Int)
    (reason : CString) : (record_failure tr ip now reason).1 = tr := by
  unfold record_failure
  simp only [find_tracker_slot_full tr ip hfull hnew]
  rw [if_neg (by omega)]

/-- C16. Tracker exhaustion: when every slot of the tracker holds a non-empty address,
for every address not among them `find_tracker_slot` returns `-1`, `is_client_blocked`
is false at every time, and any number of `record_failure` calls for that address leaves
the tracker unchanged. -/
theorem tracker_exhausted (tr : Tracker) (ip : CString)
    (hfull : ∀ e ∈ tr, e.ip ≠ []) (hnew : ∀ e ∈ tr, e.ip ≠ ip) :
    find_tracker_slot tr ip = (tr, -1) ∧
    (∀ now, is_client_blocked tr ip now = (tr, false)) ∧
    (∀ calls : List (Int × CString),
      run_tracker_ops tr (calls.map (fun c => TrackerOp.failure ip c.1 c.2)) = tr) := by
  have h1 := find_tracker_slot_full tr ip hfull hnew
  refine ⟨h1, ?_, ?_⟩
  · intro now
    unfold is_client_blocked
    simp only [h1]
    simp
  · intro calls
    induction calls with
    | nil => rfl
    | cons c cs ih =>
      simp only [List.map_cons, run_tracker_ops, List.foldl_cons, TrackerOp.apply]
      rw [record_failure_full tr ip hfull hnew]
      exact ih

set_option maxRecDepth 50000 in
theorem tracker_exhausted_witness :
    ((List.range 128).map (fun i =>
      (⟨ascii "10.0.0." ++ fmt_long i, 2, 0⟩ : client_security_t))).length = 128 ∧
    find_tracker_slot ((List.range 128).map (fun i =>
      (⟨ascii "10.0.0." ++ fmt_long i, 2, 0⟩ : client_security_t))) (ascii "192.168.1.1") =
      ((List.range 128).map (fun i =>
        (⟨ascii "10.0.0." ++ fmt_long i, 2, 0⟩ : client_security_t)), -1) :=
  ⟨by decide,
   (tracker_exhausted ((List.range 128).map (fun i =>
      (⟨ascii "10.0.0." ++ fmt_long i, 2, 0⟩ : client_security_t))) (ascii "192.168.1.1")
      (by decide) (by decide)).1⟩

/-! ## DOWNLOAD integrity, metadata read-back, LIST and LOGS -/

theorem sent_bytes_append (l m : List Event) :
    sent_bytes (l ++ m) = sent_bytes l ++ sent_bytes m := by
  induction l with
  | nil => rfl
  | cons e es ih =>
    cases e <;> simp [sent_bytes, ih]

theorem sent_bytes_silent (l : List Event) (h : ∀ e ∈ l, e.isResponse = false) :
    sent_bytes l = [] := by
  induction l with
  | nil => rfl
  | cons e es ih =>
    have he := h e (List.mem_cons_self _ _)
    have hes := ih (fun x hx => h x (List.mem_cons_of_mem _ hx))
    cases e <;> simp_all [sent_bytes, Event.isResponse]

theorem hash_events_no_security (SHA256 : CString → Digest) (path : CString)
    (file : Option CString) (env : HashEnv) (kind : CString) :
    ∀ e ∈ (compute_sha256_file SHA256 path file env).2, e.isSecurity kind = false := by
  intro e he
  unfold compute_sha256_file at he
  split at he
  · simp at he; subst he; rfl
  · split at he
    · simp at he; rcases he with rfl | rfl <;> rfl
    · simp at he; subst he; rfl

theorem read_expected_hash_no_security (fs : FileSys) (env : DownloadEnv) (name : CString)
    (kind : CString) : ∀ e ∈ (read_expected_hash fs env name).2, e.isSecurity kind = false := by
  intro e he
  unfold read_expected_hash at he
  split at he
  · split at he
    · simp at he; rcases he with rfl | rfl <;> rfl
    · simp at he; subst he; rfl
  · simp at he; subst he; rfl

theorem filter_none (p : Event → Bool) (l : List Event) (h : ∀ e ∈ l, p e = false) :
    l.filter p = [] :=
  List.filter_eq_nil_iff.2 (fun e he => by simp [h e he])

/-- C11. Tamper detection: in `handle_download`, once the file is open and locked, if the
sidecar yields a non-empty digest and the digest computed over the stored file differs
from it, the bytes written to the client are exactly `ERROR Integrity check failed\n`
(no `SUCCESS <n>` header, no payload byte) and exactly one `INTEGRITY_FAIL` security
event is written. -/
theorem tamper_detection (SHA256 : CString → Digest) (fs : FileSys) (env : DownloadEnv)
    (name content actual : CString) (hok : download_name_ok name = true)
    (hstored : fs.stored = some content)
    (hopen : env.stat_ok = true ∧ env.open_ok = true ∧ env.lock_ok = true)
    (hexp : (read_expected_hash fs env name).1 ≠ [])
    (hact : (compute_sha256_file SHA256 (storage_path name) (some content) env.hash).1 =
      some actual)
    (hdiff : (read_expected_hash fs env name).1 ≠ actual) :
    sent_bytes (handle_download SHA256 fs env name) = ascii "ERROR Integrity check failed\n" ∧
    (handle_download SHA256 fs env name).filter (Event.isSecurity (ascii "INTEGRITY_FAIL")) =
      [Event.security (ascii "INTEGRITY_FAIL") [] name
        (ascii "Hash mismatch detected before download")] := by
  have h0 : (traversal_check name || decide (slash_count name > 1)) = false := by
    simpa [download_name_ok] using hok
  have hs1 := hash_events_silent SHA256 (storage_path name) (some content) env.hash
  have hs2 := read_expected_hash_silent fs env name
  have hk1 := hash_events_no_security SHA256 (storage_path name) (some content) env.hash
    (ascii "INTEGRITY_FAIL")
  have hk2 := read_expected_hash_no_security fs env name (ascii "INTEGRITY_FAIL")
  have hsend : send_response (ascii "ERROR") (ascii "Integrity check failed") =
      Event.sock_write (ascii "ERROR Integrity check failed\n") := by decide
  have hrun : handle_download SHA256 fs env name =
      [Event.fs_stat (storage_path name), Event.fs_open (storage_path name) OpenMode.rdonly,
        Event.fd_lock false] ++ (read_expected_hash fs env name).2 ++
      (compute_sha256_file SHA256 (storage_path name) (some content) env.hash).2 ++
      [Event.security (ascii "INTEGRITY_FAIL") [] name
         (ascii "Hash mismatch detected before download"),
       Event.sock_write (ascii "ERROR Integrity check failed\n"),
       Event.fd_unlock, Event.fs_close] := by
    unfold handle_download
    rw [h0]
    simp only [Bool.false_eq_true, if_false, hstored, hopen.1, hopen.2.1, hopen.2.2,
      Bool.not_true, hact, hsend]
    rw [if_pos (by simp [hexp, hdiff])]
  rw [hrun]
  constructor
  · simp only [sent_bytes_append, sent_bytes_silent _ hs1, sent_bytes_silent _ hs2]
    simp [sent_bytes]
  · simp only [List.filter_append, filter_none _ _ hk1, filter_none _ _ hk2]
    simp [List.filter, Event.isSecurity]

theorem tamper_detection_witness :
    sent_bytes (handle_download sample_digest
        ⟨some (ascii "abcdf"),
         some (ascii ("Filename: z\nSize: 5\nUploadTime: Thu Jan  1 00:00:00 1970\n" ++
           "SHA256: 0404040404040404040404040404040404040404040404040404040404040404\n"))⟩
        ⟨true, true, true, true, true, ⟨true, none, true⟩, none, []⟩ (ascii "z")) =
      ascii "ERROR Integrity check failed\n" :=
  (tamper_detection sample_digest
    ⟨some (ascii "abcdf"),
     some (ascii ("Filename: z\nSize: 5\nUploadTime: Thu Jan  1 00:00:00 1970\n" ++
       "SHA256: 0404040404040404040404040404040404040404040404040404040404040404\n"))⟩
    ⟨true, true, true, true, true, ⟨true, none, true⟩, none, []⟩ (ascii "z") (ascii "abcdf")
    (hex_digest (sample_digest (ascii "abcdf"))) (by decide) rfl (by decide) (by decide)
    (by decide) (by decide)).1

/-- C12 (the code at the failing input). The name `SHA256:x` passes the upload
validation; from the sidecar text that `update_metadata` writes for it with a
64-character digest, `handle_download` extracts `x` and not the digest: `strstr` stops at
the `SHA256:` of the `Filename:` line. -/
theorem sidecar_readback_wrong_line :
    upload_name_ok (ascii "SHA256:x") = true ∧
    (read_expected_hash
        ⟨some (ascii "hello"),
         (update_metadata none ⟨true, 767, ascii "Thu Jan  1 00:00:00 1970\n"⟩
            (ascii "SHA256:x") 5
            (some (ascii "2cf24dba5fb0a30e26e83b2ac5b9e29e1b161e5c1fa7425e73043362938b9824"))).1⟩
        ⟨true, true, true, true, true, ⟨true, none, true⟩, none, []⟩
        (ascii "SHA256:x")).1 = ascii "x" ∧
    ascii "x" ≠ ascii "2cf24dba5fb0a30e26e83b2ac5b9e29e1b161e5c1fa7425e73043362938b9824" := by
  decide

/-- C17 (the code at the failing input). The command `LIST ..` is dispatched to
`handle_list` with the argument `..`; the directory it opens is `./storage/..`, which
does not stay beneath the storage root. -/
theorem list_parent_directory :
    dispatch (ascii "10.0.0.7") (ascii "LIST ..\n") = Dispatch.list (ascii "..") ∧
    (handle_list ⟨true, []⟩ (ascii "..")).head? =
      some (Event.fs_opendir (ascii "./storage/..")) ∧
    stays_beneath_storage (ascii "./storage/..") = false ∧
    dispatch (ascii "10.0.0.7") (ascii "LIST a/b\n") = Dispatch.list (ascii "a/b") ∧
    (handle_list ⟨true, []⟩ (ascii "a/b")).head? =
      some (Event.fs_opendir (ascii "./storage/a/b")) := by
  decide

theorem logs_copy_loop_all (fuel : Nat) (rest : CString) (i : Nat)
    (h : rest.length < fuel) : sent_bytes (logs_copy_loop fuel rest none i) = rest := by
  induction fuel generalizing rest i with
  | zero => omega
  | succ fuel ih =>
    simp only [logs_copy_loop]
    rw [if_neg (by simp)]
    by_cases hr : rest = []
    · rw [if_pos hr, hr]; rfl
    · rw [if_neg hr]
      simp only [sent_bytes]
      rw [ih]
      · exact List.take_append_drop _ _
      · have : 0 < rest.length := List.length_pos.2 hr
        simp only [List.length_drop, MAX_BUFFER]
        omega

/-- The output of `handle_logs` for all logs: with both logs present and every read
succeeding, the bytes it writes are `SUCCESS\n=== AUDIT LOGS ===\n`, the last
`min (|A|, 10240)` bytes of the audit log, `\n=== SECURITY LOGS ===\n`, then one NUL byte
(the 24th byte of the 23-character literal), then the security log. -/
theorem logs_output_bytes (a s : CString) :
    sent_bytes (handle_logs ⟨some a, some s, none, none⟩) =
      ascii "SUCCESS\n=== AUDIT LOGS ===\n" ++ a.drop (a.length - min a.length 10240) ++
        ascii "\n=== SECURITY LOGS ===\n" ++ [0] ++ s := by
  have e1 : literal_bytes (ascii "SUCCESS\n") 8 ++ literal_bytes (ascii "=== AUDIT LOGS ===\n") 19 =
      ascii "SUCCESS\n=== AUDIT LOGS ===\n" := by decide
  have e2 : literal_bytes (ascii "\n=== SECURITY LOGS ===\n") 24 =
      ascii "\n=== SECURITY LOGS ===\n" ++ [0] := by decide
  have hstart : (if a.length > 10240 then a.length - 10240 else 0) =
      a.length - min a.length 10240 := by
    split <;> omega
  unfold handle_logs
  simp only [hstart, List.cons_append, List.nil_append, sent_bytes, List.append_eq,
    sent_bytes_append, List.append_nil, e2]
  rw [logs_copy_loop_all _ _ _ (by simp only [List.length_drop]; omega),
    logs_copy_loop_all _ _ _ (by omega), ← e1]
  simp

/-- C18 (the code at the failing input). For the logs `A` and `S` the output holds a byte
the format of the claim does not have. -/
theorem logs_output_extra_byte :
    sent_bytes (handle_logs ⟨some (ascii "A"), some (ascii "S"), none, none⟩) =
      ascii "SUCCESS\n=== AUDIT LOGS ===\nA\n=== SECURITY LOGS ===\n" ++ [0] ++ ascii "S" ∧
    sent_bytes (handle_logs ⟨some (ascii "A"), some (ascii "S"), none, none⟩) ≠
      ascii "SUCCESS\n=== AUDIT LOGS ===\nA\n=== SECURITY LOGS ===\nS" := by
  decide

/-! ## Dispatch of UPLOAD -/

theorem takeWhile_append_stop (p : CChar → Bool) (l rest : CString)
    (hl : ∀ c ∈ l, p c = true) (hr : ∀ c, rest.head? = some c → p c = false) :
    (l ++ rest).takeWhile p = l := by
  induction l with
  | nil =>
    cases rest with
    | nil => rfl
    | cons c cs => simp [List.takeWhile, hr c rfl]
  | cons x xs ih =>
    have hx := hl x (List.mem_cons_self _ _)
    have := ih (fun c hc => hl c (List.mem_cons_of_mem _ hc))
    simp only [List.cons_append, List.takeWhile, hx, List.append_eq, this]

theorem dropWhile_stop (p : CChar → Bool) (l : CString)
    (h : ∀ c, l.head? = some c → p c = false) : l.dropWhile p = l := by
  cases l with
  | nil => rfl
  | cons c cs => simp [List.dropWhile, h c rfl]

theorem dropWhile_append_all (p : CChar → Bool) (l rest : CString)
    (hl : ∀ c ∈ l, p c = true) : (l ++ rest).dropWhile p = rest.dropWhile p := by
  induction l with
  | nil => rfl
  | cons x xs ih =>
    have hx := hl x (List.mem_cons_self _ _)
    have := ih (fun c hc => hl c (List.mem_cons_of_mem _ hc))
    simp only [List.cons_append, List.dropWhile, hx, List.append_eq, this]

/-- The `%s` directive on white space, a word, and a rest that is empty or starts with
white space. -/
theorem scan_word_spec (pre w rest : CString) (hpre : ∀ c ∈ pre, isspace c = true)
    (hw : w ≠ []) (hwn : ∀ c ∈ w, isspace c = false)
    (hrest : ∀ c, rest.head? = some c → isspace c = true) :
    scan_word none (pre ++ (w ++ rest)) = (w, rest) := by
  obtain ⟨w0, ws, rfl⟩ := List.exists_cons_of_ne_nil hw
  have h1 : (pre ++ (w0 :: ws ++ rest)).dropWhile isspace = w0 :: ws ++ rest := by
    rw [dropWhile_append_all isspace pre _ hpre]
    exact dropWhile_stop isspace _ (fun c hc => by
      simp only [List.cons_append, List.head?_cons, Option.some.injEq] at hc
      subst hc
      exact hwn _ (List.mem_cons_self _ _))
  have h2 : (w0 :: ws ++ rest).takeWhile (fun c => !isspace c) = w0 :: ws :=
    takeWhile_append_stop _ _ _ (fun c hc => by simp [hwn c hc])
      (fun c hc => by simp [hrest c hc])
  simp only [scan_word, h1, h2]
  rw [List.drop_left]

/-- The `%ld` directive on white space, an optional minus sign, digits, and a rest that is
empty or starts with a non-digit. -/
theorem scan_long_spec (pre ds tail : CString) (neg : Bool)
    (hpre : ∀ c ∈ pre, isspace c = true)
    (hds : ds ≠ []) (hdig : ∀ c ∈ ds, isdigit c = true)
    (htail : ∀ c, tail.head? = some c → isdigit c = false) :
    scan_long (pre ++ ((if neg then [(45 : CChar)] else []) ++ (ds ++ tail))) =
      some (if (if neg then -(digits_value ds : Int) else (digits_value ds : Int)) > LONG_MAX
        then LONG_MAX
        else if (if neg then -(digits_value ds : Int) else (digits_value ds : Int)) < LONG_MIN
        then LONG_MIN
        else (if neg then -(digits_value ds : Int) else (digits_value ds : Int))) := by
  obtain ⟨d0, dr, rfl⟩ := List.exists_cons_of_ne_nil hds
  have hd0 : isdigit d0 = true := hdig d0 (List.mem_cons_self _ _)
  have hd0v : 48 ≤ d0.val ∧ d0.val ≤ 57 := by
    simpa [isdigit] using hd0
  have hd0s : isspace d0 = false := by
    simp only [isspace, Bool.or_eq_false_iff, beq_eq_false_iff_ne, ne_eq,
      Bool.and_eq_false_imp, decide_eq_true_eq, decide_eq_false_iff_not]
    omega
  have htw : (d0 :: dr ++ tail).takeWhile isdigit = d0 :: dr :=
    takeWhile_append_stop isdigit _ _ hdig htail
  unfold scan_long
  rw [dropWhile_append_all isspace pre _ hpre]
  cases neg with
  | false =>
    have h1 : (([] : CString) ++ (d0 :: dr ++ tail)).dropWhile isspace = d0 :: (dr ++ tail) := by
      simp [List.dropWhile, hd0s]
    have hne1 : ¬ d0.val = 45 := by omega
    have hne2 : ¬ d0.val = 43 := by omega
    simp only [Bool.false_eq_true, if_false, h1, hne1, hne2]
    rw [← List.cons_append, htw]
    simp
  | true =>
    have h45 : isspace (45 : CChar) = false := by decide
    have h1 : ([(45 : CChar)] ++ (d0 :: dr ++ tail)).dropWhile isspace =
        45 :: (d0 :: dr ++ tail) := by
      simp [List.dropWhile, h45]
    have h45v : ((45 : CChar) : Nat) = 45 := rfl
    simp only [if_true, h1, h45v]
    rw [htw]
    simp

theorem require_auth_command_events (tr : Tracker) (auth_token : CString)
    (getenv : Option CString) (buffer : List CChar) (ip : CString) (now : Int)
    (second_read : Option (List CChar)) (c : CString)
    (h : (require_auth tr auth_token getenv buffer ip now second_read).command = some c) :
    (require_auth tr auth_token getenv buffer ip now second_read).events = [] ∨
    (require_auth tr auth_token getenv buffer ip now second_read).events =
      [Event.sock_read (MAX_BUFFER - 1)] := by
  unfold require_auth at h ⊢
  simp only at h ⊢
  by_cases h1 : (!starts_with_auth (first_line buffer)) = true
  · rw [if_pos h1] at h; simp at h
  · rw [if_neg h1] at h ⊢
    by_cases h2 : provided_token (first_line buffer) = []
    · rw [if_pos h2] at h; simp at h
    · rw [if_neg h2] at h ⊢
      by_cases h3 : provided_token (first_line buffer) ≠ get_auth_token auth_token getenv
      · rw [if_pos h3] at h; simp at h
      · rw [if_neg h3] at h ⊢
        by_cases h4 : rest_after_line buffer = none ∨ rest_after_line buffer = some []
        · rw [if_pos h4] at h ⊢
          cases second_read with
          | none => simp at h
          | some bytes =>
            simp only at h ⊢
            by_cases h5 : bytes = []
            · rw [if_pos h5] at h; simp at h
            · rw [if_neg h5]; right; rfl
        · rw [if_neg h4]; left; rfl

/-- The dispatch of a well-formed `UPLOAD <name> <size>` command. -/
theorem dispatch_upload (ip name ds tail : CString) (neg : Bool)
    (hname : name ≠ []) (hnsp : ∀ c ∈ name, isspace c = false)
    (hds : ds ≠ []) (hdig : ∀ c ∈ ds, isdigit c = true)
    (htail : ∀ c, tail.head? = some c → isdigit c = false) :
    dispatch ip (ascii "UPLOAD " ++ name ++ ascii " " ++ (if neg then ascii "-" else []) ++
        ds ++ tail) =
      if 1 ≤ (if neg then -(digits_value ds : Int) else (digits_value ds : Int)) ∧
          (if neg then -(digits_value ds : Int) else (digits_value ds : Int)) ≤ 104857600 then
        Dispatch.upload name (if neg then -(digits_value ds : Int) else (digits_value ds : Int))
      else Dispatch.reply [Event.sock_write (ascii "ERROR Invalid file size\n")] := by
  have e1 : ascii "UPLOAD " = [85, 80, 76, 79, 65, 68, 32] := by decide
  have e0 : ascii "UPLOAD" = [85, 80, 76, 79, 65, 68] := by decide
  have e2 : ascii " " = [32] := by decide
  have e3 : ascii "-" = [45] := by decide
  have hsend : send_response (ascii "ERROR") (ascii "Invalid file size") =
      Event.sock_write (ascii "ERROR Invalid file size\n") := by decide
  have hshape : ascii "UPLOAD " ++ name ++ ascii " " ++ (if neg then ascii "-" else []) ++
      ds ++ tail =
      [85, 80, 76, 79, 65, 68] ++ ([32] ++ (name ++ ([32] ++
        ((if neg then [(45 : CChar)] else []) ++ (ds ++ tail))))) := by
    rw [e1, e2, e3]; simp
  have hsp : ∀ c ∈ [(32 : CChar)], isspace c = true := by
    intro c hc
    simp only [List.mem_singleton] at hc
    subst hc
    decide
  have hw := scan_word_spec [32] name
    ([32] ++ ((if neg then [(45 : CChar)] else []) ++ (ds ++ tail))) hsp hname hnsp
    (fun c hc => by
      simp only [List.singleton_append, List.head?_cons, Option.some.injEq] at hc
      subst hc; decide)
  have hl := scan_long_spec [32] ds tail neg hsp hds hdig htail
  unfold dispatch
  rw [hshape]
  have htake : ([85, 80, 76, 79, 65, 68] ++ ([32] ++ (name ++ ([32] ++
      ((if neg then [(45 : CChar)] else []) ++ (ds ++ tail)))))).take 6 =
      [85, 80, 76, 79, 65, 68] := by simp
  have hdrop : ([85, 80, 76, 79, 65, 68] ++ ([32] ++ (name ++ ([32] ++
      ((if neg then [(45 : CChar)] else []) ++ (ds ++ tail)))))).drop 6 =
      [32] ++ (name ++ ([32] ++ ((if neg then [(45 : CChar)] else []) ++ (ds ++ tail)))) := by
    simp
  rw [htake, hdrop, e0]
  simp only [beq_self_eq_true, if_true, hw, if_neg hname, hl, hsend]
  generalize (if neg = true then -(digits_value ds : Int) else (digits_value ds : Int)) = v
  simp only [LONG_MAX, LONG_MIN]
  by_cases h1 : 1 ≤ v ∧ v ≤ 104857600
  · rw [if_pos h1]
    rw [if_neg (by omega), if_neg (by omega)]
    rw [if_neg (by omega)]
  · rw [if_neg h1]
    split_ifs <;> first | rfl | omega

/-- C14. Upload size limit: for every well-formed command `UPLOAD <name> <size>` that
reaches the dispatch of `handle_client`, `handle_upload` is invoked (with that name and
size) exactly when `1 ≤ size ≤ 104857600`; for any other size the only response is
`ERROR Invalid file size`, no handler runs and nothing in the file system is touched. -/
theorem upload_size_limit (tr : Tracker) (auth_token ip : CString) (env : ClientEnv)
    (bytes : List CChar) (name ds tail : CString) (neg : Bool)
    (hread : env.first_read = some bytes) (hne : bytes ≠ [])
    (hauth : (require_auth tr auth_token env.getenv (bytes.take (MAX_BUFFER - 1)) ip env.now
        env.second_read).command =
      some (ascii "UPLOAD " ++ name ++ ascii " " ++ (if neg then ascii "-" else []) ++
        ds ++ tail))
    (hname : name ≠ []) (hnsp : ∀ c ∈ name, isspace c = false)
    (hds : ds ≠ []) (hdig : ∀ c ∈ ds, isdigit c = true)
    (htail : ∀ c, tail.head? = some c → isdigit c = false) :
    ((handle_client tr auth_token ip env).handler =
        some (Dispatch.upload name
          (if neg then -(digits_value ds : Int) else (digits_value ds : Int))) ↔
      (1 ≤ (if neg then -(digits_value ds : Int) else (digits_value ds : Int)) ∧
        (if neg then -(digits_value ds : Int) else (digits_value ds : Int)) ≤ 104857600)) ∧
    (¬ (1 ≤ (if neg then -(digits_value ds : Int) else (digits_value ds : Int)) ∧
        (if neg then -(digits_value ds : Int) else (digits_value ds : Int)) ≤ 104857600) →
      (handle_client tr auth_token ip env).handler = none ∧
      (handle_client tr auth_token ip env).events.filter Event.isResponse =
        [Event.sock_write (ascii "ERROR Invalid file size\n")] ∧
      ∀ e ∈ (handle_client tr auth_token ip env).events, e.touchesFiles = false) := by
  have hd := dispatch_upload ip name ds tail neg hname hnsp hds hdig htail
  have hev := require_auth_command_events _ _ _ _ _ _ _ _ hauth
  generalize (if neg = true then -(digits_value ds : Int) else (digits_value ds : Int)) = v
    at hd ⊢
  unfold handle_client
  simp only [hread, if_neg hne, hauth]
  by_cases h1 : 1 ≤ v ∧ v ≤ 104857600
  · rw [if_pos h1] at hd
    rw [hd]
    simp only
    exact ⟨by simp [h1], fun hn => absurd h1 hn⟩
  · rw [if_neg h1] at hd
    rw [hd]
    simp only
    refine ⟨by simp [h1], fun _ => ⟨trivial, ?_, ?_⟩⟩
    · rcases hev with h | h <;> rw [h] <;> rfl
    · intro e he
      rcases hev with h | h <;> rw [h] at he <;> simp at he <;>
        rcases he with rfl | rfl | rfl <;> rfl

set_option maxRecDepth 20000 in
theorem upload_size_limit_witness :
    (handle_client Tracker.init AUTH_TOKEN_DEFAULT (ascii "10.0.0.7")
        ⟨some (ascii "AUTH os-core-token\nUPLOAD alice/note 104857601\n"), none, 5,
          none⟩).handler = none ∧
    (handle_client Tracker.init AUTH_TOKEN_DEFAULT (ascii "10.0.0.7")
        ⟨some (ascii "AUTH os-core-token\nUPLOAD alice/note 104857601\n"), none, 5,
          none⟩).events.filter Event.isResponse =
      [Event.sock_write (ascii "ERROR Invalid file size\n")] :=
  ⟨((upload_size_limit Tracker.init AUTH_TOKEN_DEFAULT (ascii "10.0.0.7")
      ⟨some (ascii "AUTH os-core-token\nUPLOAD alice/note 104857601\n"), none, 5, none⟩
      (ascii "AUTH os-core-token\nUPLOAD alice/note 104857601\n")
      (ascii "alice/note") (ascii "104857601") (ascii "\n") false rfl (by decide) (by decide)
      (by decide) (by decide) (by decide) (by decide) (by decide)).2 (by decide)).1,
   ((upload_size_limit Tracker.init AUTH_TOKEN_DEFAULT (ascii "10.0.0.7")
      ⟨some (ascii "AUTH os-core-token\nUPLOAD alice/note 104857601\n"), none, 5, none⟩
      (ascii "AUTH os-core-token\nUPLOAD alice/note 104857601\n")
      (ascii "alice/note") (ascii "104857601") (ascii "\n") false rfl (by decide) (by decide)
      (by decide) (by decide) (by decide) (by decide) (by decide)).2 (by decide)).2.1⟩

/-! ## Bounded transfer -/

theorem reads_bounded_quiet (filesize total : Int) (l m : List Event)
    (h : ∀ e ∈ l, e.isQuiet = true) :
    reads_bounded filesize total (l ++ m) = reads_bounded filesize total m := by
  induction l with
  | nil => rfl
  | cons e es ih =>
    have he := h e (List.mem_cons_self _ _)
    have hes := ih (fun x hx => h x (List.mem_cons_of_mem _ hx))
    cases e <;> simp_all [reads_bounded, Event.isQuiet]

theorem written_bytes_quiet (l m : List Event) (h : ∀ e ∈ l, e.isQuiet = true) :
    written_bytes (l ++ m) = written_bytes m := by
  induction l with
  | nil => rfl
  | cons e es ih =>
    have he := h e (List.mem_cons_self _ _)
    have hes := ih (fun x hx => h x (List.mem_cons_of_mem _ hx))
    cases e <;> simp_all [written_bytes, Event.isQuiet]

theorem transfer_trace_all (l : List Event) (h : Event.fs_close ∉ l) :
    transfer_trace l = l := by
  unfold transfer_trace
  rw [List.takeWhile_eq_self_iff]
  intro e he
  simp only [ne_eq, decide_not, Bool.not_eq_true', decide_eq_false_iff_not]
  rintro rfl
  exact h he

theorem transfer_trace_cut (l rest : List Event) (h : Event.fs_close ∉ l) :
    transfer_trace (l ++ Event.fs_close :: rest) = l := by
  unfold transfer_trace
  induction l with
  | nil => simp [List.takeWhile]
  | cons e es ih =>
    have he : e ≠ Event.fs_close := fun hh => h (by rw [hh]; exact List.mem_cons_self _ _)
    have hes := ih (fun hh => h (List.mem_cons_of_mem _ hh))
    simp only [List.cons_append, List.takeWhile, ne_eq, he, not_false_eq_true, decide_True,
      List.append_eq]
    simp only [ne_eq] at hes
    rw [hes]

/-- The transfer loop: reads are bounded, the file is never closed inside the loop, and
on normal completion the content is what the writes appended, `filesize` bytes in all. -/
theorem upload_loop_bounded (filename : CString) (filesize start_time : Int)
    (iters : List UploadIter) (total_read : Int) (content : CString) (r : LoopEnd)
    (hr : upload_loop filename filesize start_time iters total_read content = some r)
    (htot : total_read ≤ filesize) :
    reads_bounded filesize total_read r.events = true ∧ Event.fs_close ∉ r.events ∧
    (r.completed = true →
      r.content = content ++ written_bytes r.events ∧
      total_read + ((written_bytes r.events).length : Int) = filesize) := by
  induction iters generalizing total_read content r with
  | nil =>
    simp only [upload_loop] at hr
    split at hr
    · simp at hr
    · simp only [Option.some.injEq] at hr
      subst hr
      refine ⟨by simp [reads_bounded, htot], by simp, fun _ => ?_⟩
      simp only [written_bytes, List.append_nil, List.length_nil, true_and]
      push_cast
      omega
  | cons it rest ih =>
    simp only [upload_loop] at hr
    have hto : ∀ to_read : Nat,
        to_read = (if filesize - total_read < (MAX_BUFFER : Int)
          then (filesize - total_read).toNat else MAX_BUFFER) → total_read < filesize →
        (to_read : Int) ≤ min (filesize - total_read) 4096 := by
      intro to_read h1 h2
      rw [h1]
      simp only [MAX_BUFFER]
      split <;> omega
    generalize hgen : (if filesize - total_read < (MAX_BUFFER : Int)
      then (filesize - total_read).toNat else MAX_BUFFER) = to_read at hr
    have hb := hto to_read hgen.symm
    by_cases h1 : total_read < filesize
    · rw [if_pos h1] at hr
      have hb1 := hb h1
      by_cases h2 : it.current_time - start_time > UPLOAD_TIMEOUT
      · rw [if_pos h2] at hr
        simp only [Option.some.injEq] at hr
        subst hr
        refine ⟨by simp [reads_bounded, send_response, htot], by simp [send_response],
          fun h => by simp at h⟩
      · rw [if_neg h2] at hr
        cases hread : it.read with
        | eintr =>
          rw [hread] at hr
          simp only [Option.map_eq_some'] at hr
          obtain ⟨r1, hr1, hr2⟩ := hr
          subst hr2
          obtain ⟨i1, i2, i3⟩ := ih total_read content r1 hr1 htot
          refine ⟨by simp [reads_bounded, htot, hb1, i1], ?_, ?_⟩
          · simp only [List.mem_cons, not_or]
            exact ⟨by simp, i2⟩
          · intro hc
            simpa [written_bytes] using i3 hc
        | closed =>
          rw [hread] at hr
          simp only [Option.some.injEq] at hr
          subst hr
          refine ⟨by simp [reads_bounded, send_response, htot, hb1], by simp [send_response],
            fun h => by simp at h⟩
        | data bytes =>
          rw [hread] at hr
          simp only at hr
          have hclen : ((List.take to_read bytes).length : Int) ≤ to_read := by
            rw [List.length_take]; omega
          by_cases hne : List.take to_read bytes = []
          · rw [if_pos hne] at hr
            simp only [Option.some.injEq] at hr
            subst hr
            refine ⟨by simp [reads_bounded, send_response, htot, hb1],
              by simp [send_response], fun h => by simp at h⟩
          · rw [if_neg hne] at hr
            by_cases hw : it.written ≠ ((List.take to_read bytes).length : Int)
            · rw [if_pos hw] at hr
              simp only [Option.some.injEq] at hr
              subst hr
              refine ⟨?_, by simp [send_response], fun h => by simp at h⟩
              simp only [reads_bounded, send_response, htot, hb1, decide_True, Bool.and_self,
                Bool.true_and, decide_eq_true_eq]
              omega
            · rw [if_neg hw] at hr
              simp only [Option.map_eq_some'] at hr
              obtain ⟨r1, hr1, hr2⟩ := hr
              subst hr2
              obtain ⟨i1, i2, i3⟩ := ih (total_read + (List.take to_read bytes).length)
                (content ++ List.take to_read bytes) r1 hr1 (by omega)
              refine ⟨?_, ?_, ?_⟩
              · simp only [reads_bounded, htot, hb1, decide_True, Bool.and_self, Bool.true_and]
                exact i1
              · simp only [List.mem_cons, not_or]
                exact ⟨by simp, by simp, i2⟩
              · intro hc
                obtain ⟨j1, j2⟩ := i3 hc
                refine ⟨by simp [written_bytes, j1], ?_⟩
                simp only [written_bytes, List.length_append]
                push_cast
                omega
    · rw [if_neg h1] at hr
      simp only [Option.some.injEq] at hr
      subst hr
      refine ⟨by simp [reads_bounded, htot], by simp, fun _ => ?_⟩
      simp only [written_bytes, List.append_nil, List.length_nil, true_and]
      push_cast
      omega

theorem quiet_no_close (l : List Event) (h : ∀ e ∈ l, e.isQuiet = true) :
    Event.fs_close ∉ l := by
  intro hmem
  have := h _ hmem
  simp [Event.isQuiet] at this

theorem reads_bounded_all_quiet (filesize : Int) (l : List Event)
    (h : ∀ e ∈ l, e.isQuiet = true) (hsize : 0 ≤ filesize) :
    reads_bounded filesize 0 l = true := by
  have := reads_bounded_quiet filesize 0 l [] h
  rw [List.append_nil] at this
  rw [this]
  simp [reads_bounded, hsize]

theorem upload_transfer_bounded (SHA256 : CString → Digest) (t : LockTable) (self : Nat)
    (fs : FileSys) (env : UploadEnv) (name : CString) (filesize : Int) (pre : List Event)
    (r : UploadResult) (hpre : ∀ e ∈ pre, e.isQuiet = true)
    (hr : upload_transfer SHA256 t self fs env name filesize pre = some r)
    (hsize : 0 ≤ filesize) :
    reads_bounded filesize 0 (transfer_trace r.events) = true ∧
    (r.events.getLast? =
        some (send_response (ascii "SUCCESS") (ascii "File uploaded successfully")) →
      r.fs.stored = some (written_bytes (transfer_trace r.events)) ∧
      ((written_bytes (transfer_trace r.events)).length : Int) = filesize) := by
  unfold upload_transfer at hr
  simp only at hr
  split at hr
  · simp only [Option.some.injEq] at hr
    subst hr
    have hq : ∀ e ∈ pre ++
        [send_response (ascii "ERROR") (ascii "File is locked by another process"),
         Event.audit (ascii "UPLOAD") name (ascii "FAILED") (ascii "File locked")],
        e.isQuiet = true := by
      intro e he
      rcases List.mem_append.1 he with h | h
      · exact hpre e h
      · simp only [List.mem_cons, List.mem_singleton, List.not_mem_nil, or_false] at h
        rcases h with rfl | rfl <;> rfl
    simp only
    rw [transfer_trace_all _ (quiet_no_close _ hq)]
    refine ⟨reads_bounded_all_quiet filesize _ hq hsize, fun hlast => ?_⟩
    rw [getLast?_append_right _ _ (by simp)] at hlast
    simp [send_response] at hlast
  · split at hr
    · simp only [Option.some.injEq] at hr
      subst hr
      have hq : ∀ e ∈ pre ++
          [Event.fs_open (storage_path name) OpenMode.wronly_creat_trunc,
           send_response (ascii "ERROR") (ascii "Cannot create file"),
           Event.audit (ascii "UPLOAD") name (ascii "FAILED") (ascii "File creation error")],
          e.isQuiet = true := by
        intro e he
        rcases List.mem_append.1 he with h | h
        · exact hpre e h
        · simp only [List.mem_cons, List.mem_singleton, List.not_mem_nil, or_false] at h
          rcases h with rfl | rfl | rfl <;> rfl
      simp only
      rw [transfer_trace_all _ (quiet_no_close _ hq)]
      refine ⟨reads_bounded_all_quiet filesize _ hq hsize, fun hlast => ?_⟩
      rw [getLast?_append_right _ _ (by simp)] at hlast
      simp [send_response] at hlast
    · split at hr
      · simp at hr
      · rename_i loop hloop
        obtain ⟨l1, l2, l3⟩ :=
          upload_loop_bounded name filesize env.start_time env.iters 0 [] loop hloop hsize
        have hq : ∀ e ∈ pre ++
            [Event.fs_open (storage_path name) OpenMode.wronly_creat_trunc,
             send_response (ascii "READY") (ascii "Send file data")], e.isQuiet = true := by
          intro e he
          rcases List.mem_append.1 he with h | h
          · exact hpre e h
          · simp only [List.mem_cons, List.mem_singleton, List.not_mem_nil, or_false] at h
            rcases h with rfl | rfl <;> rfl
        have hnc : Event.fs_close ∉ (pre ++
            [Event.fs_open (storage_path name) OpenMode.wronly_creat_trunc,
             send_response (ascii "READY") (ascii "Send file data")]) ++ loop.events := by
          intro hm
          rcases List.mem_append.1 hm with h | h
          · exact quiet_no_close _ hq h
          · exact l2 h
        split at hr
        · rename_i hcomp
          simp only [Option.some.injEq] at hr
          subst hr
          have hcut : transfer_trace
              (pre ++
                [Event.fs_open (storage_path name) OpenMode.wronly_creat_trunc,
                 send_response (ascii "READY") (ascii "Send file data")] ++
                loop.events ++ [Event.fs_close] ++
                (compute_sha256_file SHA256 (storage_path name) (some loop.content) env.hash).2 ++
                (update_metadata fs.sidecar env.metadata name filesize
                  (some ((compute_sha256_file SHA256 (storage_path name) (some loop.content)
                    env.hash).1.getD (ascii "HASH_ERROR")))).2 ++
                [Event.audit (ascii "UPLOAD") name (ascii "SUCCESS")
                   ((ascii "Size: " ++ fmt_long filesize ++ ascii " bytes").take 255),
                 send_response (ascii "SUCCESS") (ascii "File uploaded successfully")]) =
              (pre ++
                [Event.fs_open (storage_path name) OpenMode.wronly_creat_trunc,
                 send_response (ascii "READY") (ascii "Send file data")]) ++ loop.events := by
            have := transfer_trace_cut _
              ((compute_sha256_file SHA256 (storage_path name) (some loop.content) env.hash).2 ++
                (update_metadata fs.sidecar env.metadata name filesize
                  (some ((compute_sha256_file SHA256 (storage_path name) (some loop.content)
                    env.hash).1.getD (ascii "HASH_ERROR")))).2 ++
                [Event.audit (ascii "UPLOAD") name (ascii "SUCCESS")
                   ((ascii "Size: " ++ fmt_long filesize ++ ascii " bytes").take 255),
                 send_response (ascii "SUCCESS") (ascii "File uploaded successfully")]) hnc
            simpa [List.append_assoc] using this
          simp only
          rw [hcut, reads_bounded_quiet _ _ _ _ hq, written_bytes_quiet _ _ hq]
          obtain ⟨c1, c2⟩ := l3 hcomp
          refine ⟨l1, fun _ => ⟨by rw [c1]; rfl, by simpa using c2⟩⟩
        · simp only [Option.some.injEq] at hr
          subst hr
          have hcut : transfer_trace
              (pre ++
                [Event.fs_open (storage_path name) OpenMode.wronly_creat_trunc,
                 send_response (ascii "READY") (ascii "Send file data")] ++
                loop.events ++ [Event.fs_close, Event.fs_unlink (storage_path name)]) =
              (pre ++
                [Event.fs_open (storage_path name) OpenMode.wronly_creat_trunc,
                 send_response (ascii "READY") (ascii "Send file data")]) ++ loop.events :=
            transfer_trace_cut _ [Event.fs_unlink (storage_path name)] hnc
          simp only
          rw [hcut, reads_bounded_quiet _ _ _ _ hq]
          refine ⟨l1, fun hlast => ?_⟩
          rw [getLast?_append_right _ _ (by simp)] at hlast
          simp [send_response] at hlast

theorem handle_upload_bounded (SHA256 : CString → Digest) (t : LockTable) (self : Nat)
    (fs : FileSys) (env : UploadEnv) (name : CString) (filesize : Int) (r : UploadResult)
    (hr : handle_upload SHA256 t self fs env name filesize = some r)
    (hsize : 0 ≤ filesize) :
    reads_bounded filesize 0 (transfer_trace r.events) = true ∧
    (r.events.getLast? =
        some (send_response (ascii "SUCCESS") (ascii "File uploaded successfully")) →
      r.fs.stored = some (written_bytes (transfer_trace r.events)) ∧
      ((written_bytes (transfer_trace r.events)).length : Int) = filesize) := by
  have hreject : ∀ l : List Event, (∀ e ∈ l, e.isQuiet = true) →
      l.getLast? ≠ some (send_response (ascii "SUCCESS") (ascii "File uploaded successfully")) →
      reads_bounded filesize 0 (transfer_trace l) = true ∧
      (l.getLast? =
          some (send_response (ascii "SUCCESS") (ascii "File uploaded successfully")) →
        fs.stored = some (written_bytes (transfer_trace l)) ∧
        ((written_bytes (transfer_trace l)).length : Int) = filesize) := by
    intro l hq hl
    rw [transfer_trace_all _ (quiet_no_close _ hq)]
    exact ⟨reads_bounded_all_quiet filesize _ hq hsize, fun h => absurd h hl⟩
  unfold handle_upload at hr
  split at hr
  · simp only [Option.some.injEq] at hr
    subst hr
    exact hreject _ (fun e he => by
      simp only [List.mem_cons, List.mem_singleton, List.not_mem_nil, or_false] at he
      rcases he with rfl | rfl | rfl <;> rfl) (by simp [send_response])
  · split at hr
    · simp only at hr
      split at hr
      · exact upload_transfer_bounded SHA256 t self fs env name filesize _ r
          (fun e he => by simp only [List.mem_singleton] at he; subst he; rfl) hr hsize
      · split at hr
        · exact upload_transfer_bounded SHA256 t self fs env name filesize _ r
            (fun e he => by
              simp only [List.mem_cons, List.mem_singleton, List.not_mem_nil, or_false] at he
              rcases he with rfl | rfl <;> rfl) hr hsize
        · simp only [Option.some.injEq] at hr
          subst hr
          exact hreject _ (fun e he => by
            simp only [List.mem_cons, List.mem_singleton, List.not_mem_nil, or_false] at he
            rcases he with rfl | rfl | rfl | rfl <;> rfl) (by simp [send_response])
    · split at hr
      · simp only [Option.some.injEq] at hr
        subst hr
        exact hreject _ (fun e he => by
          simp only [List.mem_cons, List.mem_singleton, List.not_mem_nil, or_false] at he
          rcases he with rfl | rfl | rfl <;> rfl) (by simp [send_response])
      · exact upload_transfer_bounded SHA256 t self fs env name filesize _ r
          (fun e he => by simp at he) hr hsize

/-- C19. Bounded transfer: in every run of `handle_upload` with declared size
`filesize ≥ 0`, each socket read asks for at most `min (filesize - total_read) 4096`
bytes and `total_read` never exceeds `filesize`; if the run ends with the success
response, the stored file holds exactly the concatenation, in order, of the bytes the
reads returned (each passed unchanged to `write`), `filesize` bytes in all.  The run
returns once the outcomes hold `filesize` reads that are not interrupted. -/
theorem bounded_transfer (SHA256 : CString → Digest) (t : LockTable) (self : Nat)
    (fs : FileSys) (env : UploadEnv) (name : CString) (filesize : Int)
    (hsize : 0 ≤ filesize) :
    (∀ r, handle_upload SHA256 t self fs env name filesize = some r →
      reads_bounded filesize 0 (transfer_trace r.events) = true ∧
      (r.events.getLast? =
          some (send_response (ascii "SUCCESS") (ascii "File uploaded successfully")) →
        r.fs.stored = some (written_bytes (transfer_trace r.events)) ∧
        ((written_bytes (transfer_trace r.events)).length : Int) = filesize)) ∧
    (filesize ≤ (progress_count env.iters : Int) →
      (handle_upload SHA256 t self fs env name filesize).isSome = true) :=
  ⟨fun r hr => handle_upload_bounded SHA256 t self fs env name filesize r hr hsize,
   handle_upload_isSome SHA256 t self fs env name filesize⟩

theorem bounded_transfer_witness :
    ∃ r, handle_upload sample_digest LockTable.empty 1 ⟨none, none⟩ sample_upload_env
        (ascii "alice/note") 12 = some r ∧
      transfer_trace r.events =
        [Event.fs_stat (ascii "./storage/alice"),
         Event.fs_open (ascii "./storage/alice/note") OpenMode.wronly_creat_trunc,
         Event.sock_write (ascii "READY Send file data\n"),
         Event.sock_read 12, Event.fs_write (ascii "hello, "),
         Event.sock_read 5, Event.fs_write (ascii "world")] ∧
      reads_bounded 12 0 (transfer_trace r.events) = true ∧
      r.fs.stored = some (written_bytes (transfer_trace r.events)) :=
  ⟨(handle_upload sample_digest LockTable.empty 1 ⟨none, none⟩ sample_upload_env
      (ascii "alice/note") 12).get (by decide),
   by simp, by decide,
   ((bounded_transfer sample_digest LockTable.empty 1 ⟨none, none⟩ sample_upload_env
      (ascii "alice/note") 12 (by decide)).1 _ (by simp)).1,
   (((bounded_transfer sample_digest LockTable.empty 1 ⟨none, none⟩ sample_upload_env
      (ascii "alice/note") 12 (by decide)).1 _ (by simp)).2 (by decide)).1⟩

theorem error_reply_isErrorReply (m : CString) :
    (send_response (ascii "ERROR") m).isErrorReply = true := by
  have h : ascii "ERROR" ++ ascii " " ++ m ++ ascii "\n" =
      (69 : CChar) :: 82 :: 82 :: 79 :: 82 :: 32 :: (m ++ ascii "\n") := by
    have : ascii "ERROR" ++ ascii " " = [69, 82, 82, 79, 82, 32] := by decide
    rw [this]; rfl
  have hp : ascii "ERROR " = [69, 82, 82, 79, 82, 32] := by decide
  unfold send_response Event.isErrorReply
  simp only [h, hp, MAX_BUFFER]
  rw [show (4096 - 1 : Nat) = 4089 + 1 + 1 + 1 + 1 + 1 + 1 from rfl]
  simp only [List.take_succ_cons, List.isPrefixOf]
  decide

theorem success_reply_isSuccessReply (m : CString) :
    (send_response (ascii "SUCCESS") m).isSuccessReply = true := rfl

theorem send_response_not_audit (s m : CString) : (send_response s m).isAudit = false := rfl

/-- A trace with one audit record between two parts without any, and a response that
agrees with its status, satisfies `one_audit_record`. -/
theorem one_audit_record_of_parts (op name status details : CString) (before after : List Event)
    (hb : ∀ e ∈ before, e.isAudit = false) (ha : ∀ e ∈ after, e.isAudit = false)
    (hst : (status = ascii "FAILED" ∧ ∃ e ∈ before ++ after, e.isErrorReply = true) ∨
      (status = ascii "SUCCESS" ∧ ∃ e ∈ before ++ after, e.isSuccessReply = true)) :
    one_audit_record op (before ++ Event.audit op name status details :: after) = true := by
  have hf : (before ++ Event.audit op name status details :: after).filter Event.isAudit =
      [Event.audit op name status details] := by
    rw [List.filter_append, List.filter_cons, filter_none _ _ hb, filter_none _ _ ha]
    rfl
  unfold one_audit_record
  rw [hf]
  simp only [decide_True, Bool.true_and, Bool.or_eq_true, Bool.and_eq_true, decide_eq_true_eq,
    List.any_eq_true]
  rcases hst with ⟨h1, e, he, h2⟩ | ⟨h1, e, he, h2⟩
  · refine Or.inl ⟨h1, e, ?_, h2⟩
    rcases List.mem_append.1 he with h | h
    · exact List.mem_append_left _ h
    · exact List.mem_append_right _ (List.mem_cons_of_mem _ h)
  · refine Or.inr ⟨h1, e, ?_, h2⟩
    rcases List.mem_append.1 he with h | h
    · exact List.mem_append_left _ h
    · exact List.mem_append_right _ (List.mem_cons_of_mem _ h)

/-- The audit records of the transfer loop of `handle_upload`: none when it completes;
when it fails, one `FAILED` record at the end of its trace, after an `ERROR` response. -/
theorem upload_loop_audit (filename : CString) (filesize start_time : Int)
    (iters : List UploadIter) (total_read : Int) (content : CString) (r : LoopEnd)
    (hr : upload_loop filename filesize start_time iters total_read content = some r) :
    (r.completed = true → ∀ e ∈ r.events, e.isAudit = false) ∧
    (r.completed = false → ∃ before details m,
      r.events = before ++ [Event.audit (ascii "UPLOAD") filename (ascii "FAILED") details] ∧
      (∀ e ∈ before, e.isAudit = false) ∧ send_response (ascii "ERROR") m ∈ before) := by
  induction iters generalizing total_read content r with
  | nil =>
    simp only [upload_loop] at hr
    split at hr
    · simp at hr
    · simp at hr; subst hr
      exact ⟨fun _ e he => by simp at he, fun h => by simp at h⟩
  | cons it rest ih =>
    simp only [upload_loop] at hr
    generalize (if filesize - total_read < (MAX_BUFFER : Int)
      then (filesize - total_read).toNat else MAX_BUFFER) = to_read at hr
    by_cases h1 : total_read < filesize
    · rw [if_pos h1] at hr
      by_cases h2 : it.current_time - start_time > UPLOAD_TIMEOUT
      · rw [if_pos h2] at hr
        simp only [Option.some.injEq] at hr; subst hr
        refine ⟨fun h => by simp at h, fun _ =>
          ⟨[send_response (ascii "ERROR") (ascii "Upload timeout")], _, ascii "Upload timeout", rfl,
            ?_, ?_⟩⟩
        · intro e he; simp only [List.mem_singleton] at he; subst he; rfl
        · simp
      · rw [if_neg h2] at hr
        cases hread : it.read with
        | eintr =>
          rw [hread] at hr
          simp only [Option.map_eq_some'] at hr
          obtain ⟨r1, hr1, hr2⟩ := hr
          subst hr2
          obtain ⟨i1, i2⟩ := ih total_read content r1 hr1
          refine ⟨fun hc e he => ?_, fun hc => ?_⟩
          · simp only [List.mem_cons] at he
            rcases he with rfl | he
            · rfl
            · exact i1 hc e he
          · obtain ⟨before, details, m, e1, e2, e3⟩ := i2 hc
            refine ⟨Event.sock_read to_read :: before, details, m, ?_, ?_, ?_⟩
            · simp only [e1, List.cons_append]
            · intro e he
              simp only [List.mem_cons] at he
              rcases he with rfl | he
              · rfl
              · exact e2 e he
            · exact List.mem_cons_of_mem _ e3
        | closed =>
          rw [hread] at hr
          simp only [Option.some.injEq] at hr; subst hr
          refine ⟨fun h => by simp at h, fun _ =>
            ⟨[Event.sock_read to_read,
              send_response (ascii "ERROR") (ascii "Transfer interrupted")], _,
              ascii "Transfer interrupted", rfl, ?_, ?_⟩⟩
          · intro e he
            simp only [List.mem_cons, List.mem_singleton, List.not_mem_nil, or_false] at he
            rcases he with rfl | rfl <;> rfl
          · simp
        | data bytes =>
          rw [hread] at hr
          simp only at hr
          by_cases hne : List.take to_read bytes = []
          · rw [if_pos hne] at hr
            simp only [Option.some.injEq] at hr; subst hr
            refine ⟨fun h => by simp at h, fun _ =>
              ⟨[Event.sock_read to_read,
                send_response (ascii "ERROR") (ascii "Transfer interrupted")], _,
                ascii "Transfer interrupted", rfl, ?_, ?_⟩⟩
            · intro e he
              simp only [List.mem_cons, List.mem_singleton, List.not_mem_nil, or_false] at he
              rcases he with rfl | rfl <;> rfl
            · simp
          · rw [if_neg hne] at hr
            by_cases hw : it.written ≠ ((List.take to_read bytes).length : Int)
            · rw [if_pos hw] at hr
              simp only [Option.some.injEq] at hr
              subst hr
              refine ⟨fun h => by simp at h, fun _ =>
                ⟨[Event.sock_read to_read, Event.fs_write (List.take to_read bytes),
                  send_response (ascii "ERROR") (ascii "Write error")], _, ascii "Write error", rfl,
                  ?_, ?_⟩⟩
              · intro e he
                simp only [List.mem_cons, List.mem_singleton, List.not_mem_nil, or_false] at he
                rcases he with rfl | rfl | rfl <;> rfl
              · simp
            · rw [if_neg hw] at hr
              simp only [Option.map_eq_some'] at hr
              obtain ⟨r1, hr1, hr2⟩ := hr
              subst hr2
              obtain ⟨i1, i2⟩ := ih _ _ r1 hr1
              refine ⟨fun hc e he => ?_, fun hc => ?_⟩
              · simp only [List.mem_cons] at he
                rcases he with rfl | rfl | he
                · rfl
                · rfl
                · exact i1 hc e he
              · obtain ⟨before, details, m, e1, e2, e3⟩ := i2 hc
                refine ⟨Event.sock_read to_read :: Event.fs_write (List.take to_read bytes) ::
                  before, details, m, ?_, ?_, ?_⟩
                · simp only [e1, List.cons_append]
                · intro e he
                  simp only [List.mem_cons] at he
                  rcases he with rfl | rfl | he
                  · rfl
                  · rfl
                  · exact e2 e he
                · exact List.mem_cons_of_mem _ (List.mem_cons_of_mem _ e3)
    · rw [if_neg h1] at hr
      simp only [Option.some.injEq] at hr; subst hr
      exact ⟨fun _ e he => by simp at he, fun h => by simp at h⟩

theorem hash_events_no_audit (SHA256 : CString → Digest) (path : CString)
    (file : Option CString) (env : HashEnv) :
    ∀ e ∈ (compute_sha256_file SHA256 path file env).2, e.isAudit = false := by
  intro e he
  unfold compute_sha256_file at he
  split at he
  · simp at he; subst he; rfl
  · split at he
    · simp at he; rcases he with rfl | rfl <;> rfl
    · simp at he; subst he; rfl

theorem metadata_events_no_audit (sidecar : Option CString) (env : MetaEnv)
    (filename : CString) (filesize : Int) (hash_hex : Option CString) :
    ∀ e ∈ (update_metadata sidecar env filename filesize hash_hex).2, e.isAudit = false := by
  intro e he
  unfold update_metadata at he
  split at he
  · simp at he; rcases he with rfl | rfl | rfl <;> rfl
  · simp at he; subst he; rfl

theorem read_expected_hash_no_audit (fs : FileSys) (env : DownloadEnv) (name : CString) :
    ∀ e ∈ (read_expected_hash fs env name).2, e.isAudit = false := by
  intro e he
  unfold read_expected_hash at he
  split at he
  · split at he
    · simp at he; rcases he with rfl | rfl <;> rfl
    · simp at he; subst he; rfl
  · simp at he; subst he; rfl

theorem download_loop_no_audit (fuel : Nat) (rest : CString) (fail_at : Option Nat) (i : Nat)
    (sends : List Int) (total_sent : Int) :
    ∀ e ∈ (download_loop fuel rest fail_at i sends total_sent).1, e.isAudit = false := by
  induction fuel generalizing rest i sends total_sent with
  | zero => intro e he; simp [download_loop] at he
  | succ fuel ih =>
    intro e he
    simp only [download_loop] at he
    split at he
    · simp at he
    · split at he
      · simp at he
      · split at he
        · simp only [List.mem_singleton] at he; subst he; rfl
        · simp only [List.mem_cons] at he
          rcases he with rfl | he
          · rfl
          · exact ih _ _ _ _ e he

theorem upload_transfer_audit (SHA256 : CString → Digest) (t : LockTable) (self : Nat)
    (fs : FileSys) (env : UploadEnv) (name : CString) (filesize : Int) (pre : List Event)
    (r : UploadResult) (hpre : ∀ e ∈ pre, e.isAudit = false)
    (hr : upload_transfer SHA256 t self fs env name filesize pre = some r) :
    one_audit_record (ascii "UPLOAD") r.events = true := by
  unfold upload_transfer at hr
  simp only at hr
  split at hr
  · simp only [Option.some.injEq] at hr
    subst hr
    have hshape : pre ++
        [send_response (ascii "ERROR") (ascii "File is locked by another process"),
         Event.audit (ascii "UPLOAD") name (ascii "FAILED") (ascii "File locked")] =
        (pre ++ [send_response (ascii "ERROR") (ascii "File is locked by another process")]) ++
          Event.audit (ascii "UPLOAD") name (ascii "FAILED") (ascii "File locked") :: [] := by
      simp
    simp only
    rw [hshape]
    refine one_audit_record_of_parts _ _ _ _ _ _ ?_ (fun e he => by simp at he)
      (Or.inl ⟨rfl, _, ?_, error_reply_isErrorReply (ascii "File is locked by another process")⟩)
    · intro e he
      rcases List.mem_append.1 he with h | h
      · exact hpre e h
      · simp only [List.mem_singleton] at h; subst h; rfl
    · simp
  · split at hr
    · simp only [Option.some.injEq] at hr
      subst hr
      have hshape : pre ++
          [Event.fs_open (storage_path name) OpenMode.wronly_creat_trunc,
           send_response (ascii "ERROR") (ascii "Cannot create file"),
           Event.audit (ascii "UPLOAD") name (ascii "FAILED") (ascii "File creation error")] =
          (pre ++ [Event.fs_open (storage_path name) OpenMode.wronly_creat_trunc,
            send_response (ascii "ERROR") (ascii "Cannot create file")]) ++
            Event.audit (ascii "UPLOAD") name (ascii "FAILED") (ascii "File creation error") ::
              [] := by
        simp
      simp only
      rw [hshape]
      refine one_audit_record_of_parts _ _ _ _ _ _ ?_ (fun e he => by simp at he)
        (Or.inl ⟨rfl, _, ?_, error_reply_isErrorReply (ascii "Cannot create file")⟩)
      · intro e he
        rcases List.mem_append.1 he with h | h
        · exact hpre e h
        · simp only [List.mem_cons, List.mem_singleton, List.not_mem_nil, or_false] at h
          rcases h with rfl | rfl <;> rfl
      · simp
    · split at hr
      · simp at hr
      · rename_i loop hloop
        obtain ⟨l1, l2⟩ := upload_loop_audit name filesize env.start_time env.iters 0 [] loop hloop
        have hopened : ∀ e ∈ pre ++
            [Event.fs_open (storage_path name) OpenMode.wronly_creat_trunc,
             send_response (ascii "READY") (ascii "Send file data")], e.isAudit = false := by
          intro e he
          rcases List.mem_append.1 he with h | h
          · exact hpre e h
          · simp only [List.mem_cons, List.mem_singleton, List.not_mem_nil, or_false] at h
            rcases h with rfl | rfl <;> rfl
        split at hr
        · rename_i hcomp
          simp only [Option.some.injEq] at hr
          subst hr
          have hshape : pre ++
              [Event.fs_open (storage_path name) OpenMode.wronly_creat_trunc,
               send_response (ascii "READY") (ascii "Send file data")] ++
              loop.events ++ [Event.fs_close] ++
              (compute_sha256_file SHA256 (storage_path name) (some loop.content) env.hash).2 ++
              (update_metadata fs.sidecar env.metadata name filesize
                (some ((compute_sha256_file SHA256 (storage_path name) (some loop.content)
                  env.hash).1.getD (ascii "HASH_ERROR")))).2 ++
              [Event.audit (ascii "UPLOAD") name (ascii "SUCCESS")
                 ((ascii "Size: " ++ fmt_long filesize ++ ascii " bytes").take 255),
               send_response (ascii "SUCCESS") (ascii "File uploaded successfully")] =
              (pre ++
              [Event.fs_open (storage_path name) OpenMode.wronly_creat_trunc,
               send_response (ascii "READY") (ascii "Send file data")] ++
              loop.events ++ [Event.fs_close] ++
              (compute_sha256_file SHA256 (storage_path name) (some loop.content) env.hash).2 ++
              (update_metadata fs.sidecar env.metadata name filesize
                (some ((compute_sha256_file SHA256 (storage_path name) (some loop.content)
                  env.hash).1.getD (ascii "HASH_ERROR")))).2) ++
              Event.audit (ascii "UPLOAD") name (ascii "SUCCESS")
                 ((ascii "Size: " ++ fmt_long filesize ++ ascii " bytes").take 255) ::
               [send_response (ascii "SUCCESS") (ascii "File uploaded successfully")] := rfl
          simp only
          rw [hshape]
          refine one_audit_record_of_parts _ _ _ _ _ _ ?_ ?_
            (Or.inr ⟨rfl, _, List.mem_append_right _ (List.mem_singleton.2 rfl),
              success_reply_isSuccessReply (ascii "File uploaded successfully")⟩)
          · intro e he
            simp only [List.mem_append] at he
            rcases he with (((h | h) | h) | h) | h
            · exact hopened e (List.mem_append.2 h)
            · exact l1 hcomp e h
            · simp only [List.mem_singleton] at h; subst h; rfl
            · exact hash_events_no_audit _ _ _ _ e h
            · exact metadata_events_no_audit _ _ _ _ _ e h
          · intro e he
            simp only [List.mem_singleton] at he; subst he; rfl
        · rename_i hcomp
          simp only [Option.some.injEq] at hr
          subst hr
          obtain ⟨before, details, m, e1, e2, e3⟩ := l2 (by simpa using hcomp)
          have hshape : pre ++
              [Event.fs_open (storage_path name) OpenMode.wronly_creat_trunc,
               send_response (ascii "READY") (ascii "Send file data")] ++
              loop.events ++ [Event.fs_close, Event.fs_unlink (storage_path name)] =
              (pre ++
              [Event.fs_open (storage_path name) OpenMode.wronly_creat_trunc,
               send_response (ascii "READY") (ascii "Send file data")] ++ before) ++
              Event.audit (ascii "UPLOAD") name (ascii "FAILED") details ::
                [Event.fs_close, Event.fs_unlink (storage_path name)] := by
            rw [e1]; simp
          simp only
          rw [hshape]
          refine one_audit_record_of_parts _ _ _ _ _ _ ?_ ?_
            (Or.inl ⟨rfl, _, List.mem_append_left _ (List.mem_append_right _ e3),
              error_reply_isErrorReply m⟩)
          · intro e he
            rcases List.mem_append.1 he with h | h
            · exact hopened e h
            · exact e2 e h
          · intro e he
            simp only [List.mem_cons, List.mem_singleton, List.not_mem_nil, or_false] at he
            rcases he with rfl | rfl <;> rfl

theorem handle_upload_audit (SHA256 : CString → Digest) (t : LockTable) (self : Nat)
    (fs : FileSys) (env : UploadEnv) (name : CString) (filesize : Int) (r : UploadResult)
    (hr : handle_upload SHA256 t self fs env name filesize = some r) :
    one_audit_record (ascii "UPLOAD") r.events = true := by
  unfold handle_upload at hr
  split at hr
  · simp only [Option.some.injEq] at hr
    subst hr
    exact one_audit_record_of_parts _ _ _ _
      [send_response (ascii "ERROR") (ascii "Invalid filename")]
      [Event.security (ascii "ACCESS_VIOLATION") [] name (ascii "Path traversal attempt")]
      (fun e he => by simp only [List.mem_singleton] at he; subst he; rfl)
      (fun e he => by simp only [List.mem_singleton] at he; subst he; rfl)
      (Or.inl ⟨rfl, _, List.mem_append_left _ (List.mem_singleton.2 rfl),
        error_reply_isErrorReply (ascii "Invalid filename")⟩)
  · split at hr
    · simp only at hr
      split at hr
      · exact upload_transfer_audit SHA256 t self fs env name filesize _ r
          (fun e he => by simp only [List.mem_singleton] at he; subst he; rfl) hr
      · split at hr
        · exact upload_transfer_audit SHA256 t self fs env name filesize _ r
            (fun e he => by
              simp only [List.mem_cons, List.mem_singleton, List.not_mem_nil, or_false] at he
              rcases he with rfl | rfl <;> rfl) hr
        · simp only [Option.some.injEq] at hr
          subst hr
          rename_i username_len _ _ _
          exact one_audit_record_of_parts _ _ _ _
            [Event.fs_stat ((STORAGE_DIR ++ name.take username_len).take (MAX_PATH - 1)),
             Event.fs_mkdir ((STORAGE_DIR ++ name.take username_len).take (MAX_PATH - 1)),
             send_response (ascii "ERROR") (ascii "Cannot create user directory")] []
            (fun e he => by
              simp only [List.mem_cons, List.mem_singleton, List.not_mem_nil, or_false] at he
              rcases he with rfl | rfl | rfl <;> rfl)
            (fun e he => by simp at he)
            (Or.inl ⟨rfl, send_response (ascii "ERROR") (ascii "Cannot create user directory"),
              by simp, error_reply_isErrorReply (ascii "Cannot create user directory")⟩)
    · split at hr
      · simp only [Option.some.injEq] at hr
        subst hr
        exact one_audit_record_of_parts _ _ _ _
          [send_response (ascii "ERROR") (ascii "Invalid filename - too many path separators")]
          [Event.security (ascii "ACCESS_VIOLATION") [] name (ascii "Multiple path separators")]
          (fun e he => by simp only [List.mem_singleton] at he; subst he; rfl)
          (fun e he => by simp only [List.mem_singleton] at he; subst he; rfl)
          (Or.inl ⟨rfl, _, List.mem_append_left _ (List.mem_singleton.2 rfl),
            error_reply_isErrorReply (ascii "Invalid filename - too many path separators")⟩)
      · exact upload_transfer_audit SHA256 t self fs env name filesize _ r
          (fun e he => by simp at he) hr

theorem success_header_isSuccessReply (rest : CString) :
    (Event.sock_write ((ascii "SUCCESS " ++ rest).take 255)).isSuccessReply = true := rfl

/-- A download of a validated name either leaves exactly one `DOWNLOAD` record that agrees
with the response, or ends on the integrity failure. -/
theorem handle_download_audit (SHA256 : CString → Digest) (fs : FileSys) (env : DownloadEnv)
    (name : CString) (hok : download_name_ok name = true) :
    one_audit_record (ascii "DOWNLOAD") (handle_download SHA256 fs env name) = true ∨
    (handle_download SHA256 fs env name).any (Event.isSecurity (ascii "INTEGRITY_FAIL")) =
      true := by
  have h0 : (traversal_check name || decide (slash_count name > 1)) = false := by
    simpa [download_name_ok] using hok
  unfold handle_download
  rw [h0]
  simp only [Bool.false_eq_true, if_false]
  have hnotfound : one_audit_record (ascii "DOWNLOAD")
      [Event.fs_stat (storage_path name), send_response (ascii "ERROR") (ascii "File not found"),
       Event.audit (ascii "DOWNLOAD") name (ascii "FAILED") (ascii "File not found")] = true :=
    one_audit_record_of_parts _ _ _ _
      [Event.fs_stat (storage_path name), send_response (ascii "ERROR") (ascii "File not found")]
      []
      (fun e he => by
        simp only [List.mem_cons, List.mem_singleton, List.not_mem_nil, or_false] at he
        rcases he with rfl | rfl <;> rfl)
      (fun e he => by simp at he)
      (Or.inl ⟨rfl, send_response (ascii "ERROR") (ascii "File not found"), by simp,
        error_reply_isErrorReply (ascii "File not found")⟩)
  split
  · exact Or.inl hnotfound
  · rename_i content hstored
    split
    · exact Or.inl hnotfound
    · split
      · left
        exact one_audit_record_of_parts _ _ _ _
          [Event.fs_stat (storage_path name), Event.fs_open (storage_path name) OpenMode.rdonly,
           send_response (ascii "ERROR") (ascii "Cannot open file")] []
          (fun e he => by
            simp only [List.mem_cons, List.mem_singleton, List.not_mem_nil, or_false] at he
            rcases he with rfl | rfl | rfl <;> rfl)
          (fun e he => by simp at he)
          (Or.inl ⟨rfl, send_response (ascii "ERROR") (ascii "Cannot open file"), by simp,
            error_reply_isErrorReply (ascii "Cannot open file")⟩)
      · split
        · left
          exact one_audit_record_of_parts _ _ _ _
            [Event.fs_stat (storage_path name),
             Event.fs_open (storage_path name) OpenMode.rdonly, Event.fd_lock false,
             send_response (ascii "ERROR") (ascii "File is locked for writing")]
            [Event.fs_close]
            (fun e he => by
              simp only [List.mem_cons, List.mem_singleton, List.not_mem_nil, or_false] at he
              rcases he with rfl | rfl | rfl | rfl <;> rfl)
            (fun e he => by simp only [List.mem_singleton] at he; subst he; rfl)
            (Or.inl ⟨rfl, send_response (ascii "ERROR") (ascii "File is locked for writing"),
              by simp, error_reply_isErrorReply (ascii "File is locked for writing")⟩)
        · split
          · right
            simp [Event.isSecurity]
          · left
            have hshape : ∀ (a b c d : List Event) (x y z : Event),
                a ++ b ++ c ++ [x, y] ++ d ++ [Event.fd_unlock, Event.fs_close, z] =
                (a ++ b ++ c ++ [x, y] ++ d ++ [Event.fd_unlock, Event.fs_close]) ++ z :: [] := by
              intro a b c d x y z; simp
            rw [hshape]
            refine one_audit_record_of_parts _ _ _ _ _ _ ?_ (fun e he => by simp at he)
              (Or.inr ⟨rfl,
                Event.sock_write ((ascii "SUCCESS " ++ fmt_long content.length).take 255), ?_,
                success_header_isSuccessReply _⟩)
            · intro e he
              simp only [List.mem_append] at he
              rcases he with ((((h | h) | h) | h) | h) | h
              · simp only [List.mem_cons, List.mem_singleton, List.not_mem_nil, or_false] at h
                rcases h with rfl | rfl | rfl <;> rfl
              · exact read_expected_hash_no_audit _ _ _ e h
              · exact hash_events_no_audit _ _ _ _ e h
              · simp only [List.mem_cons, List.mem_singleton, List.not_mem_nil, or_false] at h
                rcases h with rfl | rfl <;> rfl
              · exact download_loop_no_audit _ _ _ _ _ _ e h
              · simp only [List.mem_cons, List.mem_singleton, List.not_mem_nil, or_false] at h
                rcases h with rfl | rfl <;> rfl
            · simp

theorem handle_delete_audit (fs : FileSys) (env : DeleteEnv) (name : CString)
    (hok : delete_name_ok name = true) :
    one_audit_record (ascii "DELETE") (handle_delete fs env name).2 = true := by
  have h0 : (traversal_check name || decide (slash_count name > 1)) = false := by
    simpa [delete_name_ok] using hok
  unfold handle_delete
  rw [h0]
  simp only [Bool.false_eq_true, if_false]
  split
  · exact one_audit_record_of_parts _ _ _ _
      [Event.fs_access (storage_path name),
       send_response (ascii "ERROR") (ascii "File not found")] []
      (fun e he => by
        simp only [List.mem_cons, List.mem_singleton, List.not_mem_nil, or_false] at he
        rcases he with rfl | rfl <;> rfl)
      (fun e he => by simp at he)
      (Or.inl ⟨rfl, send_response (ascii "ERROR") (ascii "File not found"), by simp,
        error_reply_isErrorReply (ascii "File not found")⟩)
  · split
    · exact one_audit_record_of_parts _ _ _ _
        [Event.fs_access (storage_path name), Event.fs_open (storage_path name) OpenMode.rdwr,
         send_response (ascii "ERROR") (ascii "Cannot open file")] []
        (fun e he => by
          simp only [List.mem_cons, List.mem_singleton, List.not_mem_nil, or_false] at he
          rcases he with rfl | rfl | rfl <;> rfl)
        (fun e he => by simp at he)
        (Or.inl ⟨rfl, send_response (ascii "ERROR") (ascii "Cannot open file"), by simp,
          error_reply_isErrorReply (ascii "Cannot open file")⟩)
    · split
      · exact one_audit_record_of_parts _ _ _ _
          [Event.fs_access (storage_path name), Event.fs_open (storage_path name) OpenMode.rdwr,
           Event.fd_lock true, send_response (ascii "ERROR") (ascii "File is currently in use")]
          [Event.fs_close]
          (fun e he => by
            simp only [List.mem_cons, List.mem_singleton, List.not_mem_nil, or_false] at he
            rcases he with rfl | rfl | rfl | rfl <;> rfl)
          (fun e he => by simp only [List.mem_singleton] at he; subst he; rfl)
          (Or.inl ⟨rfl, send_response (ascii "ERROR") (ascii "File is currently in use"),
            by simp, error_reply_isErrorReply (ascii "File is currently in use")⟩)
      · split
        · exact one_audit_record_of_parts _ _ _ _
            [Event.fs_access (storage_path name),
             Event.fs_open (storage_path name) OpenMode.rdwr,
             Event.fd_lock true, Event.fs_close, Event.fs_unlink (storage_path name),
             send_response (ascii "SUCCESS") (ascii "File deleted successfully")] []
            (fun e he => by
              simp only [List.mem_cons, List.mem_singleton, List.not_mem_nil, or_false] at he
              rcases he with rfl | rfl | rfl | rfl | rfl | rfl <;> rfl)
            (fun e he => by simp at he)
            (Or.inr ⟨rfl, send_response (ascii "SUCCESS") (ascii "File deleted successfully"),
              by simp, success_reply_isSuccessReply (ascii "File deleted successfully")⟩)
        · exact one_audit_record_of_parts _ _ _ _
            [Event.fs_access (storage_path name),
             Event.fs_open (storage_path name) OpenMode.rdwr,
             Event.fd_lock true, Event.fs_close, Event.fs_unlink (storage_path name),
             send_response (ascii "ERROR") (ascii "Delete failed")] []
            (fun e he => by
              simp only [List.mem_cons, List.mem_singleton, List.not_mem_nil, or_false] at he
              rcases he with rfl | rfl | rfl | rfl | rfl | rfl <;> rfl)
            (fun e he => by simp at he)
            (Or.inl ⟨rfl, send_response (ascii "ERROR") (ascii "Delete failed"), by simp,
              error_reply_isErrorReply (ascii "Delete failed")⟩)

theorem handle_list_audit (env : ListEnv) (username : CString) (hok : env.opendir_ok = true) :
    one_audit_record (ascii "LIST") (handle_list env username) = true := by
  unfold handle_list
  simp only [hok, Bool.not_true, Bool.false_eq_true, if_false]
  exact one_audit_record_of_parts _ _ _ _
    [Event.fs_opendir (list_dirpath username),
     Event.sock_write (ascii "SUCCESS\n" ++ (list_lines username (list_dirpath username)
        env.entries).1 ++
      (if (list_lines username (list_dirpath username) env.entries).2 = 0
        then ascii "No files found\n" else []))] []
    (fun e he => by
      simp only [List.mem_cons, List.mem_singleton, List.not_mem_nil, or_false] at he
      rcases he with rfl | rfl <;> rfl)
    (fun e he => by simp at he)
    (Or.inr ⟨rfl, Event.sock_write (ascii "SUCCESS\n" ++ (list_lines username
        (list_dirpath username) env.entries).1 ++
      (if (list_lines username (list_dirpath username) env.entries).2 = 0
        then ascii "No files found\n" else [])), by simp, rfl⟩)

theorem handle_locks_audit (env : LocksEnv) (hok : env.opendir_ok = true) :
    one_audit_record (ascii "LOCKS") (handle_locks env) = true := by
  unfold handle_locks
  simp only [hok, Bool.not_true, Bool.false_eq_true, if_false]
  exact one_audit_record_of_parts _ _ _ _
    [Event.fs_opendir STORAGE_DIR,
     Event.sock_write (ascii "SUCCESS\nFile Locks Status:\n" ++ (locks_lines env.entries).1 ++
      (if (locks_lines env.entries).2 = 0 then ascii "  No locked files\n" else []))] []
    (fun e he => by
      simp only [List.mem_cons, List.mem_singleton, List.not_mem_nil, or_false] at he
      rcases he with rfl | rfl <;> rfl)
    (fun e he => by simp at he)
    (Or.inr ⟨rfl, Event.sock_write (ascii "SUCCESS\nFile Locks Status:\n" ++
        (locks_lines env.entries).1 ++
      (if (locks_lines env.entries).2 = 0 then ascii "  No locked files\n" else [])),
      by simp, rfl⟩)

/-- The answers `handle_client` gives by itself carry no audit record. -/
theorem dispatch_reply_no_audit (ip command_buffer : CString) (events : List Event)
    (h : dispatch ip command_buffer = Dispatch.reply events) :
    events.filter Event.isAudit = [] := by
  unfold dispatch at h
  simp only at h
  split_ifs at h <;> first
    | (split at h <;> first
        | (split_ifs at h; simp only [Dispatch.reply.injEq] at h; subst h; rfl)
        | (simp only [Dispatch.reply.injEq] at h; subst h; rfl))
    | (simp only [Dispatch.reply.injEq] at h; subst h; rfl)

/-- C13 (counterexample). The authenticated command `UPLOAD a 0` reaches the dispatch of
`handle_client`, which answers `ERROR Invalid file size` by itself: no handler runs and
the run writes no audit record at all. -/
theorem size_rejection_not_audited :
    dispatch (ascii "10.0.0.7") (ascii "UPLOAD a 0\n") =
      Dispatch.reply [Event.sock_write (ascii "ERROR Invalid file size\n")] ∧
    handler_trace sample_digest LockTable.empty 1 ⟨none, none⟩ sample_handler_env
        (dispatch (ascii "10.0.0.7") (ascii "UPLOAD a 0\n")) =
      some [Event.sock_write (ascii "ERROR Invalid file size\n")] ∧
    one_audit_record (ascii "UPLOAD") [Event.sock_write (ascii "ERROR Invalid file size\n")] =
      false := by
  decide

/-- C13 (amended). Audit completeness for the commands a handler completes: for every
command that reaches the dispatch of `handle_client` and every outcome of the system
calls, the run of the handler leaves exactly one audit record, for that operation, with
`STATUS=SUCCESS` next to a `SUCCESS` response and `STATUS=FAILED` next to an `ERROR`
response, in these cases: every `UPLOAD` that `handle_upload` receives; a `DOWNLOAD` of a
name that passes the validation and does not end on the integrity failure; a `DELETE` of
a name that passes the validation; a `LIST` or `LOCKS` whose directory opens.  A command
that `handle_client` answers by itself (malformed, or an upload size out of range) leaves
no audit record.  The run returns once the outcomes of an upload hold `filesize` reads
that are not interrupted. -/
theorem audit_completeness (SHA256 : CString → Digest) (t : LockTable) (self : Nat)
    (fs : FileSys) (env : HandlerEnv) (ip command_buffer : CString) :
    (∀ evs, handler_trace SHA256 t self fs env (dispatch ip command_buffer) = some evs →
      (∀ name size, dispatch ip command_buffer = Dispatch.upload name size →
        one_audit_record (ascii "UPLOAD") evs = true) ∧
      (∀ name, dispatch ip command_buffer = Dispatch.download name →
        download_name_ok name = true →
        evs.any (Event.isSecurity (ascii "INTEGRITY_FAIL")) = false →
        one_audit_record (ascii "DOWNLOAD") evs = true) ∧
      (∀ name, dispatch ip command_buffer = Dispatch.delete name →
        delete_name_ok name = true → one_audit_record (ascii "DELETE") evs = true) ∧
      (∀ username, dispatch ip command_buffer = Dispatch.list username →
        env.list.opendir_ok = true → one_audit_record (ascii "LIST") evs = true) ∧
      (dispatch ip command_buffer = Dispatch.locks →
        env.locks.opendir_ok = true → one_audit_record (ascii "LOCKS") evs = true) ∧
      (∀ events, dispatch ip command_buffer = Dispatch.reply events →
        evs.filter Event.isAudit = [])) ∧
    ((∀ name size, dispatch ip command_buffer = Dispatch.upload name size →
        size ≤ (progress_count env.upload.iters : Int)) →
      (handler_trace SHA256 t self fs env (dispatch ip command_buffer)).isSome = true) := by
  constructor
  · intro evs hrun
    refine ⟨?_, ?_, ?_, ?_, ?_, ?_⟩
    · intro name size hd
      rw [hd] at hrun
      simp only [handler_trace, Option.map_eq_some'] at hrun
      obtain ⟨r, hr, rfl⟩ := hrun
      exact handle_upload_audit SHA256 t self fs env.upload name size r hr
    · intro name hd hok hint
      rw [hd] at hrun
      simp only [handler_trace, Option.some.injEq] at hrun
      subst hrun
      rcases handle_download_audit SHA256 fs env.download name hok with h | h
      · exact h
      · rw [h] at hint; cases hint
    · intro name hd hok
      rw [hd] at hrun
      simp only [handler_trace, Option.some.injEq] at hrun
      subst hrun
      exact handle_delete_audit fs env.delete name hok
    · intro username hd hok
      rw [hd] at hrun
      simp only [handler_trace, Option.some.injEq] at hrun
      subst hrun
      exact handle_list_audit env.list username hok
    · intro hd hok
      rw [hd] at hrun
      simp only [handler_trace, Option.some.injEq] at hrun
      subst hrun
      exact handle_locks_audit env.locks hok
    · intro events hd
      have hna := dispatch_reply_no_audit ip command_buffer events hd
      rw [hd] at hrun
      simp only [handler_trace, Option.some.injEq] at hrun
      subst hrun
      exact hna
  · intro hup
    cases hd : dispatch ip command_buffer with
    | upload name size =>
      simp only [handler_trace, Option.isSome_map']
      exact handle_upload_isSome SHA256 t self fs env.upload name size (hup name size hd)
    | download name => rfl
    | list username => rfl
    | delete name => rfl
    | locks => rfl
    | logs => rfl
    | reply events => rfl

theorem audit_completeness_witness :
    one_audit_record (ascii "DOWNLOAD")
        (handle_download sample_digest ⟨some (ascii "hello"), none⟩ sample_handler_env.download
          (ascii "note")) = true ∧
    (handler_trace sample_digest LockTable.empty 1 ⟨some (ascii "hello"), none⟩
        sample_handler_env (dispatch (ascii "10.0.0.7") (ascii "DOWNLOAD note\n"))).isSome =
      true :=
  ⟨((audit_completeness sample_digest LockTable.empty 1 ⟨some (ascii "hello"), none⟩
      sample_handler_env (ascii "10.0.0.7") (ascii "DOWNLOAD note\n")).1 _ (by decide)).2.1
      (ascii "note") (by decide) (by decide) (by decide),
   (audit_completeness sample_digest LockTable.empty 1 ⟨some (ascii "hello"), none⟩
      sample_handler_env (ascii "10.0.0.7") (ascii "DOWNLOAD note\n")).2
      (fun name size h => by
        rw [show dispatch (ascii "10.0.0.7") (ascii "DOWNLOAD note\n") =
          Dispatch.download (ascii "note") from by decide] at h
        cases h)⟩

end FileServer
